import Mathlib

/-!
# seezlog: the slog handler, embedded

A shallow embedding of `handler.go` (package `seezlog`) together with
`internal/buffer` and `internal/color`.

Modelling conventions.

* A Go `string` / `[]byte` is a Lean `String`, read as its sequence of
  Unicode code points (well-formed UTF-8).  `buffer.Buffer` is mutated in
  place by the source; here every routine takes the buffer and returns the
  new buffer.
* Machine integers (`int`, `int64`, `slog.Level`) are `Int`; the code
  only compares and prints them, so no wrap-around is involved.
* A routine that can panic returns `Except Fault Buffer`.  The rewrite hook
  `ReplaceAttr` may return a group that contains the attribute it was given,
  which makes `appendAttr` / `appendValue` recurse without end in Go; the
  embedding therefore counts nested `appendAttr` calls with a fuel argument
  and reports `Fault.outOfFuel` when it is exhausted.
* Standard-library behaviour that is table driven or numerically involved
  (Unicode printability above Latin-1, time / float / duration formatting,
  `fmt.Append`, `runtime.CallersFrames`) is a parameter, `Runtime`.
* `Handler.mu` only serialises the final `Write`; it has no influence on the
  bytes produced and is not part of the handler record here.
* Aliasing and locking are studied on a second level, `Mem`: handlers are
  structs at addresses, their sequences are slice headers over backing arrays
  with spare capacity, and `append` writes in place when the capacity
  suffices.  The mutex is a field of the struct, so the address of a handler
  names its mutex; the last statements of `Handle` (`Lock`, `Write`,
  `Unlock`) are a step machine over two concurrent calls, `Race`.
-/

namespace Seezlog

/-! ## internal/color -/

namespace Color

def Reset : String := "\x1b[0m"
def Red : String := "\x1b[31m"
def Green : String := "\x1b[32m"
def Yellow : String := "\x1b[33m"
def Blue : String := "\x1b[34m"
def BrightBlack : String := "\x1b[90m"

end Color

/-! ## internal/buffer -/

/-- The rendering buffer `buffer.Buffer`. -/
abbrev Buffer := String

namespace Buffer

/-- `Buffer.WriteString`: `*b = append(*b, s...)`. -/
def WriteString (b : Buffer) (s : String) : Buffer := b ++ s

/-- `Buffer.WriteColor`: `*b = append(*b, color...)`. -/
def WriteColor (b : Buffer) (color : String) : Buffer := b ++ color

/-- `Buffer.ResetColor`: `*b = append(*b, color.Reset...)`. -/
def ResetColor (b : Buffer) : Buffer := b ++ Color.Reset

end Buffer

/-! ## Data model -/

/-- A `time.Time`; only its formatting (a `Runtime` parameter) is used. -/
structure Time where
  unixNano : Int
  deriving DecidableEq, Repr

/-- A `runtime.Frame`, of which the handler reads `File` and `Line`. -/
structure Frame where
  File : String
  Line : Int
  deriving DecidableEq, Repr

/-- The key type of a reflected map, as far as `Value.String` on a key and
`MapIndex(reflect.ValueOf(k))` with `k` a Go `string` depend on it. -/
inductive KeyType where
  /-- the predeclared type `string` -/
  | string
  /-- the empty interface, to which a `string` is assignable -/
  | emptyInterface
  /-- every other key type, with the text `reflect.Type.String` gives for it;
  a `string` is not assignable to it -/
  | other (typeName : String)
  deriving DecidableEq, Repr

/-- A `reflect.Value`, by `Kind`.  Values are finite trees: a pointer cycle
is not representable. -/
inductive RValue where
  /-- the zero `reflect.Value` (`reflect.ValueOf(nil)`, or a missing map key) -/
  | invalid
  | bool (v : Bool)
  /-- `Int`, `Int8` .. `Int64` -/
  | int (v : Int)
  /-- `Uint`, `Uint8` .. `Uint64`, `Uintptr` -/
  | uint (v : Nat)
  /-- `Float32`, `Float64`, by the IEEE-754 binary64 bits of `v.Float()` -/
  | float (bits : Nat)
  /-- `Complex64`, `Complex128`, by the binary64 bits of the two parts of
  `v.Complex()` -/
  | complex (reBits imBits : Nat)
  | string (v : String)
  /-- `Slice`; a nil slice has `isNil = true` and no elements -/
  | slice (isNil : Bool) (elems : List RValue)
  | array (elems : List RValue)
  /-- `Map`, with its entries in the order `MapKeys` yields them; a nil map
  has `isNil = true` and no entries -/
  | map (keyType : KeyType) (isNil : Bool) (entries : List (RValue × RValue))
  /-- `Struct`: for each field, in declaration order, its name, whether it is
  exported, and its value -/
  | struct (fields : List (String × Bool × RValue))
  /-- a nil `Ptr` -/
  | nilPtr
  | ptr (elem : RValue)
  /-- a nil `Interface` (as an element, field or map value) -/
  | nilIface
  | iface (elem : RValue)
  /-- `Chan`, `Func`, `UnsafePointer` -/
  | chanFunc (isNil : Bool)

/-- What `slog.Value.Any()` holds for `KindAny` / `KindLogValuer`: whether the
dynamic type implements `error` (then `err` is what `Error()` returns), and
the value as reflection sees it. -/
structure Payload where
  err : Option String
  rv : RValue

mutual
/-- A `slog.Value`, by `Kind`. -/
inductive Value where
  | string (s : String)
  | int64 (v : Int)
  | uint64 (v : Nat)
  /-- by the IEEE-754 bits -/
  | float64 (bits : Nat)
  | bool (v : Bool)
  /-- nanoseconds -/
  | duration (d : Int)
  | time (t : Time)
  | group (attrs : List Attr)
  | any (p : Payload)
  | logValuer (p : Payload)
/-- A `slog.Attr`. -/
inductive Attr where
  | mk (Key : String) (Value : Value)
end

/-- Field `Key` of a `slog.Attr`. -/
def Attr.Key : Attr → String
  | .mk k _ => k

/-- Field `Value` of a `slog.Attr`. -/
def Attr.Value : Attr → Value
  | .mk _ v => v

/-- A `slog.HandlerOptions`; `Level = none` is a nil `Leveler`, and
`ReplaceAttr = none` a nil hook. -/
structure HandlerOptions where
  AddSource : Bool
  Level : Option Int
  ReplaceAttr : Option (List String → Attr → Attr)

/-- The `Handler` struct (without `mu`); `w` identifies the sink. -/
structure Handler where
  opts : HandlerOptions
  colors : Bool
  w : Nat
  groups : List String
  attrs : List Attr

/-- A `slog.Record`; `attrs` is what `Record.Attrs` iterates over and
`NumAttrs` counts. -/
structure Record where
  Time : Time
  Message : String
  Level : Int
  PC : Nat
  attrs : List Attr

/-- Why a rendering routine did not return. -/
inductive Fault where
  /-- a Go run-time panic -/
  | panic
  /-- the embedding ran out of fuel (nested `appendAttr` calls) -/
  | outOfFuel
  deriving DecidableEq, Repr

/-- Go standard-library behaviour the handler relies on. -/
structure Runtime where
  /-- `strconv.IsPrint` on runes above U+00FF (the Unicode tables) -/
  isPrintWide : Char → Bool
  /-- the text `t.AppendFormat(b, layout)` appends -/
  timeFormat : Time → String → String
  /-- the text `strconv.AppendFloat(b, f, 'f', -1, 64)` appends -/
  formatFloat : Nat → String
  /-- `time.Duration.String` -/
  durationString : Int → String
  /-- the text `fmt.Append(b, val.Interface())` appends -/
  fmtSprint : RValue → String
  /-- the first frame of `runtime.CallersFrames([]uintptr{pc})` -/
  callersFrame : Nat → Frame

/-! ## Standard library, modelled -/

def LevelDebug : Int := -4
def LevelInfo : Int := 0
def LevelWarn : Int := 4
def LevelError : Int := 8

/-- `slog.Level.String`. -/
def levelString (l : Int) : String :=
  let str := fun (base : String) (val : Int) =>
    if val = 0 then base
    else base ++ (if 0 ≤ val then "+" else "") ++ toString val
  if l < LevelInfo then str "DEBUG" (l - LevelDebug)
  else if l < LevelWarn then str "INFO" (l - LevelInfo)
  else if l < LevelError then str "WARN" (l - LevelWarn)
  else str "ERROR" (l - LevelError)

/-- `strconv.AppendInt(b, i, 10)`. -/
def AppendInt (b : Buffer) (i : Int) : Buffer := b ++ toString i

/-- `strconv.AppendUint(b, i, 10)`. -/
def AppendUint (b : Buffer) (i : Nat) : Buffer := b ++ toString i

/-- `strconv.AppendBool`. -/
def AppendBool (b : Buffer) (v : Bool) : Buffer := b ++ (if v then "true" else "false")

/-- `strconv.IsPrint`: the Latin-1 fast path is spelled out, the tables for
wider runes come from the runtime. -/
def IsPrint (L : Runtime) (r : Char) : Bool :=
  if r.toNat ≤ 0xFF then
    if 0x20 ≤ r.toNat ∧ r.toNat ≤ 0x7E then true
    else if 0xA1 ≤ r.toNat ∧ r.toNat ≤ 0xFF then r.toNat != 0xAD
    else false
  else L.isPrintWide r

/-- One lower-case hexadecimal digit. -/
def hexDigit (n : Nat) : Char := "0123456789abcdef".data.getD (n % 16) '0'

/-- The `k` low hexadecimal digits of `n`, most significant first. -/
def hexDigits : Nat → Nat → List Char
  | 0, _ => []
  | k + 1, n => hexDigits k (n / 16) ++ [hexDigit n]

/-- The text `strconv.appendEscapedRune` appends for one rune, with quote
`"`, not ASCII-only, not graphic-only. -/
def escapedRune (L : Runtime) (r : Char) : String :=
  if r = Char.ofNat 0x22 ∨ r = Char.ofNat 0x5C then String.mk [Char.ofNat 0x5C, r]
  else if IsPrint L r then String.mk [r]
  else if r.toNat = 7 then "\\a"
  else if r.toNat = 8 then "\\b"
  else if r.toNat = 12 then "\\f"
  else if r.toNat = 10 then "\\n"
  else if r.toNat = 13 then "\\r"
  else if r.toNat = 9 then "\\t"
  else if r.toNat = 11 then "\\v"
  else if r.toNat < 0x20 ∨ r.toNat = 0x7F then "\\x" ++ String.mk (hexDigits 2 r.toNat)
  else if r.toNat < 0x10000 then "\\u" ++ String.mk (hexDigits 4 r.toNat)
  else "\\U" ++ String.mk (hexDigits 8 r.toNat)

/-- `strconv.Quote`: the double-quoted Go string literal of `s`. -/
def Quote (L : Runtime) (s : String) : String :=
  "\"" ++ String.join (s.data.map (escapedRune L)) ++ "\""

/-- `strconv.AppendQuote`: appends the literal `Quote` generates. -/
def AppendQuote (L : Runtime) (buf : Buffer) (s : String) : Buffer :=
  buf ++ Quote L s

/-- `strings.LastIndexByte`, as a position in the rune sequence (the byte
searched for is ASCII, which occurs in UTF-8 only as itself). -/
def LastIndexByte : List Char → Char → Int
  | [], _ => -1
  | x :: xs, c =>
    let i := LastIndexByte xs c
    if i ≠ -1 then i + 1 else if x = c then 0 else -1

/-- `sort.Strings`. -/
def sortStrings (keys : List String) : List String :=
  keys.insertionSort (fun a b => a ≤ b)

/-! ## handler.go -/

/-- The table `levelToColor`; a level that is not a key yields the zero
`Color`, the empty string. -/
def levelToColor (l : Int) : String :=
  if l = LevelDebug then Color.Green
  else if l = LevelInfo then Color.Blue
  else if l = LevelWarn then Color.Yellow
  else if l = LevelError then Color.Red
  else ""

/-- `NewHandler`; `opts = none` is a nil pointer. -/
def NewHandler (w : Nat) (colors : Bool) (opts : Option HandlerOptions) : Handler :=
  let opts := match opts with
    | none => { AddSource := false, Level := none, ReplaceAttr := none }
    | some o => o
  { opts := opts, colors := colors, w := w, groups := [], attrs := [] }

/-- `Handler.clone`. -/
def Handler.clone (h : Handler) : Handler :=
  { opts := h.opts, colors := h.colors, w := h.w, groups := h.groups, attrs := h.attrs }

/-- `Handler.Enabled`. -/
def Handler.Enabled (h : Handler) (level : Int) : Bool :=
  let minLevel := match h.opts.Level with
    | some l => l
    | none => LevelInfo
  decide (level ≥ minLevel)

/-- `Handler.WithAttrs`. -/
def Handler.WithAttrs (h : Handler) (attrs : List Attr) : Handler :=
  let h2 := h.clone
  { h2 with attrs := h2.attrs ++ attrs }

/-- `Handler.WithGroup`. -/
def Handler.WithGroup (h : Handler) (name : String) : Handler :=
  let h2 := h.clone
  { h2 with groups := h2.groups ++ [name] }

/-- `needsQuoting`. -/
def needsQuoting (L : Runtime) (s : String) : Bool :=
  s.data.any (fun r => !IsPrint L r || r == ' ' || r == Char.ofNat 0x22 || r == '=')

/-- `getShortPath`. -/
def getShortPath (f : Frame) : String :=
  -- Find the last separator.
  let idx := LastIndexByte f.File.data '/'
  if idx = -1 then f.File
  else
    -- Find the penultimate separator.
    let idx := LastIndexByte (f.File.data.take idx.toNat) '/'
    if idx = -1 then f.File
    else String.mk (f.File.data.drop (idx + 1).toNat)

/-- `Handler.appendKey`. -/
def Handler.appendKey (L : Runtime) (h : Handler) (b : Buffer) (key : String) : Buffer :=
  let b := if h.colors then b.WriteColor Color.BrightBlack else b
  let b := if needsQuoting L key then AppendQuote L b key else b.WriteString key
  if h.colors then b.ResetColor else b

/-- `reflect.Value.IsValid`. -/
def RValue.IsValid : RValue → Bool
  | .invalid => false
  | _ => true

/-- Whether the binary64 number with these bits compares equal to zero with
`==`: positive zero and negative zero do, and nothing else. -/
def floatEqZero (bits : Nat) : Bool :=
  bits == 0 || bits == 0x8000000000000000

mutual
/-- `reflect.Value.IsZero` (on a valid value), as of Go 1.22, which the
range-over-int loops of `handler.go` require: a float or complex number is
zero when it compares equal to zero, so negative zero is zero, and a struct
is zero when every field other than the blank field `_` is. -/
def RValue.IsZero : RValue → Bool
  | .invalid => true
  | .bool v => !v
  | .int v => v == 0
  | .uint v => v == 0
  | .float bits => floatEqZero bits
  | .complex re im => floatEqZero re && floatEqZero im
  | .string v => v.data.isEmpty
  | .slice isNil _ => isNil
  | .array elems => RValue.allZero elems
  | .map _ isNil _ => isNil
  | .struct fields => RValue.fieldsZero fields
  | .nilPtr => true
  | .ptr _ => false
  | .nilIface => true
  | .iface _ => false
  | .chanFunc isNil => isNil
/-- Every element of an array is zero. -/
def RValue.allZero : List RValue → Bool
  | [] => true
  | e :: es => RValue.IsZero e && RValue.allZero es
/-- Every field of a struct is zero or has the blank name `_`. -/
def RValue.fieldsZero : List (String × Bool × RValue) → Bool
  | [] => true
  | (name, _, v) :: fs => (name == "_" || RValue.IsZero v) && RValue.fieldsZero fs
end

/-- `reflect.Value.IsNil` on a `Ptr` or `Interface`. -/
def RValue.IsNil : RValue → Bool
  | .nilPtr => true
  | .nilIface => true
  | _ => false

/-- The type text of a map's keys (`reflect.Type.String`). -/
def KeyType.typeName : KeyType → String
  | .string => "string"
  | .emptyInterface => "interface \x7b\x7d"
  | .other n => n

/-- `k.String()` for a key `k` that `MapKeys` returned: the contents for a
key of kind `String`, and `<T Value>` otherwise. -/
def RValue.keyString (kt : KeyType) : RValue → String
  | .string s => s
  | _ => "<" ++ kt.typeName ++ " Value>"

/-- Whether `reflect.ValueOf(k)`, `k` a Go `string`, is assignable to the key
type, so that `MapIndex` does not panic. -/
def KeyType.stringAssignable : KeyType → Bool
  | .string => true
  | .emptyInterface => true
  | .other _ => false

/-- Whether the map key `key` equals the Go `string` `k` converted to the
key type.  Under an interface key type, `iface (string s)` is a key of
dynamic type `string`. -/
def RValue.keyMatches (kt : KeyType) (key : RValue) (k : String) : Bool :=
  match kt, key with
  | .string, .string s => s == k
  | .emptyInterface, .iface (.string s) => s == k
  | _, _ => false

/-- The loop of the `Map` case of `appendReflectedValue` over the sorted key
texts; `index b k` stands for
`h.appendReflectedValue(b, val.MapIndex(reflect.ValueOf(k)))`. -/
def Handler.appendMapKeys (L : Runtime) (h : Handler)
    (index : Buffer → String → Except Fault Buffer) :
    Nat → Buffer → List String → Except Fault Buffer
  | _, b, [] => pure b
  | i, b, k :: keys => do
    let b := if i > 0 then b.WriteString ", " else b
    let b := h.appendKey L b k
    let b := b.WriteString "="
    let b ← index b k
    Handler.appendMapKeys L h index (i + 1) b keys

mutual
/-- `Handler.appendReflectedValue`. -/
def Handler.appendReflectedValue (L : Runtime) (h : Handler) :
    Buffer → RValue → Except Fault Buffer
  | b, val =>
    if !val.IsValid || val.IsZero then pure (b.WriteString "nil")
    else
      match val with
      | .slice _ elems => do
        let b := b.WriteString "["
        let b ← Handler.appendElems L h 0 b elems
        pure (b.WriteString "]")
      | .array elems => do
        let b := b.WriteString "["
        let b ← Handler.appendElems L h 0 b elems
        pure (b.WriteString "]")
      | .map keyType _ entries => do
        let b := b.WriteString "\x7b"
        let keys := sortStrings (entries.map (fun e => e.1.keyString keyType))
        let b ← Handler.appendMapKeys L h
          (fun b k => Handler.appendMapIndex L h keyType b k entries) 0 b keys
        pure (b.WriteString "\x7d")
      | .struct fields => do
        let b := b.WriteString "\x7b"
        let b ← Handler.appendFields L h 0 b fields
        pure (b.WriteString "\x7d")
      | .nilPtr => pure (b.WriteString "nil")
      | .ptr elem => Handler.appendReflectedValue L h b elem
      | .nilIface => pure (b.WriteString "nil")
      | .iface elem => Handler.appendReflectedValue L h b elem
      | v => pure (b ++ L.fmtSprint v)
/-- The loop of the `Slice, Array` case, from index `i` on. -/
def Handler.appendElems (L : Runtime) (h : Handler) :
    Nat → Buffer → List RValue → Except Fault Buffer
  | _, b, [] => pure b
  | i, b, e :: elems => do
    let b := if i > 0 then b.WriteString ", " else b
    let b ← Handler.appendReflectedValue L h b e
    Handler.appendElems L h (i + 1) b elems
/-- The call `h.appendReflectedValue(b, val.MapIndex(reflect.ValueOf(k)))` on
a map with the given key type and entries: `MapIndex` panics when a `string`
is not assignable to the key type, and yields the zero `reflect.Value`
(rendered `nil`) when no entry has the key. -/
def Handler.appendMapIndex (L : Runtime) (h : Handler) (keyType : KeyType) :
    Buffer → String → List (RValue × RValue) → Except Fault Buffer
  | b, _, [] =>
    if keyType.stringAssignable then pure (b.WriteString "nil") else throw Fault.panic
  | b, k, (key, v) :: entries =>
    if !keyType.stringAssignable then throw Fault.panic
    else if RValue.keyMatches keyType key k then Handler.appendReflectedValue L h b v
    else Handler.appendMapIndex L h keyType b k entries
/-- The loop of the `Struct` case, with the running `count` of exported
fields written. -/
def Handler.appendFields (L : Runtime) (h : Handler) :
    Nat → Buffer → List (String × Bool × RValue) → Except Fault Buffer
  | _, b, [] => pure b
  | count, b, (name, exported, v) :: fields =>
    if exported then do
      let b := if count > 0 then b.WriteString ", " else b
      let b := h.appendKey L b name
      let b := b.WriteString "="
      let b ← Handler.appendReflectedValue L h b v
      Handler.appendFields L h (count + 1) b fields
    else Handler.appendFields L h count b fields
end

/-- `v.Kind() == slog.KindAny`. -/
def Value.isKindAny : Value → Bool
  | .any _ => true
  | _ => false

/-- The assertion `v.Any().(error)`: the message of the error when the value
holds one.  Only `KindAny` and `KindLogValuer` values hold a caller-supplied
payload. -/
def Value.asError : Value → Option String
  | .any p => p.err
  | .logValuer p => p.err
  | _ => none

/-- The loop `for i, a := range xs` that writes `", "` before every element
but the first and then renders the element with `body`. -/
def rangeJoined {α : Type} (body : Buffer → α → Except Fault Buffer) :
    Nat → Buffer → List α → Except Fault Buffer
  | _, b, [] => pure b
  | i, b, a :: as => do
    let b := if i > 0 then b.WriteString ", " else b
    let b ← body b a
    rangeJoined body (i + 1) b as

/-- The body of `Handler.appendValue`, with the recursive call
`h.appendAttr` as a parameter. -/
def Handler.appendValueWith (L : Runtime) (h : Handler)
    (appendAttr : Buffer → Attr → Except Fault Buffer) (b : Buffer) (v : Value) :
    Except Fault Buffer :=
  let isErr := h.colors && v.isKindAny && v.asError.isSome
  let b := if isErr then b.WriteColor Color.Red else b
  -- `defer b.ResetColor()`
  let deferred := fun (b : Buffer) => if isErr then b.ResetColor else b
  match v.asError with
  | some msg => pure (deferred (AppendQuote L b msg))
  | none =>
    deferred <$>
      (match v with
      | .string s => pure (AppendQuote L b s)
      | .int64 i => pure (AppendInt b i)
      | .uint64 u => pure (AppendUint b u)
      | .float64 bits => pure (b ++ L.formatFloat bits)
      | .bool v => pure (AppendBool b v)
      | .duration d => pure (b.WriteString (L.durationString d))
      | .time t => pure (b ++ L.timeFormat t "2006-01-02T15:04:05.999Z07:00")
      | .group attrs => do
        let b := b.WriteString "\x7b"
        let b ← rangeJoined appendAttr 0 b attrs
        pure (b.WriteString "\x7d")
      | .any p => h.appendReflectedValue L b p.rv
      | .logValuer _ => pure b)

/-- `Handler.appendAttr`; `fuel` bounds the nesting of `appendAttr` calls. -/
def Handler.appendAttr (L : Runtime) (h : Handler) :
    Nat → Buffer → Attr → Except Fault Buffer
  | 0, _, _ => throw Fault.outOfFuel
  | fuel + 1, b, a =>
    let a := match h.opts.ReplaceAttr with
      | some replaceAttr => replaceAttr h.groups a
      | none => a
    let b := h.appendKey L b a.Key
    let b := b.WriteString "="
    h.appendValueWith L (Handler.appendAttr L h fuel) b a.Value

/-- `Handler.appendValue`, whose nested attributes may use `fuel` nested
`appendAttr` calls. -/
def Handler.appendValue (L : Runtime) (h : Handler) (fuel : Nat) (b : Buffer) (v : Value) :
    Except Fault Buffer :=
  h.appendValueWith L (h.appendAttr L fuel) b v

/-- `n` times `b.WriteString(" ")`. -/
def writeSpaces : Nat → Buffer → Buffer
  | 0, b => b
  | n + 1, b => writeSpaces n (b.WriteString " ")

/-- `Handler.Handle`, section `// Time`. -/
def Handler.writeTime (L : Runtime) (h : Handler) (r : Record) (b : Buffer) : Buffer :=
  let b := if h.colors then b.WriteColor Color.BrightBlack else b
  let b := b ++ L.timeFormat r.Time "2006-01-02 15:04:05.000"
  let b := if h.colors then b.ResetColor else b
  b.WriteString " "

/-- `Handler.Handle`, section `// Level`. -/
def Handler.writeLevel (h : Handler) (r : Record) (b : Buffer) : Buffer :=
  let b := if h.colors then b.WriteColor (levelToColor r.Level) else b
  let levelStr := levelString r.Level
  let padding : Int := 5 - levelStr.utf8ByteSize
  let b := writeSpaces padding.toNat b
  let b := b.WriteString levelStr
  let b := if h.colors then b.ResetColor else b
  b.WriteString " "

/-- `Handler.Handle`, section `// Source`. -/
def Handler.writeSource (L : Runtime) (h : Handler) (r : Record) (b : Buffer) : Buffer :=
  if h.opts.AddSource && r.PC != 0 then
    let f := L.callersFrame r.PC
    if f.File != "" then
      let shortPath := getShortPath f
      let b := if h.colors then b.WriteColor Color.BrightBlack else b
      let start := b.utf8ByteSize
      let b := b.WriteString shortPath
      let b := b.WriteString ":"
      let b := AppendInt b f.Line
      let stop := b.utf8ByteSize
      let b := writeSpaces (24 - (stop - start)) b
      let b := if h.colors then b.ResetColor else b
      b.WriteString " "
    else b
  else b

/-- `Handler.Handle`: the bytes handed to `h.w.Write`, or the fault that
prevented the call.  The sink's own error is returned to the caller
unchanged and is not modelled. -/
def Handler.Handle (L : Runtime) (h : Handler) (fuel : Nat) (r : Record) :
    Except Fault Buffer := do
  let b : Buffer := ""
  -- Time
  let b := h.writeTime L r b
  -- Level
  let b := h.writeLevel r b
  -- Source
  let b := h.writeSource L r b
  -- Message
  let b := b.WriteString r.Message
  -- Attributes
  let hasAttrs := decide (h.attrs.length > 0) || decide (r.attrs.length > 0)
  let b := if hasAttrs then b.WriteString " \x7b" else b
  let b := h.groups.foldl (fun b g => (h.appendKey L b g).WriteString "=\x7b") b
  let b ← rangeJoined (h.appendAttr L fuel) 0 b h.attrs
  let b := if h.attrs.length > 0 ∧ r.attrs.length > 0 then b.WriteString ", " else b
  let b ← rangeJoined (h.appendAttr L fuel) 0 b r.attrs
  let b := h.groups.foldl (fun b _ => b.WriteString "\x7d") b
  let b := if hasAttrs then b.WriteString "\x7d" else b
  pure (b ++ "\n")

/-! ## Vocabulary for the statements -/

/-- The text `appendKey` writes for a key. -/
def Handler.keyText (L : Runtime) (h : Handler) (key : String) : String :=
  h.appendKey L "" key

/-- A routine is framed when it only appends to the buffer it is given: its
result on `b` is `b` followed by its result on the empty buffer, and it fails
on `b` exactly as it fails on the empty buffer. -/
def Framed (f : Buffer → Except Fault Buffer) : Prop :=
  ∀ b, f b = Except.map (fun s => b ++ s) (f "")

/-- The results of `f` on the items of a list, in order; the first fault
wins. -/
def collect {α β : Type} (f : α → Except Fault β) : List α → Except Fault (List β)
  | [] => pure []
  | a :: as => do
    let x ← f a
    let xs ← collect f as
    pure (x :: xs)

/-- The text `appendAttr` writes for one attribute. -/
def Handler.attrText (L : Runtime) (h : Handler) (fuel : Nat) (a : Attr) : Except Fault String :=
  h.appendAttr L fuel "" a

/-- What `Handle` writes before the message: time, level and source. -/
def Handler.headerText (L : Runtime) (h : Handler) (r : Record) : String :=
  h.writeSource L r (h.writeLevel r (h.writeTime L r ""))

/-- The openings of the open groups, outermost first: for each group its
key text, `=` and an opening brace. -/
def Handler.groupOpenings (L : Runtime) (h : Handler) : String :=
  String.join (h.groups.map (fun g => h.keyText L g ++ "=\x7b"))

/-- One closing brace per open group. -/
def Handler.groupClosings (h : Handler) : String :=
  String.join (h.groups.map (fun _ => "\x7d"))

/-- The text of a key when colors are off: quoted when `needsQuoting` says
so, verbatim otherwise. -/
def plainKey (L : Runtime) (key : String) : String :=
  if needsQuoting L key then Quote L key else key

/-- The attribute `appendAttr` renders in place of `a`: what the rewrite hook
returns for the handler's open groups and `a`, or `a` itself without a
hook. -/
def Handler.replaced (h : Handler) (a : Attr) : Attr :=
  match h.opts.ReplaceAttr with
  | some replaceAttr => replaceAttr h.groups a
  | none => a

mutual
/-- How deeply group values nest inside a value. -/
def Value.depth : Value → Nat
  | .group attrs => Attr.depthList attrs
  | _ => 0
/-- The number of nested `appendAttr` calls an attribute needs when no hook
is configured. -/
def Attr.depth : Attr → Nat
  | .mk _ v => Value.depth v + 1
/-- The largest depth in a list of attributes. -/
def Attr.depthList : List Attr → Nat
  | [] => 0
  | a :: as => max (Attr.depth a) (Attr.depthList as)
end

/-- The result is not the fault of the embedding. -/
def Fueled (r : Except Fault Buffer) : Prop := r ≠ .error .outOfFuel

/-- A hook that blanks every key. -/
def blankKey : List String → Attr → Attr :=
  fun _ a => .mk "" a.Value

/-- A runtime for evaluating the fixtures of `handler_test.go`: a fixed
time stamp, every wide rune printable, and the plain `fmt` verbs for integers,
booleans and strings. -/
def sampleRuntime : Runtime where
  isPrintWide := fun _ => true
  timeFormat := fun _ _ => "2024-05-06 07:08:09.000"
  formatFloat := fun _ => "0"
  durationString := fun _ => "0s"
  fmtSprint := fun v => match v with
    | .int i => toString i
    | .uint u => toString u
    | .bool b => if b then "true" else "false"
    | .string s => s
    | _ => "?"
  callersFrame := fun _ => ⟨"/home/user/seezlog/handler_test.go", 68⟩

/-- The record of `logger.Info("test message", "key1", "value1", "key2", 123)`. -/
def testRecord (t : Time) (pc : Nat) : Record :=
  ⟨t, "test message", LevelInfo, pc, [.mk "key1" (.string "value1"), .mk "key2" (.int64 123)]⟩

/-- The record of `logger.Info("test message", "key1", "value1")`. -/
def testRecord1 (t : Time) (pc : Nat) : Record :=
  ⟨t, "test message", LevelInfo, pc, [.mk "key1" (.string "value1")]⟩

/-- The hook of `TestHandler_ReplaceAttr`. -/
def testReplace : List String → Attr → Attr :=
  fun _ a => if a.Key = "key1" then .mk "replaced_key" (.string "replaced_value") else a

/-! ### Unquoting, struct fields, coloring -/

/-- The text the `Struct` case writes for one field: the key text of its
name, `=`, and the text of its value. -/
def Handler.fieldText (L : Runtime) (h : Handler) (f : String × Bool × RValue) :
    Except Fault String :=
  Except.map (fun v => h.keyText L f.1 ++ "=" ++ v) (h.appendReflectedValue L "" f.2.2)

/-- `strconv.unhex`: the value of one hexadecimal digit. -/
def unhex (c : Char) : Option Nat :=
  if 48 ≤ c.toNat ∧ c.toNat ≤ 57 then some (c.toNat - 48)
  else if 97 ≤ c.toNat ∧ c.toNat ≤ 102 then some (c.toNat - 97 + 10)
  else if 65 ≤ c.toNat ∧ c.toNat ≤ 70 then some (c.toNat - 65 + 10)
  else none

/-- The loop `v = v<<4 | x` of `strconv.UnquoteChar` over the digits of a
`\x`, `\u` or `\U` escape. -/
def unhexDigits : Nat → List Char → Option Nat
  | v, [] => some v
  | v, c :: cs =>
    match unhex c with
    | some x => unhexDigits (v * 16 + x) cs
    | none => none

/-- The value of one octal digit. -/
def unoctal (c : Char) : Option Nat :=
  if 48 ≤ c.toNat ∧ c.toNat ≤ 55 then some (c.toNat - 48) else none

/-- The one-letter escapes of `strconv.UnquoteChar` inside a double-quoted
literal. -/
def simpleEscape (e : Char) : Option Char :=
  if e = 'a' then some (Char.ofNat 7)
  else if e = 'b' then some (Char.ofNat 8)
  else if e = 'f' then some (Char.ofNat 12)
  else if e = 'n' then some (Char.ofNat 10)
  else if e = 'r' then some (Char.ofNat 13)
  else if e = 't' then some (Char.ofNat 9)
  else if e = 'v' then some (Char.ofNat 11)
  else if e = Char.ofNat 0x5C then some e
  else if e = Char.ofNat 0x22 then some e
  else none

/-- A single byte written as `\xNN` or in octal, as a rune.  A byte above
0x7F is not a rune by itself and has no counterpart in this model. -/
def byteRune (v : Nat) : Option Char :=
  if v < 0x80 then some (Char.ofNat v) else none

/-- A code point written as `\uNNNN` or `\UNNNNNNNN`, accepted when
`utf8.ValidRune` holds. -/
def codePoint (v : Nat) : Option Char :=
  if Nat.isValidChar v then some (Char.ofNat v) else none

/-- The `\x`, `\u`, `\U` case of `strconv.UnquoteChar`: `n` hexadecimal
digits, converted by `conv`, and the text after them. -/
def hexEscape (n : Nat) (conv : Nat → Option Char) (s : List Char) : Option (Char × List Char) :=
  if s.length < n then none
  else ((unhexDigits 0 (s.take n)).bind conv).map (fun r => (r, s.drop n))

/-- The octal case of `strconv.UnquoteChar`, after the first digit `o1`. -/
def octalEscape (o1 : Nat) (s : List Char) : Option (Char × List Char) :=
  match s with
  | d2 :: d3 :: rest =>
    match unoctal d2, unoctal d3 with
    | some o2, some o3 =>
      if (o1 * 8 + o2) * 8 + o3 > 255 then none
      else (byteRune ((o1 * 8 + o2) * 8 + o3)).map (fun r => (r, rest))
    | _, _ => none
  | _ => none

/-- `strconv.UnquoteChar(s, '"')`: the first rune of the text of a
double-quoted literal and the text after it (`none` is `ErrSyntax`). -/
def UnquoteChar (s : List Char) : Option (Char × List Char) :=
  match s with
  | [] => none
  | c :: rest =>
    if c = Char.ofNat 0x22 then none
    else if c ≠ Char.ofNat 0x5C then some (c, rest)
    else
      match rest with
      | [] => none
      | e :: rest =>
        if e = 'x' then hexEscape 2 byteRune rest
        else if e = 'u' then hexEscape 4 codePoint rest
        else if e = 'U' then hexEscape 8 codePoint rest
        else
          match unoctal e with
          | some o1 => octalEscape o1 rest
          | none => (simpleEscape e).map (fun r => (r, rest))

/-- The loop of `strconv.Unquote` over the text after the opening quote of a
double-quoted literal: it decodes rune after rune with `UnquoteChar`, rejects
a raw newline, and stops at the first unescaped quote, which must end the
text.  Every round consumes at least one rune, so fuel equal to the length of
the text is enough. -/
def unquoteLoop : Nat → List Char → Option (List Char)
  | 0, _ => none
  | fuel + 1, s =>
    match s with
    | [] => none
    | c :: rest =>
      if c = Char.ofNat 0x22 then (if rest.isEmpty then some [] else none)
      else
        match UnquoteChar s with
        | none => none
        | some (r, tail) =>
          if c = Char.ofNat 10 then none
          else (unquoteLoop fuel tail).map (fun out => r :: out)

/-- `strconv.Unquote` on a double-quoted literal (`none` is `ErrSyntax`;
back-quoted and single-quoted literals are not modelled). -/
def Unquote (s : String) : Option String :=
  match s.data with
  | [] => none
  | q :: body =>
    if q = Char.ofNat 0x22 then (unquoteLoop body.length body).map String.mk else none

/-- The text `escapedRune` writes for a rune that is not printable and is
neither the quote nor the backslash, by code point. -/
def controlEscape (n : Nat) : String :=
  if n = 7 then "\\a"
  else if n = 8 then "\\b"
  else if n = 12 then "\\f"
  else if n = 10 then "\\n"
  else if n = 13 then "\\r"
  else if n = 9 then "\\t"
  else if n = 11 then "\\v"
  else if n < 0x20 ∨ n = 0x7F then "\\x" ++ String.mk (hexDigits 2 n)
  else if n < 0x10000 then "\\u" ++ String.mk (hexDigits 4 n)
  else "\\U" ++ String.mk (hexDigits 8 n)

/-- The handler with its color flag set to `c`, everything else the same. -/
def Handler.withColors (h : Handler) (c : Bool) : Handler :=
  { h with colors := c }

/-- The codes that open a colored span: the five colors the handler uses,
and the empty string, which is the zero `Color` that `levelToColor` yields for
a level outside its table. -/
def IsColorCode (c : String) : Prop :=
  c = Color.BrightBlack ∨ c = Color.Red ∨ c = Color.Green ∨ c = Color.Yellow
    ∨ c = Color.Blue ∨ c = ""

/-- `Tinted c p`: the text `c` is the text `p` with some of its pieces, one
after the other, wrapped each between a color code in front and the reset code
behind; outside these spans the two texts are the same, and no span starts
inside another. -/
inductive Tinted : String → String → Prop where
  | nil : Tinted "" ""
  | text {c p : String} (t : String) : Tinted c p → Tinted (c ++ t) (p ++ t)
  | span {c p : String} (col t : String) : IsColorCode col → Tinted c p →
      Tinted (c ++ col ++ t ++ Color.Reset) (p ++ t)

/-- Two results agree up to coloring: both are lines, the first a tinted
form of the second, or both are the same fault. -/
def TintedResult (rc rp : Except Fault Buffer) : Prop :=
  match rc, rp with
  | .ok c, .ok p => Tinted c p
  | .error e1, .error e2 => e1 = e2
  | _, _ => False

/-- Two routines agree up to coloring: started on buffers that agree up to
coloring they give results that do. -/
def TintedStep (f g : Buffer → Except Fault Buffer) : Prop :=
  ∀ c p, Tinted c p → TintedResult (f c) (g p)

/-- The text of the `// Level` section between the color code and the reset:
the padding and the label. -/
def levelText (r : Record) : String :=
  String.mk (List.replicate (5 - (levelString r.Level).utf8ByteSize) ' ') ++ levelString r.Level

/-- The text of the `// Source` section between the color code and the
reset: short path, colon, line number and the padding to 24 bytes. -/
def sourceText (L : Runtime) (r : Record) : String :=
  getShortPath (L.callersFrame r.PC) ++ ":" ++ toString (L.callersFrame r.PC).Line
    ++ String.mk (List.replicate
      (24 - (getShortPath (L.callersFrame r.PC) ++ ":"
        ++ toString (L.callersFrame r.PC).Line).utf8ByteSize) ' ')

/-! ### Map entries, marked texts -/

/-- The text the `Map` case writes for one key text: the key text, `=`, and
the text of the value `MapIndex` yields for it. -/
def Handler.entryText (L : Runtime) (h : Handler) (kt : KeyType)
    (entries : List (RValue × RValue)) (k : String) : Except Fault String :=
  Except.map (fun v => h.keyText L k ++ "=" ++ v) (h.appendMapIndex L kt "" k entries)

/-- The escape character U+001B, with which every color code and the reset
code begin. -/
def escChar : Char := Char.ofNat 0x1b

/-- A text without the escape character: it holds no color code and no reset
code, whole or in part. -/
def EscFree (s : String) : Prop := ∀ c ∈ s.data, c ≠ escChar

instance EscFree.decidable (s : String) : Decidable (EscFree s) :=
  inferInstanceAs (Decidable (∀ c ∈ s.data, c ≠ escChar))

/-- The texts that reach the line as they are from outside the handler: the
message of the record and what the runtime formats. -/
inductive Foreign (L : Runtime) (r : Record) : String → Prop where
  | message : Foreign L r r.Message
  | time (t : Time) (layout : String) : Foreign L r (L.timeFormat t layout)
  | float (bits : Nat) : Foreign L r (L.formatFloat bits)
  | duration (d : Int) : Foreign L r (L.durationString d)
  | sprint (v : RValue) : Foreign L r (L.fmtSprint v)
  | path (pc : Nat) : Foreign L r (getShortPath (L.callersFrame pc))

/-- `Marked L r colors s`: the text `s` is built, piece after piece, from
texts without the escape character, from foreign texts and, only when
`colors` is `true`, from closed spans: a color code, a text that is itself
marked without colors, and the reset code.  With `colors` false no piece is a
code; with `colors` true every code opens a span that the reset code closes
before the next piece starts. -/
inductive Marked (L : Runtime) (r : Record) : Bool → String → Prop where
  | nil (c : Bool) : Marked L r c ""
  | lit {c : Bool} {s : String} (t : String) : Marked L r c s → EscFree t →
      Marked L r c (s ++ t)
  | foreign {c : Bool} {s : String} (t : String) : Marked L r c s → Foreign L r t →
      Marked L r c (s ++ t)
  | span {s : String} (code t : String) : Marked L r true s → IsColorCode code →
      Marked L r false t → Marked L r true (s ++ code ++ t ++ Color.Reset)

/-- A result is marked when it is a fault or a marked line. -/
def MarkedResult (L : Runtime) (r : Record) (c : Bool) : Except Fault Buffer → Prop
  | .ok b => Marked L r c b
  | .error _ => True

/-- A routine keeps buffers marked. -/
def MarkedStep (L : Runtime) (r : Record) (c : Bool) (f : Buffer → Except Fault Buffer) : Prop :=
  ∀ b, Marked L r c b → MarkedResult L r c (f b)

/-- A runtime whose texts hold no escape character. -/
def quietRuntime : Runtime :=
  { sampleRuntime with fmtSprint := fun _ => "?" }

/-! ### Handlers in memory, concurrent calls -/

/-- A Go slice header over one of the backing arrays of its element type:
which array, length and capacity.  Every slice the handler holds starts at the
first cell of its array. -/
structure SliceHdr where
  arr : Nat
  len : Nat
  cap : Nat
  deriving DecidableEq, Repr

/-- The elements a slice denotes, given the backing arrays. -/
def SliceHdr.read {α : Type} (arrays : List (List α)) (s : SliceHdr) : List α :=
  (arrays.getD s.arr []).take s.len

/-- The built-in `append(s, xs...)`: when the capacity suffices the cells
behind the length are overwritten in place, otherwise the elements move to a
new array whose spare capacity `grow n` the runtime picks; new cells hold the
zero value. -/
def goAppend {α : Type} (zero : α) (grow : Nat → Nat) (arrays : List (List α)) (s : SliceHdr)
    (xs : List α) : List (List α) × SliceHdr :=
  if s.len + xs.length ≤ s.cap then
    (arrays.set s.arr ((arrays.getD s.arr []).take s.len ++ xs
        ++ (arrays.getD s.arr []).drop (s.len + xs.length)),
      { s with len := s.len + xs.length })
  else
    (arrays ++ [s.read arrays ++ xs ++ List.replicate (grow (s.len + xs.length)) zero],
      ⟨arrays.length, s.len + xs.length, s.len + xs.length + grow (s.len + xs.length)⟩)

/-- `slices.Clone(s)`, which is `append(s[:0:0], s...)`. -/
def slicesClone {α : Type} (zero : α) (grow : Nat → Nat) (arrays : List (List α))
    (s : SliceHdr) : List (List α) × SliceHdr :=
  goAppend zero grow arrays ⟨s.arr, 0, 0⟩ (s.read arrays)

/-- The zero `slog.Attr`. -/
def zeroAttr : Attr := .mk "" (.any ⟨none, .invalid⟩)

/-- The `Handler` struct as it lies in memory: the two sequences are slice
headers.  The mutex `mu` is a field of the struct, so the address of the
struct identifies it. -/
structure HandlerCell where
  opts : HandlerOptions
  colors : Bool
  w : Nat
  groups : SliceHdr
  attrs : SliceHdr

/-- The part of the Go heap the handlers use: the backing arrays of the
`[]string` and `[]slog.Attr` slices, and the `Handler` structs by address. -/
structure Mem where
  strings : List (List String)
  attrArrays : List (List Attr)
  handlers : List HandlerCell

/-- `Handler.clone` on the handler at address `p`: the new memory and the
address of the new struct (`none` when `p` is not a handler). -/
def Mem.clone (grow : Nat → Nat) (m : Mem) (p : Nat) : Option (Mem × Nat) :=
  match m.handlers.get? p with
  | none => none
  | some h =>
    let g := slicesClone "" grow m.strings h.groups
    let a := slicesClone zeroAttr grow m.attrArrays h.attrs
    some ({ strings := g.1, attrArrays := a.1,
            handlers := m.handlers ++ [{ opts := h.opts, colors := h.colors, w := h.w,
                                         groups := g.2, attrs := a.2 }] },
          m.handlers.length)

/-- `Handler.WithAttrs` on the handler at address `p`. -/
def Mem.WithAttrs (grow : Nat → Nat) (m : Mem) (p : Nat) (attrs : List Attr) :
    Option (Mem × Nat) :=
  match m.clone grow p with
  | none => none
  | some (m1, p2) =>
    match m1.handlers.get? p2 with
    | none => none
    | some h2 =>
      let a := goAppend zeroAttr grow m1.attrArrays h2.attrs attrs
      some ({ m1 with attrArrays := a.1, handlers := m1.handlers.set p2 { h2 with attrs := a.2 } },
            p2)

/-- `Handler.WithGroup` on the handler at address `p`. -/
def Mem.WithGroup (grow : Nat → Nat) (m : Mem) (p : Nat) (name : String) :
    Option (Mem × Nat) :=
  match m.clone grow p with
  | none => none
  | some (m1, p2) =>
    match m1.handlers.get? p2 with
    | none => none
    | some h2 =>
      let g := goAppend "" grow m1.strings h2.groups [name]
      some ({ m1 with strings := g.1, handlers := m1.handlers.set p2 { h2 with groups := g.2 } },
            p2)

/-- The handler value that the struct at address `p` denotes. -/
def Mem.view (m : Mem) (p : Nat) : Option Handler :=
  (m.handlers.get? p).map fun h =>
    { opts := h.opts, colors := h.colors, w := h.w,
      groups := h.groups.read m.strings, attrs := h.attrs.read m.attrArrays }

/-- A slice header is valid when it is empty without capacity (a nil slice,
or `s[:0:0]`), or lies within an existing array. -/
def SliceHdr.Valid {α : Type} (arrays : List (List α)) (s : SliceHdr) : Prop :=
  (s.len = 0 ∧ s.cap = 0)
    ∨ (s.arr < arrays.length ∧ s.len ≤ s.cap ∧ s.cap ≤ (arrays.getD s.arr []).length)

/-- Every handler in memory holds valid slices. -/
def Mem.WF (m : Mem) : Prop :=
  ∀ h ∈ m.handlers, h.groups.Valid m.strings ∧ h.attrs.Valid m.attrArrays

/-- A memory with one root handler built by `NewHandler`. -/
def rootMem (w : Nat) (colors : Bool) (opts : Option HandlerOptions) : Mem :=
  { strings := [], attrArrays := [],
    handlers := [{ opts := (NewHandler w colors opts).opts, colors := colors, w := w,
                   groups := ⟨0, 0, 0⟩, attrs := ⟨0, 0, 0⟩ }] }

/-- The handler value a struct denotes in a memory. -/
def HandlerCell.view (c : HandlerCell) (m : Mem) : Handler :=
  { opts := c.opts, colors := c.colors, w := c.w,
    groups := c.groups.read m.strings, attrs := c.attrs.read m.attrArrays }

/-- A memory whose only handler holds one open group and one attribute in
arrays with spare capacity. -/
def spareMem : Mem :=
  { strings := [["app", "", "", ""]],
    attrArrays := [[.mk "k" (.int64 1), zeroAttr]],
    handlers := [{ opts := (NewHandler 0 false none).opts, colors := false, w := 0,
                   groups := ⟨0, 1, 4⟩, attrs := ⟨0, 1, 2⟩ }] }

/-- The handler that the struct of `spareMem` denotes. -/
def spareHandler : Handler :=
  { opts := (NewHandler 0 false none).opts, colors := false, w := 0,
    groups := ["app"], attrs := [.mk "k" (.int64 1)] }

/-- Where a `Handle` call stands in its last three statements: before
`h.mu.Lock()`, inside `h.w.Write(*b)` with the bytes still to be written, or
after the deferred `h.mu.Unlock()`. -/
inductive Phase where
  | locking
  | writing (rest : List Char)
  | done
  deriving DecidableEq, Repr

/-- A `Handle` call that has built its line.  The mutex `mu` is a field of the
`Handler` struct, so the address of the struct names the mutex. -/
structure Call where
  mu : Nat
  w : Nat
  line : List Char
  phase : Phase
  deriving DecidableEq, Repr

/-- Two concurrent `Handle` calls: the mutexes that are locked, the bytes
that reached the sinks so far (each with its sink), and the two calls. -/
structure Race where
  held : List Nat
  out : List (Nat × Char)
  a : Call
  b : Call
  deriving DecidableEq, Repr

/-- One step of a call: `Lock` (which waits while the mutex is held), one
byte of `Write` on a sink that takes no lock of its own, or `Unlock`. -/
def Call.step (held : List Nat) (out : List (Nat × Char)) (c : Call) :
    List Nat × List (Nat × Char) × Call :=
  match c.phase with
  | .locking =>
    if c.mu ∈ held then (held, out, c)
    else (c.mu :: held, out, { c with phase := .writing c.line })
  | .writing (x :: rest) => (held, out ++ [(c.w, x)], { c with phase := .writing rest })
  | .writing [] => (held.erase c.mu, out, { c with phase := .done })
  | .done => (held, out, c)

/-- The scheduler lets the second call (`true`) or the first call step. -/
def Race.step (s : Race) (second : Bool) : Race :=
  if second then
    let r := s.b.step s.held s.out
    { s with held := r.1, out := r.2.1, b := r.2.2 }
  else
    let r := s.a.step s.held s.out
    { s with held := r.1, out := r.2.1, a := r.2.2 }

/-- A schedule, run from a state. -/
def Race.run (s : Race) (sched : List Bool) : Race := sched.foldl Race.step s

/-- The bytes that reached sink `w`. -/
def Race.sinkText (s : Race) (w : Nat) : String :=
  String.mk ((s.out.filter (fun x => x.1 == w)).map (·.2))

/-- The call `Handle(ctx, r)` on the handler at address `p`, at the point
where its line is built and `h.mu.Lock()` comes next. -/
def Mem.handleCall (L : Runtime) (m : Mem) (p : Nat) (fuel : Nat) (r : Record) : Option Call :=
  match m.view p with
  | none => none
  | some h =>
    match h.Handle L fuel r with
    | .ok b => some ⟨p, h.w, b.data, .locking⟩
    | .error _ => none

/-- Whether a call is inside `Write`. -/
def Call.writing (c : Call) : Bool :=
  match c.phase with
  | .writing _ => true
  | _ => false

/-- Two calls that lock the same mutex are never both inside `Write`: the
mutex is held exactly while one of them is. -/
def Race.Exclusive (s : Race) : Prop :=
  (s.held = [] ∧ s.a.writing = false ∧ s.b.writing = false)
    ∨ (s.held = [s.a.mu] ∧ s.a.writing ≠ s.b.writing)

/-! ## Lemmas -/

/-! ### Buffers only grow at the end -/

theorem appendKey_eq (L : Runtime) (h : Handler) (b : Buffer) (key : String) :
    h.appendKey L b key = b ++ h.keyText L key := by
  unfold Handler.keyText Handler.appendKey
  simp only [Buffer.WriteColor, Buffer.WriteString, Buffer.ResetColor, AppendQuote]
  split_ifs <;> simp [String.append_assoc]

theorem framed_bind {f g : Buffer → Except Fault Buffer} (hf : Framed f) (hg : Framed g) :
    Framed (fun b => f b >>= g) := by
  intro b
  show f b >>= g = Except.map (fun s => b ++ s) (f "" >>= g)
  rw [hf b]
  cases hx : f "" with
  | error e => rfl
  | ok x =>
    show g (b ++ x) = Except.map (fun s => b ++ s) (g x)
    rw [hg (b ++ x), hg x]
    cases g "" with
    | error e => rfl
    | ok y => simp [Except.map, String.append_assoc]

theorem framed_append (s : String) : Framed (fun b => pure (b ++ s)) := by
  intro b; simp [Except.map, pure, Except.pure]

theorem framed_throw (e : Fault) : Framed (fun _ => throw e) := by
  intro b; rfl

theorem framed_pre {f : Buffer → Except Fault Buffer} (s : String) (hf : Framed f) :
    Framed (fun b => f (b ++ s)) := by
  have := framed_bind (framed_append s) hf
  exact this

theorem framed_post {f : Buffer → Except Fault Buffer} (s : String) (hf : Framed f) :
    Framed (fun b => f b >>= fun b => pure (b ++ s)) :=
  framed_bind hf (framed_append s)

theorem appendMapKeys_framed (L : Runtime) (h : Handler)
    (index : Buffer → String → Except Fault Buffer) (hidx : ∀ k, Framed (fun b => index b k)) :
    ∀ (keys : List String) (i : Nat), Framed (fun b => h.appendMapKeys L index i b keys)
  | [], _ => by
    intro b; simp [Handler.appendMapKeys, Except.map, pure, Except.pure]
  | k :: keys, i => by
    have ih := appendMapKeys_framed L h index hidx keys (i + 1)
    have := framed_pre ((if i > 0 then ", " else "") ++ h.keyText L k ++ "=") (framed_bind (hidx k) ih)
    intro b
    have hb := this b
    simp only [Handler.appendMapKeys, Buffer.WriteString, appendKey_eq] at hb ⊢
    split_ifs at hb ⊢ <;> simpa [String.append_assoc] using hb

theorem framed_wrap {f : Buffer → Except Fault Buffer} (pre post : String) (hf : Framed f) :
    Framed (fun b => f (b ++ pre) >>= fun b => pure (b ++ post)) :=
  framed_pre pre (framed_post post hf)

theorem appendReflectedValue_nil (L : Runtime) (h : Handler) (b : Buffer) (v : RValue)
    (hz : (!v.IsValid || v.IsZero) = true) :
    h.appendReflectedValue L b v = pure (b ++ "nil") := by
  rw [Handler.appendReflectedValue.eq_def]; dsimp only; rw [if_pos hz]; rfl

theorem appendReflectedValue_ptr (L : Runtime) (h : Handler) (b : Buffer) (elem : RValue) :
    h.appendReflectedValue L b (.ptr elem) = h.appendReflectedValue L b elem := by
  rw [Handler.appendReflectedValue.eq_def]; simp [RValue.IsValid, RValue.IsZero]

theorem appendReflectedValue_iface (L : Runtime) (h : Handler) (b : Buffer) (elem : RValue) :
    h.appendReflectedValue L b (.iface elem) = h.appendReflectedValue L b elem := by
  rw [Handler.appendReflectedValue.eq_def]; simp [RValue.IsValid, RValue.IsZero]

mutual
theorem appendReflectedValue_framed (L : Runtime) (h : Handler) :
    ∀ v : RValue, Framed (fun b => h.appendReflectedValue L b v)
  | .slice n elems => by
    have ih := framed_wrap "[" "]" (appendElems_framed L h elems 0)
    intro b
    have hb := ih b
    simp only [Handler.appendReflectedValue, Buffer.WriteString] at hb ⊢
    split_ifs
    · simp [Except.map, pure, Except.pure]
    · simpa using hb
  | .array elems => by
    have ih := framed_wrap "[" "]" (appendElems_framed L h elems 0)
    intro b
    have hb := ih b
    simp only [Handler.appendReflectedValue, Buffer.WriteString] at hb ⊢
    split_ifs
    · simp [Except.map, pure, Except.pure]
    · simpa using hb
  | .map kt n entries => by
    have ih := framed_wrap "\x7b" "\x7d" (appendMapKeys_framed L h
      (fun b k => h.appendMapIndex L kt b k entries)
      (fun k => appendMapIndex_framed L h kt entries k)
      (sortStrings (entries.map (fun e => e.1.keyString kt))) 0)
    intro b
    have hb := ih b
    simp only [Handler.appendReflectedValue, Buffer.WriteString] at hb ⊢
    split_ifs
    · simp [Except.map, pure, Except.pure]
    · simpa using hb
  | .struct fields => by
    have ih := framed_wrap "\x7b" "\x7d" (appendFields_framed L h fields 0)
    intro b
    have hb := ih b
    simp only [Handler.appendReflectedValue, Buffer.WriteString] at hb ⊢
    split_ifs
    · simp [Except.map, pure, Except.pure]
    · simpa using hb
  | .ptr elem => by
    have ih := appendReflectedValue_framed L h elem
    intro b
    simp only [appendReflectedValue_ptr]
    exact ih b
  | .iface elem => by
    have ih := appendReflectedValue_framed L h elem
    intro b
    simp only [appendReflectedValue_iface]
    exact ih b
  | .invalid | .bool _ | .int _ | .uint _ | .float _ | .complex _ _ | .string _
  | .nilPtr | .nilIface | .chanFunc _ => by
    intro b
    simp only [Handler.appendReflectedValue.eq_def, Buffer.WriteString]
    split_ifs <;> simp [Except.map, pure, Except.pure, String.append_assoc]
theorem appendElems_framed (L : Runtime) (h : Handler) :
    ∀ (elems : List RValue) (i : Nat), Framed (fun b => h.appendElems L i b elems)
  | [], _ => by
    intro b; simp [Handler.appendElems, Except.map, pure, Except.pure]
  | e :: elems, i => by
    have ih := framed_pre (if i > 0 then ", " else "")
      (framed_bind (appendReflectedValue_framed L h e) (appendElems_framed L h elems (i + 1)))
    intro b
    have hb := ih b
    simp only [Handler.appendElems, Buffer.WriteString] at hb ⊢
    split_ifs at hb ⊢ <;> simpa [String.append_assoc] using hb
theorem appendMapIndex_framed (L : Runtime) (h : Handler) (kt : KeyType) :
    ∀ (entries : List (RValue × RValue)) (k : String),
      Framed (fun b => h.appendMapIndex L kt b k entries)
  | [], _ => by
    intro b
    simp only [Handler.appendMapIndex, Buffer.WriteString]
    split_ifs <;> simp [Except.map, pure, Except.pure, throw, throwThe, MonadExceptOf.throw]
  | (key, v) :: entries, k => by
    have ih1 := appendReflectedValue_framed L h v
    have ih2 := appendMapIndex_framed L h kt entries k
    intro b
    have hb1 := ih1 b
    have hb2 := ih2 b
    simp only [Handler.appendMapIndex]
    split_ifs
    · rfl
    · exact hb1
    · exact hb2
theorem appendFields_framed (L : Runtime) (h : Handler) :
    ∀ (fields : List (String × Bool × RValue)) (count : Nat),
      Framed (fun b => h.appendFields L count b fields)
  | [], _ => by
    intro b; simp [Handler.appendFields, Except.map, pure, Except.pure]
  | (name, exported, v) :: fields, count => by
    have ih1 := framed_pre ((if count > 0 then ", " else "") ++ h.keyText L name ++ "=")
      (framed_bind (appendReflectedValue_framed L h v) (appendFields_framed L h fields (count + 1)))
    have ih2 := appendFields_framed L h fields count
    intro b
    have hb1 := ih1 b
    have hb2 := ih2 b
    cases exported with
    | false => simpa only [Handler.appendFields] using hb2
    | true =>
      simp only [Handler.appendFields, Buffer.WriteString, appendKey_eq] at hb1 ⊢
      split_ifs at hb1 ⊢ <;> simpa [String.append_assoc] using hb1
end

theorem rangeJoined_framed {α : Type} (body : Buffer → α → Except Fault Buffer)
    (hbody : ∀ a, Framed (fun b => body b a)) :
    ∀ (as : List α) (i : Nat), Framed (fun b => rangeJoined body i b as)
  | [], _ => by
    intro b; simp [rangeJoined, Except.map, pure, Except.pure]
  | a :: as, i => by
    have ih := framed_pre (if i > 0 then ", " else "")
      (framed_bind (hbody a) (rangeJoined_framed body hbody as (i + 1)))
    intro b
    have hb := ih b
    simp only [rangeJoined, Buffer.WriteString] at hb ⊢
    split_ifs at hb ⊢ <;> simpa [String.append_assoc] using hb

theorem framed_map_append {f : Buffer → Except Fault Buffer} (s : String) (hf : Framed f) :
    Framed (fun b => (fun x => x ++ s) <$> f b) := by
  have : (fun b => (fun x => x ++ s) <$> f b) = (fun b => f b >>= fun b => pure (b ++ s)) := by
    funext b; cases f b <;> rfl
  rw [this]; exact framed_post s hf

theorem framed_map_id {f : Buffer → Except Fault Buffer} (hf : Framed f) :
    Framed (fun b => (fun x => x) <$> f b) := by
  have : (fun b => (fun x => x) <$> f b) = f := by
    funext b; cases f b <;> rfl
  rw [this]; exact hf

theorem appendValueWith_framed (L : Runtime) (h : Handler)
    (rec : Buffer → Attr → Except Fault Buffer) (hrec : ∀ a, Framed (fun b => rec b a))
    (v : Value) : Framed (fun b => h.appendValueWith L rec b v) := by
  cases v with
  | group attrs =>
    have := framed_map_id (framed_wrap "\x7b" "\x7d" (rangeJoined_framed rec hrec attrs 0))
    intro b
    have hb := this b
    simpa [Handler.appendValueWith, Value.asError, Value.isKindAny, Buffer.WriteString] using hb
  | any p =>
    cases hp : p.err with
    | none =>
      have := framed_map_id (appendReflectedValue_framed L h p.rv)
      intro b
      have hb := this b
      simpa [Handler.appendValueWith, Value.asError, Value.isKindAny, hp] using hb
    | some msg =>
      intro b
      simp only [Handler.appendValueWith, Value.asError, Value.isKindAny, hp, AppendQuote,
        Buffer.WriteColor, Buffer.ResetColor]
      cases h.colors <;> simp [Except.map, pure, Except.pure, String.append_assoc]
  | logValuer p =>
    cases hp : p.err with
    | none =>
      intro b
      simp [Handler.appendValueWith, Value.asError, Value.isKindAny, hp, Except.map, pure,
        Except.pure, Functor.map]
    | some msg =>
      intro b
      simp [Handler.appendValueWith, Value.asError, Value.isKindAny, hp, AppendQuote,
        Except.map, pure, Except.pure]
  | _ =>
    intro b
    simp [Handler.appendValueWith, Value.asError, Value.isKindAny, AppendQuote, AppendInt,
      AppendUint, AppendBool, Buffer.WriteString, Except.map, pure, Except.pure, Functor.map,
      String.append_assoc]

theorem appendAttr_framed (L : Runtime) (h : Handler) :
    ∀ (fuel : Nat) (a : Attr), Framed (fun b => h.appendAttr L fuel b a)
  | 0, _ => by intro b; rfl
  | fuel + 1, a => by
    intro b
    simp only [Handler.appendAttr, Buffer.WriteString, appendKey_eq]
    have := framed_pre (h.keyText L (match h.opts.ReplaceAttr with
        | some replaceAttr => replaceAttr h.groups a
        | none => a).Key ++ "=")
      (appendValueWith_framed L h (h.appendAttr L fuel) (appendAttr_framed L h fuel)
        (match h.opts.ReplaceAttr with
        | some replaceAttr => replaceAttr h.groups a
        | none => a).Value)
    simpa [String.append_assoc] using this b

/-! ### Joining -/

theorem foldl_append_eq : ∀ (xs : List String) (acc : String),
    xs.foldl (fun r s => r ++ s) acc = acc ++ xs.foldl (fun r s => r ++ s) ""
  | [], acc => by simp
  | x :: xs, acc => by
    rw [List.foldl_cons, foldl_append_eq xs (acc ++ x), List.foldl_cons,
      foldl_append_eq xs ("" ++ x)]
    simp [String.append_assoc]

theorem join_cons (x : String) (xs : List String) :
    String.join (x :: xs) = x ++ String.join xs := by
  unfold String.join
  rw [List.foldl_cons, foldl_append_eq]
  simp

theorem join_append (xs ys : List String) :
    String.join (xs ++ ys) = String.join xs ++ String.join ys := by
  induction xs with
  | nil => simp [String.join]
  | cons x xs ih => simp [join_cons, ih, String.append_assoc]

theorem intercalate_go_eq (sep : String) : ∀ (xs : List String) (acc : String),
    String.intercalate.go acc sep xs = acc ++ String.join (xs.map (fun x => sep ++ x))
  | [], acc => by simp [String.intercalate.go, String.join]
  | x :: xs, acc => by
    rw [String.intercalate.go, intercalate_go_eq sep xs]
    simp [join_cons, String.append_assoc]

theorem intercalate_cons (sep x : String) (xs : List String) :
    sep.intercalate (x :: xs) = x ++ String.join (xs.map (fun x => sep ++ x)) := by
  rw [String.intercalate, intercalate_go_eq]

theorem intercalate_append (sep : String) (xs ys : List String) :
    sep.intercalate (xs ++ ys)
      = sep.intercalate xs ++ (if 0 < xs.length ∧ 0 < ys.length then sep else "")
        ++ sep.intercalate ys := by
  cases xs with
  | nil => simp [String.intercalate]
  | cons x xs =>
    cases ys with
    | nil => simp [String.intercalate]
    | cons y ys =>
      simp [intercalate_cons, join_append, join_cons, String.append_assoc]

theorem collect_length {α β : Type} (f : α → Except Fault β) :
    ∀ (as : List α) (bs : List β), collect f as = .ok bs → bs.length = as.length
  | [], bs, hb => by
    simp [collect, pure, Except.pure] at hb; subst hb; rfl
  | a :: as, bs, hb => by
    rw [collect] at hb
    cases ha : f a with
    | error e => simp [ha, bind, Except.bind] at hb
    | ok x =>
      cases has : collect f as with
      | error e => simp [ha, has, bind, Except.bind] at hb
      | ok xs =>
        simp [ha, has, bind, Except.bind, pure, Except.pure] at hb
        subst hb
        simp [collect_length f as xs has]

theorem collect_append {α β : Type} (f : α → Except Fault β) (as bs : List α) :
    collect f (as ++ bs) = (do
      let xs ← collect f as
      let ys ← collect f bs
      pure (xs ++ ys)) := by
  induction as with
  | nil =>
    simp only [List.nil_append, collect]
    cases collect f bs <;> rfl
  | cons a as ih =>
    show collect f (a :: (as ++ bs)) = (collect f (a :: as) >>= fun xs =>
      collect f bs >>= fun ys => pure (xs ++ ys))
    rw [collect, collect, ih]
    cases f a with
    | error e => rfl
    | ok x =>
      cases collect f as with
      | error e => rfl
      | ok xs =>
        cases collect f bs with
        | error e => rfl
        | ok ys => rfl

theorem rangeJoined_succ {α : Type} (body : Buffer → α → Except Fault Buffer)
    (hbody : ∀ a, Framed (fun b => body b a)) :
    ∀ (as : List α) (i : Nat) (b : Buffer), rangeJoined body (i + 1) b as
      = Except.map (fun rs => b ++ String.join (rs.map (fun x => ", " ++ x)))
          (collect (body "") as)
  | [], i, b => by simp [rangeJoined, collect, Except.map, pure, Except.pure, String.join]
  | a :: as, i, b => by
    simp only [rangeJoined, collect, Nat.succ_pos, if_true, gt_iff_lt, Buffer.WriteString]
    have hb : body (b ++ ", ") a = Except.map (fun s => b ++ ", " ++ s) (body "" a) :=
      hbody a (b ++ ", ")
    rw [hb]
    cases body "" a with
    | error e => rfl
    | ok x =>
      show rangeJoined body (i + 1 + 1) (b ++ ", " ++ x) as = _
      rw [rangeJoined_succ body hbody as (i + 1)]
      cases collect (body "") as with
      | error e => rfl
      | ok xs => simp [Except.map, bind, Except.bind, pure, Except.pure, join_cons, String.append_assoc]

theorem rangeJoined_zero {α : Type} (body : Buffer → α → Except Fault Buffer)
    (hbody : ∀ a, Framed (fun b => body b a)) (as : List α) (b : Buffer) :
    rangeJoined body 0 b as
      = Except.map (fun rs => b ++ ", ".intercalate rs) (collect (body "") as) := by
  cases as with
  | nil => simp [rangeJoined, collect, Except.map, pure, Except.pure, String.intercalate]
  | cons a as =>
    simp only [rangeJoined, collect, lt_irrefl, if_false, gt_iff_lt, Buffer.WriteString]
    have hb : body b a = Except.map (fun s => b ++ s) (body "" a) := hbody a b
    rw [hb]
    cases body "" a with
    | error e => rfl
    | ok x =>
      show rangeJoined body (0 + 1) (b ++ x) as = _
      rw [rangeJoined_succ body hbody as 0]
      cases collect (body "") as with
      | error e => rfl
      | ok xs => simp [Except.map, bind, Except.bind, pure, Except.pure, intercalate_cons, String.append_assoc]

/-- The two attribute loops of `Handle` with the separator between them
amount to one join over the concatenated list. -/
theorem rangeJoined_two {α : Type} (body : Buffer → α → Except Fault Buffer)
    (hbody : ∀ a, Framed (fun b => body b a)) (P R : List α) (b : Buffer)
    (k : Buffer → Except Fault Buffer) :
    (do
      let b ← rangeJoined body 0 b P
      let b := if P.length > 0 ∧ R.length > 0 then b ++ ", " else b
      let b ← rangeJoined body 0 b R
      k b)
    = (do
      let rs ← collect (body "") (P ++ R)
      k (b ++ ", ".intercalate rs)) := by
  rw [rangeJoined_zero body hbody, collect_append]
  cases hP : collect (body "") P with
  | error e => rfl
  | ok ps =>
    have hlen := collect_length _ _ _ hP
    show (rangeJoined body 0 (if P.length > 0 ∧ R.length > 0 then b ++ ", ".intercalate ps ++ ", "
      else b ++ ", ".intercalate ps) R >>= k) = _
    rw [rangeJoined_zero body hbody]
    cases hR : collect (body "") R with
    | error e => rfl
    | ok rs =>
      have hlen2 := collect_length _ _ _ hR
      show k _ = k _
      congr 1
      rw [intercalate_append, hlen, hlen2]
      split_ifs <;> simp [String.append_assoc]

/-! ### The line -/

theorem foldl_openings (L : Runtime) (h : Handler) : ∀ (gs : List String) (b : Buffer),
    gs.foldl (fun b g => h.appendKey L b g ++ "=\x7b") b
      = b ++ String.join (gs.map (fun g => h.keyText L g ++ "=\x7b"))
  | [], b => by simp [String.join]
  | g :: gs, b => by
    rw [List.foldl_cons, foldl_openings L h gs]
    simp [join_cons, appendKey_eq, Buffer.WriteString, String.append_assoc]

theorem foldl_closings {α : Type} : ∀ (gs : List α) (b : Buffer),
    gs.foldl (fun b _ => b ++ "\x7d") b
      = b ++ String.join (gs.map (fun _ => "\x7d"))
  | [], b => by simp [String.join]
  | g :: gs, b => by
    rw [List.foldl_cons, foldl_closings gs]
    simp [join_cons, Buffer.WriteString, String.append_assoc]

theorem writeSpaces_eq : ∀ (n : Nat) (b : Buffer),
    writeSpaces n b = b ++ String.mk (List.replicate n ' ')
  | 0, b => by simp [writeSpaces]
  | n + 1, b => by
    rw [writeSpaces, writeSpaces_eq n]
    apply String.ext
    simp [Buffer.WriteString, List.replicate_succ]

/-- `Handle` in closed form. -/
theorem Handle_eq (L : Runtime) (h : Handler) (fuel : Nat) (r : Record) :
    h.Handle L fuel r
      = Except.map (fun rs =>
          h.headerText L r ++ r.Message
            ++ (if 0 < h.attrs.length ∨ 0 < r.attrs.length then " \x7b" else "")
            ++ h.groupOpenings L ++ ", ".intercalate rs ++ h.groupClosings
            ++ (if 0 < h.attrs.length ∨ 0 < r.attrs.length then "\x7d" else "")
            ++ "\n")
          (collect (h.attrText L fuel) (h.attrs ++ r.attrs)) := by
  unfold Handler.Handle
  simp only [Buffer.WriteString]
  rw [rangeJoined_two (h.appendAttr L fuel) (appendAttr_framed L h fuel)]
  simp only [foldl_openings, foldl_closings]
  show (collect (h.attrText L fuel) (h.attrs ++ r.attrs) >>= _) = _
  cases collect (h.attrText L fuel) (h.attrs ++ r.attrs) with
  | error e => rfl
  | ok rs =>
    simp only [Except.map, bind, Except.bind, pure, Except.pure, Handler.headerText,
      Handler.groupOpenings, Handler.groupClosings]
    by_cases hc : 0 < h.attrs.length ∨ 0 < r.attrs.length
    · simp [hc, String.append_assoc]
    · simp [hc, String.append_assoc]

theorem headerText_plain (L : Runtime) (h : Handler) (r : Record)
    (hcol : h.colors = false) (hsrc : h.opts.AddSource = false) :
    h.headerText L r = L.timeFormat r.Time "2006-01-02 15:04:05.000" ++ " "
      ++ String.mk (List.replicate (5 - (levelString r.Level).utf8ByteSize) ' ')
      ++ levelString r.Level ++ " " := by
  have hpad : ((5 : Int) - ((levelString r.Level).utf8ByteSize : Int)).toNat
      = 5 - (levelString r.Level).utf8ByteSize := by omega
  simp [Handler.headerText, Handler.writeSource, Handler.writeLevel, Handler.writeTime, hcol,
    hsrc, Buffer.WriteString, writeSpaces_eq, hpad, String.append_assoc]

/-! ### Enough fuel -/

theorem fueled_bind {r : Except Fault Buffer} {g : Buffer → Except Fault Buffer}
    (hr : Fueled r) (hg : ∀ b, Fueled (g b)) : Fueled (r >>= g) := by
  cases r with
  | error e => exact hr
  | ok x => exact hg x

theorem fueled_pure (b : Buffer) : Fueled (pure b) := by
  intro h; cases h

theorem appendMapKeys_fueled (L : Runtime) (h : Handler)
    (index : Buffer → String → Except Fault Buffer) (hidx : ∀ b k, Fueled (index b k)) :
    ∀ (keys : List String) (i : Nat) (b : Buffer), Fueled (h.appendMapKeys L index i b keys)
  | [], _, b => fueled_pure b
  | k :: keys, i, b => by
    rw [Handler.appendMapKeys]
    exact fueled_bind (hidx _ _) (fun b => appendMapKeys_fueled L h index hidx keys (i + 1) b)

mutual
theorem appendReflectedValue_fueled (L : Runtime) (h : Handler) :
    ∀ (v : RValue) (b : Buffer), Fueled (h.appendReflectedValue L b v)
  | .slice n elems, b => by
    have ih := fun b => appendElems_fueled L h elems 0 b
    simp only [Handler.appendReflectedValue]
    split_ifs
    · exact fueled_pure _
    · exact fueled_bind (ih _) (fun b => fueled_pure _)
  | .array elems, b => by
    have ih := fun b => appendElems_fueled L h elems 0 b
    simp only [Handler.appendReflectedValue]
    split_ifs
    · exact fueled_pure _
    · exact fueled_bind (ih _) (fun b => fueled_pure _)
  | .map kt n entries, b => by
    have ih := fun b k => appendMapIndex_fueled L h kt entries k b
    simp only [Handler.appendReflectedValue]
    split_ifs
    · exact fueled_pure _
    · exact fueled_bind (appendMapKeys_fueled L h _ ih _ 0 _) (fun b => fueled_pure _)
  | .struct fields, b => by
    have ih := fun b => appendFields_fueled L h fields 0 b
    simp only [Handler.appendReflectedValue]
    split_ifs
    · exact fueled_pure _
    · exact fueled_bind (ih _) (fun b => fueled_pure _)
  | .ptr elem, b => by
    rw [appendReflectedValue_ptr]
    exact appendReflectedValue_fueled L h elem b
  | .iface elem, b => by
    rw [appendReflectedValue_iface]
    exact appendReflectedValue_fueled L h elem b
  | .invalid, b | .bool _, b | .int _, b | .uint _, b | .float _, b | .complex _ _, b
  | .string _, b | .nilPtr, b | .nilIface, b | .chanFunc _, b => by
    simp only [Handler.appendReflectedValue.eq_def]
    split_ifs <;> exact fueled_pure _
theorem appendElems_fueled (L : Runtime) (h : Handler) :
    ∀ (elems : List RValue) (i : Nat) (b : Buffer), Fueled (h.appendElems L i b elems)
  | [], _, b => fueled_pure b
  | e :: elems, i, b => by
    rw [Handler.appendElems]
    exact fueled_bind (appendReflectedValue_fueled L h e _)
      (fun b => appendElems_fueled L h elems (i + 1) b)
theorem appendMapIndex_fueled (L : Runtime) (h : Handler) (kt : KeyType) :
    ∀ (entries : List (RValue × RValue)) (k : String) (b : Buffer),
      Fueled (h.appendMapIndex L kt b k entries)
  | [], _, b => by
    simp only [Handler.appendMapIndex]
    split_ifs
    · exact fueled_pure _
    · intro hx; cases hx
  | (key, v) :: entries, k, b => by
    have ih1 := appendReflectedValue_fueled L h v b
    have ih2 := appendMapIndex_fueled L h kt entries k b
    simp only [Handler.appendMapIndex]
    split_ifs
    · intro hx; cases hx
    · exact ih1
    · exact ih2
theorem appendFields_fueled (L : Runtime) (h : Handler) :
    ∀ (fields : List (String × Bool × RValue)) (count : Nat) (b : Buffer),
      Fueled (h.appendFields L count b fields)
  | [], _, b => fueled_pure b
  | (name, exported, v) :: fields, count, b => by
    have ih1 := fun b => appendReflectedValue_fueled L h v b
    have ih2 := fun c b => appendFields_fueled L h fields c b
    cases exported with
    | false => simpa only [Handler.appendFields] using ih2 count b
    | true =>
      simp only [Handler.appendFields]
      exact fueled_bind (ih1 _) (fun b => ih2 _ b)
end

theorem rangeJoined_fueled {α : Type} (body : Buffer → α → Except Fault Buffer) :
    ∀ (as : List α), (∀ a ∈ as, ∀ b, Fueled (body b a)) →
      ∀ (i : Nat) (b : Buffer), Fueled (rangeJoined body i b as)
  | [], _, _, b => fueled_pure b
  | a :: as, hbody, i, b => by
    rw [rangeJoined]
    exact fueled_bind (hbody a (List.mem_cons_self _ _) _)
      (fun b => rangeJoined_fueled body as
        (fun a ha => hbody a (List.mem_cons_of_mem _ ha)) (i + 1) b)

theorem depth_le_of_mem : ∀ (as : List Attr) (a : Attr), a ∈ as → a.depth ≤ Attr.depthList as
  | x :: xs, a, ha => by
    rw [Attr.depthList]
    rcases List.mem_cons.mp ha with rfl | ha
    · exact le_max_left _ _
    · exact le_trans (depth_le_of_mem xs a ha) (le_max_right _ _)

theorem fueled_map {r : Except Fault Buffer} (f : Buffer → Buffer) (hr : Fueled r) :
    Fueled (f <$> r) := by
  cases r with
  | error e => exact hr
  | ok x => intro hx; cases hx

theorem appendValueWith_fueled (L : Runtime) (h : Handler)
    (rec : Buffer → Attr → Except Fault Buffer) (b : Buffer) :
    ∀ v : Value, (∀ attrs, v = .group attrs → ∀ a ∈ attrs, ∀ b, Fueled (rec b a)) →
      Fueled (h.appendValueWith L rec b v) := by
  intro v hrec
  unfold Handler.appendValueWith
  cases hv : v.asError with
  | some m => exact fueled_pure _
  | none =>
    apply fueled_map
    cases v with
    | group attrs =>
      exact fueled_bind (rangeJoined_fueled rec attrs (hrec attrs rfl) 0 _)
        (fun b => fueled_pure _)
    | any p => exact appendReflectedValue_fueled L h p.rv _
    | _ => exact fueled_pure _

/-- Without a rewrite hook, fuel equal to the nesting depth of an attribute
is enough: `appendAttr` then returns or panics, it does not run out of
fuel. -/
theorem appendAttr_fueled (L : Runtime) (h : Handler) (hhook : h.opts.ReplaceAttr = none) :
    ∀ (fuel : Nat) (a : Attr) (b : Buffer), a.depth ≤ fuel → Fueled (h.appendAttr L fuel b a)
  | 0, .mk k v, b, hd => by simp [Attr.depth] at hd
  | fuel + 1, .mk k v, b, hd => by
    have ih := appendAttr_fueled L h hhook fuel
    have hv : v.depth ≤ fuel := by simpa [Attr.depth] using hd
    simp only [Handler.appendAttr, hhook, Attr.Value, Attr.Key]
    apply appendValueWith_fueled
    intro attrs hattrs a ha b
    subst hattrs
    exact ih a b (le_trans (depth_le_of_mem attrs a ha) (by simpa [Value.depth] using hv))

theorem collect_ok {α : Type} (f : α → Except Fault String) :
    ∀ as : List α, (∀ a ∈ as, ∃ s, f a = .ok s) → ∃ rs, collect f as = .ok rs
  | [], _ => ⟨[], rfl⟩
  | a :: as, hall => by
    obtain ⟨s, hs⟩ := hall a (List.mem_cons_self _ _)
    obtain ⟨rs, hrs⟩ := collect_ok f as (fun a ha => hall a (List.mem_cons_of_mem _ ha))
    exact ⟨s :: rs, by rw [collect, hs, hrs]; rfl⟩

/-! ### Attributes, keys and paths -/

theorem appendAttr_succ (L : Runtime) (h : Handler) (fuel : Nat) (b : Buffer) (a : Attr) :
    h.appendAttr L (fuel + 1) b a
      = Except.map (fun v => b ++ h.keyText L (h.replaced a).Key ++ "=" ++ v)
          (h.appendValue L fuel "" (h.replaced a).Value) := by
  have hv := appendValueWith_framed L h (h.appendAttr L fuel) (appendAttr_framed L h fuel)
    (h.replaced a).Value (b ++ h.keyText L (h.replaced a).Key ++ "=")
  simp only [Handler.appendAttr, Buffer.WriteString, appendKey_eq]
  exact hv

theorem appendValue_error (L : Runtime) (h : Handler) (fuel : Nat) (b : Buffer) (p : Payload)
    (m : String) (hp : p.err = some m) :
    h.appendValue L fuel b (.any p)
      = .ok (b ++ (if h.colors then Color.Red ++ Quote L m ++ Color.Reset else Quote L m)) := by
  simp only [Handler.appendValue, Handler.appendValueWith, Value.asError, Value.isKindAny, hp,
    AppendQuote, Buffer.WriteColor, Buffer.ResetColor]
  cases h.colors <;> simp [pure, Except.pure, String.append_assoc]

theorem keyText_eq (L : Runtime) (h : Handler) (key : String) :
    h.keyText L key
      = if h.colors then Color.BrightBlack ++ plainKey L key ++ Color.Reset
        else plainKey L key := by
  unfold Handler.keyText Handler.appendKey plainKey
  simp only [Buffer.WriteColor, Buffer.WriteString, Buffer.ResetColor, AppendQuote]
  split_ifs <;> simp

theorem appendValue_group (L : Runtime) (h : Handler) (fuel : Nat) (b : Buffer)
    (as : List Attr) :
    h.appendValue L fuel b (.group as)
      = Except.map (fun rs => b ++ "\x7b" ++ ", ".intercalate rs ++ "\x7d")
          (collect (h.attrText L fuel) as) := by
  simp only [Handler.appendValue, Handler.appendValueWith, Value.asError, Value.isKindAny,
    Buffer.WriteString]
  rw [rangeJoined_zero (h.appendAttr L fuel) (appendAttr_framed L h fuel)]
  show _ <$> (Except.map _ (collect (h.attrText L fuel) as) >>= _) = _
  cases collect (h.attrText L fuel) as with
  | error e => rfl
  | ok rs => simp [Except.map, Functor.map, bind, Except.bind, pure, Except.pure]

theorem collect_congr {α β : Type} (f g : α → Except Fault β) (hfg : ∀ a, f a = g a) :
    ∀ as : List α, collect f as = collect g as
  | [] => rfl
  | a :: as => by rw [collect, collect, hfg a, collect_congr f g hfg as]

theorem LastIndexByte_ge (c : Char) : ∀ s : List Char, -1 ≤ LastIndexByte s c
  | [] => by simp [LastIndexByte]
  | x :: xs => by
    have := LastIndexByte_ge c xs
    simp only [LastIndexByte]
    split_ifs <;> omega

theorem LastIndexByte_absent (c : Char) : ∀ s : List Char, c ∉ s → LastIndexByte s c = -1
  | [], _ => rfl
  | x :: xs, h => by
    have hx : x ≠ c := fun e => h (e ▸ List.mem_cons_self _ _)
    have hxs : c ∉ xs := fun e => h (List.mem_cons_of_mem _ e)
    simp [LastIndexByte, LastIndexByte_absent c xs hxs, hx]

/-- Where the last occurrence is: the list splits around it. -/
theorem LastIndexByte_split (c : Char) : ∀ s : List Char, c ∈ s →
    ∃ pre post, s = pre ++ c :: post ∧ c ∉ post ∧ LastIndexByte s c = pre.length
  | [], h => by simp at h
  | x :: xs, h => by
    by_cases hxs : c ∈ xs
    · obtain ⟨pre, post, hs, hpost, hidx⟩ := LastIndexByte_split c xs hxs
      refine ⟨x :: pre, post, by rw [hs]; rfl, hpost, ?_⟩
      have : LastIndexByte xs c ≠ -1 := by rw [hidx]; omega
      simp [LastIndexByte, this, hidx]
    · have hx : x = c := by
        rcases List.mem_cons.mp h with h | h
        · exact h.symm
        · exact absurd h hxs
      refine ⟨[], xs, by rw [hx]; rfl, hxs, ?_⟩
      simp [LastIndexByte, LastIndexByte_absent c xs hxs, hx]

theorem getShortPath_cases (f : Frame) :
    (f.File.data.count '/' < 2 ∧ getShortPath f = f.File)
    ∨ (∃ pre mid post : List Char, f.File.data = pre ++ '/' :: (mid ++ '/' :: post)
        ∧ '/' ∉ mid ∧ '/' ∉ post ∧ getShortPath f = String.mk (mid ++ '/' :: post)) := by
  by_cases h1 : '/' ∈ f.File.data
  · obtain ⟨pre, post, hs, hpost, hidx⟩ := LastIndexByte_split '/' f.File.data h1
    have htake : f.File.data.take (LastIndexByte f.File.data '/').toNat = pre := by
      rw [hidx, hs]; simp
    have hne : LastIndexByte f.File.data '/' ≠ -1 := by rw [hidx]; omega
    by_cases h2 : '/' ∈ pre
    · obtain ⟨pre2, mid, hs2, hmid, hidx2⟩ := LastIndexByte_split '/' pre h2
      right
      refine ⟨pre2, mid, post, by rw [hs, hs2]; simp, hmid, hpost, ?_⟩
      have hne2 : LastIndexByte pre '/' ≠ -1 := by rw [hidx2]; omega
      simp only [getShortPath, hne, htake, hne2, if_false]
      congr 1
      rw [hidx2, hs, hs2]
      have : ((pre2.length : Int) + 1).toNat = pre2.length + 1 := by omega
      rw [this]
      simp [List.drop_append_eq_append_drop]
    · left
      constructor
      · rw [hs]
        simp [List.count_append, List.count_cons, List.count_eq_zero_of_not_mem h2,
          List.count_eq_zero_of_not_mem hpost]
      · simp [getShortPath, hne, htake, LastIndexByte_absent '/' pre h2]
  · left
    constructor
    · rw [List.count_eq_zero_of_not_mem h1]; omega
    · simp [getShortPath, LastIndexByte_absent '/' _ h1]

theorem needsQuoting_iff (L : Runtime) (s : String) :
    needsQuoting L s = true
      ↔ ∃ c ∈ s.data, IsPrint L c = false ∨ c = ' ' ∨ c = Char.ofNat 0x22 ∨ c = '=' := by
  simp [needsQuoting, List.any_eq_true, or_assoc]

/-! ### Struct fields, unquoting, coloring -/

theorem appendFields_step (L : Runtime) (h : Handler) (count : Nat) (b : Buffer)
    (name : String) (v : RValue) (fields : List (String × Bool × RValue)) :
    h.appendFields L count b ((name, true, v) :: fields)
      = (h.fieldText L (name, true, v) >>= fun t =>
          h.appendFields L (count + 1) ((if count > 0 then b ++ ", " else b) ++ t) fields) := by
  rw [Handler.appendFields]
  simp only [Buffer.WriteString, appendKey_eq, if_true, Handler.fieldText]
  have hv := appendReflectedValue_framed L h v
    ((if count > 0 then b ++ ", " else b) ++ h.keyText L name ++ "=")
  simp only at hv
  rw [hv]
  cases h.appendReflectedValue L "" v with
  | error e => rfl
  | ok x => simp [Except.map, bind, Except.bind, String.append_assoc]

theorem appendFields_succ (L : Runtime) (h : Handler) :
    ∀ (fields : List (String × Bool × RValue)) (count : Nat) (b : Buffer),
      h.appendFields L (count + 1) b fields
        = Except.map (fun rs => b ++ String.join (rs.map (fun x => ", " ++ x)))
            (collect (h.fieldText L) (fields.filter (fun f => f.2.1)))
  | [], count, b => by
    simp [Handler.appendFields, collect, Except.map, pure, Except.pure, String.join]
  | (name, false, v) :: fields, count, b => by
    rw [Handler.appendFields]
    simpa using appendFields_succ L h fields count b
  | (name, true, v) :: fields, count, b => by
    rw [appendFields_step]
    simp only [List.filter_cons_of_pos, collect, Nat.succ_pos, gt_iff_lt, if_true]
    cases h.fieldText L (name, true, v) with
    | error e => rfl
    | ok t =>
      show h.appendFields L (count + 1 + 1) (b ++ ", " ++ t) fields = _
      rw [appendFields_succ L h fields (count + 1)]
      cases collect (h.fieldText L) (fields.filter (fun f => f.2.1)) with
      | error e => rfl
      | ok rs =>
        simp [Except.map, bind, Except.bind, pure, Except.pure, join_cons, String.append_assoc]

theorem appendFields_zero (L : Runtime) (h : Handler) :
    ∀ (fields : List (String × Bool × RValue)) (b : Buffer),
      h.appendFields L 0 b fields
        = Except.map (fun rs => b ++ ", ".intercalate rs)
            (collect (h.fieldText L) (fields.filter (fun f => f.2.1)))
  | [], b => by
    simp [Handler.appendFields, collect, Except.map, pure, Except.pure, String.intercalate]
  | (name, false, v) :: fields, b => by
    rw [Handler.appendFields]
    simpa using appendFields_zero L h fields b
  | (name, true, v) :: fields, b => by
    rw [appendFields_step]
    simp only [List.filter_cons_of_pos, collect, lt_irrefl, gt_iff_lt, if_false]
    cases h.fieldText L (name, true, v) with
    | error e => rfl
    | ok t =>
      show h.appendFields L (0 + 1) (b ++ t) fields = _
      rw [appendFields_succ L h fields 0]
      cases collect (h.fieldText L) (fields.filter (fun f => f.2.1)) with
      | error e => rfl
      | ok rs =>
        simp [Except.map, bind, Except.bind, pure, Except.pure, intercalate_cons,
          String.append_assoc]

theorem unhex_hexDigit (n : Nat) : unhex (hexDigit n) = some (n % 16) := by
  have h : n % 16 < 16 := Nat.mod_lt _ (by decide)
  unfold hexDigit
  generalize n % 16 = d at h
  interval_cases d <;> rfl

theorem hexDigits_length : ∀ (k n : Nat), (hexDigits k n).length = k
  | 0, _ => rfl
  | k + 1, n => by simp [hexDigits, hexDigits_length k]

theorem unhexDigits_append : ∀ (xs ys : List Char) (v : Nat),
    unhexDigits v (xs ++ ys) = (unhexDigits v xs).bind (fun w => unhexDigits w ys)
  | [], ys, v => rfl
  | x :: xs, ys, v => by
    simp only [List.cons_append, unhexDigits]
    cases unhex x with
    | none => rfl
    | some d => exact unhexDigits_append xs ys _

theorem unhexDigits_hexDigits : ∀ (k n v : Nat),
    unhexDigits v (hexDigits k n) = some (v * 16 ^ k + n % 16 ^ k)
  | 0, n, v => by simp [hexDigits, unhexDigits, Nat.mod_one]
  | k + 1, n, v => by
    rw [hexDigits, unhexDigits_append, unhexDigits_hexDigits k (n / 16) v]
    simp only [Option.some_bind, unhexDigits, unhex_hexDigit]
    congr 1
    have h16 : 16 ^ (k + 1) = 16 * 16 ^ k := by ring
    rw [h16, Nat.mod_mul, Nat.mul_comm 16 (n / 16 % 16 ^ k)]
    ring

theorem char_eq_of_toNat {r : Char} {n : Nat} (h : r.toNat = n) : r = Char.ofNat n := by
  rw [← h, Char.ofNat_toNat]

theorem hexEscape_hexDigits (k n : Nat) (conv : Nat → Option Char) (tail : List Char) (r : Char)
    (hn : n < 16 ^ k) (hconv : conv n = some r) :
    hexEscape k conv (hexDigits k n ++ tail) = some (r, tail) := by
  have hlen := hexDigits_length k n
  have htake : (hexDigits k n ++ tail).take k = hexDigits k n := List.take_left' hlen
  have hdrop : (hexDigits k n ++ tail).drop k = tail := List.drop_left' hlen
  unfold hexEscape
  rw [if_neg (by rw [List.length_append]; omega), htake, hdrop, unhexDigits_hexDigits,
    Nat.mod_eq_of_lt hn]
  simp [hconv]

theorem UnquoteChar_simple (e r : Char) (tail : List Char) (h : simpleEscape e = some r)
    (hx : e ≠ 'x') (hu : e ≠ 'u') (hU : e ≠ 'U') (ho : unoctal e = none) :
    UnquoteChar (Char.ofNat 0x5C :: e :: tail) = some (r, tail) := by
  have h1 : Char.ofNat 0x5C ≠ Char.ofNat 0x22 := by decide
  simp only [UnquoteChar, if_neg h1, ne_eq, not_true_eq_false, if_false, if_neg hx, if_neg hu,
    if_neg hU, ho, h, Option.map_some']

theorem IsPrint_control (L : Runtime) (r : Char) (h : r.toNat < 0x20) : IsPrint L r = false := by
  unfold IsPrint
  rw [if_pos (by omega), if_neg (by omega), if_neg (by omega)]

theorem escapedRune_control (L : Runtime) (r : Char)
    (hq : ¬ (r = Char.ofNat 0x22 ∨ r = Char.ofNat 0x5C)) (hp : IsPrint L r = false) :
    escapedRune L r = controlEscape r.toNat := by
  unfold escapedRune controlEscape
  rw [if_neg hq, if_neg (by simp [hp])]

theorem controlEscape_data (n : Nat) :
    (n = 7 ∧ (controlEscape n).data = [Char.ofNat 0x5C, 'a'])
    ∨ (n = 8 ∧ (controlEscape n).data = [Char.ofNat 0x5C, 'b'])
    ∨ (n = 12 ∧ (controlEscape n).data = [Char.ofNat 0x5C, 'f'])
    ∨ (n = 10 ∧ (controlEscape n).data = [Char.ofNat 0x5C, 'n'])
    ∨ (n = 13 ∧ (controlEscape n).data = [Char.ofNat 0x5C, 'r'])
    ∨ (n = 9 ∧ (controlEscape n).data = [Char.ofNat 0x5C, 't'])
    ∨ (n = 11 ∧ (controlEscape n).data = [Char.ofNat 0x5C, 'v'])
    ∨ (n < 0x80 ∧ (controlEscape n).data = Char.ofNat 0x5C :: 'x' :: hexDigits 2 n)
    ∨ (n < 0x10000 ∧ (controlEscape n).data = Char.ofNat 0x5C :: 'u' :: hexDigits 4 n)
    ∨ (controlEscape n).data = Char.ofNat 0x5C :: 'U' :: hexDigits 8 n := by
  unfold controlEscape
  by_cases h7 : n = 7
  · rw [if_pos h7]; exact Or.inl ⟨h7, rfl⟩
  rw [if_neg h7]
  by_cases h8 : n = 8
  · rw [if_pos h8]; exact Or.inr (Or.inl ⟨h8, rfl⟩)
  rw [if_neg h8]
  by_cases h12 : n = 12
  · rw [if_pos h12]; exact Or.inr (Or.inr (Or.inl ⟨h12, rfl⟩))
  rw [if_neg h12]
  by_cases h10 : n = 10
  · rw [if_pos h10]; exact Or.inr (Or.inr (Or.inr (Or.inl ⟨h10, rfl⟩)))
  rw [if_neg h10]
  by_cases h13 : n = 13
  · rw [if_pos h13]; exact Or.inr (Or.inr (Or.inr (Or.inr (Or.inl ⟨h13, rfl⟩))))
  rw [if_neg h13]
  by_cases h9 : n = 9
  · rw [if_pos h9]; exact Or.inr (Or.inr (Or.inr (Or.inr (Or.inr (Or.inl ⟨h9, rfl⟩)))))
  rw [if_neg h9]
  by_cases h11 : n = 11
  · rw [if_pos h11]
    exact Or.inr (Or.inr (Or.inr (Or.inr (Or.inr (Or.inr (Or.inl ⟨h11, rfl⟩))))))
  rw [if_neg h11]
  by_cases hx : n < 0x20 ∨ n = 0x7F
  · rw [if_pos hx]
    exact Or.inr (Or.inr (Or.inr (Or.inr (Or.inr (Or.inr (Or.inr (Or.inl
      ⟨by rcases hx with h | h <;> omega, rfl⟩)))))))
  rw [if_neg hx]
  by_cases hu : n < 0x10000
  · rw [if_pos hu]
    exact Or.inr (Or.inr (Or.inr (Or.inr (Or.inr (Or.inr (Or.inr (Or.inr (Or.inl
      ⟨hu, rfl⟩))))))))
  rw [if_neg hu]
  exact Or.inr (Or.inr (Or.inr (Or.inr (Or.inr (Or.inr (Or.inr (Or.inr (Or.inr rfl))))))))

/-- Decoding what `escapedRune` wrote gives the rune back. -/
theorem UnquoteChar_escapedRune (L : Runtime) (r : Char) (tail : List Char) :
    UnquoteChar ((escapedRune L r).data ++ tail) = some (r, tail) := by
  have h1 : Char.ofNat 0x5C ≠ Char.ofNat 0x22 := by decide
  by_cases hq : r = Char.ofNat 0x22 ∨ r = Char.ofNat 0x5C
  · have hE : escapedRune L r = String.mk [Char.ofNat 0x5C, r] := by
      unfold escapedRune; rw [if_pos hq]
    rw [hE]
    rcases hq with rfl | rfl
    · exact UnquoteChar_simple _ _ tail (by decide) (by decide) (by decide) (by decide) (by decide)
    · exact UnquoteChar_simple _ _ tail (by decide) (by decide) (by decide) (by decide) (by decide)
  cases hp : IsPrint L r
  swap
  · have hE : escapedRune L r = String.mk [r] := by
      unfold escapedRune; rw [if_neg hq, if_pos hp]
    have hq1 : r ≠ Char.ofNat 0x22 := fun h => hq (Or.inl h)
    have hq2 : r ≠ Char.ofNat 0x5C := fun h => hq (Or.inr h)
    rw [hE]
    simp only [List.singleton_append, UnquoteChar, if_neg hq1, ne_eq, hq2, not_false_eq_true,
      if_true]
  rw [escapedRune_control L r hq hp]
  have hv : Nat.isValidChar r.toNat := r.valid
  have hconvU : codePoint r.toNat = some r := by
    unfold codePoint
    rw [if_pos hv, Char.ofNat_toNat]
  rcases controlEscape_data r.toNat with
    ⟨h, hd⟩ | ⟨h, hd⟩ | ⟨h, hd⟩ | ⟨h, hd⟩ | ⟨h, hd⟩ | ⟨h, hd⟩ | ⟨h, hd⟩ | ⟨h, hd⟩ | ⟨h, hd⟩ | hd
  all_goals rw [hd]
  · rw [char_eq_of_toNat h]
    exact UnquoteChar_simple _ _ tail (by decide) (by decide) (by decide) (by decide) (by decide)
  · rw [char_eq_of_toNat h]
    exact UnquoteChar_simple _ _ tail (by decide) (by decide) (by decide) (by decide) (by decide)
  · rw [char_eq_of_toNat h]
    exact UnquoteChar_simple _ _ tail (by decide) (by decide) (by decide) (by decide) (by decide)
  · rw [char_eq_of_toNat h]
    exact UnquoteChar_simple _ _ tail (by decide) (by decide) (by decide) (by decide) (by decide)
  · rw [char_eq_of_toNat h]
    exact UnquoteChar_simple _ _ tail (by decide) (by decide) (by decide) (by decide) (by decide)
  · rw [char_eq_of_toNat h]
    exact UnquoteChar_simple _ _ tail (by decide) (by decide) (by decide) (by decide) (by decide)
  · rw [char_eq_of_toNat h]
    exact UnquoteChar_simple _ _ tail (by decide) (by decide) (by decide) (by decide) (by decide)
  · have hconv : byteRune r.toNat = some r := by
      unfold byteRune
      rw [if_pos h, Char.ofNat_toNat]
    show UnquoteChar (Char.ofNat 0x5C :: 'x' :: (hexDigits 2 r.toNat ++ tail)) = _
    simp only [UnquoteChar, if_neg h1, ne_eq, not_true_eq_false, if_false, if_true]
    exact hexEscape_hexDigits 2 r.toNat byteRune tail r (by omega) hconv
  · show UnquoteChar (Char.ofNat 0x5C :: 'u' :: (hexDigits 4 r.toNat ++ tail)) = _
    have hux : ('u' : Char) ≠ 'x' := by decide
    simp only [UnquoteChar, if_neg h1, ne_eq, not_true_eq_false, if_false, if_neg hux, if_true]
    exact hexEscape_hexDigits 4 r.toNat codePoint tail r (by omega) hconvU
  · have hn : r.toNat < 16 ^ 8 := by
      rcases hv with h | ⟨_, h⟩
      · exact lt_trans h (by decide)
      · exact lt_trans h (by decide)
    show UnquoteChar (Char.ofNat 0x5C :: 'U' :: (hexDigits 8 r.toNat ++ tail)) = _
    have hUx : ('U' : Char) ≠ 'x' := by decide
    have hUu : ('U' : Char) ≠ 'u' := by decide
    simp only [UnquoteChar, if_neg h1, ne_eq, not_true_eq_false, if_false, if_neg hUx,
      if_neg hUu, if_true]
    exact hexEscape_hexDigits 8 r.toNat codePoint tail r hn hconvU

/-- What `escapedRune` writes starts with a rune that is neither the quote
nor a newline. -/
theorem escapedRune_head (L : Runtime) (r : Char) :
    ∃ c rest, (escapedRune L r).data = c :: rest ∧ c ≠ Char.ofNat 0x22 ∧ c ≠ Char.ofNat 10 := by
  by_cases hq : r = Char.ofNat 0x22 ∨ r = Char.ofNat 0x5C
  · refine ⟨Char.ofNat 0x5C, [r], ?_, by decide, by decide⟩
    unfold escapedRune; rw [if_pos hq]
  cases hp : IsPrint L r
  · rw [escapedRune_control L r hq hp]
    rcases controlEscape_data r.toNat with
      ⟨_, hd⟩ | ⟨_, hd⟩ | ⟨_, hd⟩ | ⟨_, hd⟩ | ⟨_, hd⟩ | ⟨_, hd⟩ | ⟨_, hd⟩ | ⟨_, hd⟩ | ⟨_, hd⟩ | hd
    all_goals exact ⟨_, _, hd, by decide, by decide⟩
  · refine ⟨r, [], ?_, fun h => hq (Or.inl h), ?_⟩
    · unfold escapedRune
      rw [if_neg hq, if_pos hp]
    · intro h
      rw [h, IsPrint_control L _ (by decide)] at hp
      exact Bool.noConfusion hp

theorem unquoteLoop_step (L : Runtime) (r : Char) (tail : List Char) (fuel : Nat) :
    unquoteLoop (fuel + 1) ((escapedRune L r).data ++ tail)
      = (unquoteLoop fuel tail).map (fun out => r :: out) := by
  obtain ⟨c, rest, hd, hc1, hc2⟩ := escapedRune_head L r
  have hU := UnquoteChar_escapedRune L r tail
  rw [hd] at hU ⊢
  simp only [List.cons_append] at hU ⊢
  rw [unquoteLoop]
  simp only [if_neg hc1, hU, if_neg hc2]

theorem unquoteLoop_quoted (L : Runtime) : ∀ (cs : List Char) (fuel : Nat), cs.length < fuel →
    unquoteLoop fuel ((String.join (cs.map (escapedRune L))).data ++ [Char.ofNat 0x22]) = some cs
  | [], fuel, hf => by
    obtain ⟨f, rfl⟩ : ∃ f, fuel = f + 1 := ⟨fuel - 1, by simp at hf; omega⟩
    rfl
  | r :: cs, fuel, hf => by
    obtain ⟨f, rfl⟩ : ∃ f, fuel = f + 1 := ⟨fuel - 1, by simp at hf; omega⟩
    rw [List.map_cons, join_cons, String.data_append, List.append_assoc, unquoteLoop_step,
      unquoteLoop_quoted L cs f (by simp at hf; omega)]
    rfl

theorem escapedRune_length_pos (L : Runtime) (r : Char) : 0 < (escapedRune L r).data.length := by
  obtain ⟨c, rest, hd, _, _⟩ := escapedRune_head L r
  rw [hd]; simp

theorem join_escaped_length (L : Runtime) : ∀ cs : List Char,
    cs.length ≤ (String.join (cs.map (escapedRune L))).data.length
  | [] => by simp
  | r :: cs => by
    rw [List.map_cons, join_cons, String.data_append, List.length_append, List.length_cons]
    have := escapedRune_length_pos L r
    have := join_escaped_length L cs
    omega

/-- Unquoting what `Quote` wrote gives the string back. -/
theorem Unquote_Quote (L : Runtime) (s : String) : Unquote (Quote L s) = some s := by
  have hd : (Quote L s).data
      = Char.ofNat 0x22 :: ((String.join (s.data.map (escapedRune L))).data ++ [Char.ofNat 0x22]) := by
    unfold Quote
    simp only [String.data_append]
    rfl
  unfold Unquote
  rw [hd]
  simp only [if_true]
  rw [unquoteLoop_quoted L s.data _ (by
    rw [List.length_append, List.length_singleton]
    have := join_escaped_length L s.data
    omega)]
  rfl

theorem tinted_bind {f g f2 g2 : Buffer → Except Fault Buffer} (h1 : TintedStep f g)
    (h2 : TintedStep f2 g2) : TintedStep (fun b => f b >>= f2) (fun b => g b >>= g2) := by
  intro c p hcp
  have := h1 c p hcp
  show TintedResult (f c >>= f2) (g p >>= g2)
  cases hf : f c with
  | error e =>
    cases hg : g p with
    | error e2 => rw [hf, hg] at this; exact this
    | ok y => rw [hf, hg] at this; exact this.elim
  | ok x =>
    cases hg : g p with
    | error e2 => rw [hf, hg] at this; exact this.elim
    | ok y =>
      rw [hf, hg] at this
      exact h2 x y this

theorem tinted_pure {f g : Buffer → Buffer} (h : ∀ c p, Tinted c p → Tinted (f c) (g p)) :
    TintedStep (fun b => pure (f b)) (fun b => pure (g b)) :=
  fun c p hcp => h c p hcp

theorem tinted_throw (e : Fault) : TintedStep (fun _ => throw e) (fun _ => throw e) :=
  fun _ _ _ => rfl

theorem tinted_pre {f g : Buffer → Except Fault Buffer} {k l : Buffer → Buffer}
    (hk : ∀ c p, Tinted c p → Tinted (k c) (l p)) (h : TintedStep f g) :
    TintedStep (fun b => f (k b)) (fun b => g (l b)) :=
  fun c p hcp => h _ _ (hk c p hcp)

theorem tinted_key (L : Runtime) (h : Handler) (key : String) (c p : String) (hcp : Tinted c p) :
    Tinted ((h.withColors true).appendKey L c key) ((h.withColors false).appendKey L p key) := by
  rw [appendKey_eq, appendKey_eq, keyText_eq, keyText_eq]
  show Tinted (c ++ (Color.BrightBlack ++ plainKey L key ++ Color.Reset)) (p ++ plainKey L key)
  have := Tinted.span Color.BrightBlack (plainKey L key) (Or.inl rfl) hcp
  simpa [String.append_assoc] using this

theorem tinted_mapKeys (L : Runtime) (h : Handler)
    (ic ip : Buffer → String → Except Fault Buffer)
    (hidx : ∀ k, TintedStep (fun b => ic b k) (fun b => ip b k)) :
    ∀ (keys : List String) (i : Nat),
      TintedStep (fun b => (h.withColors true).appendMapKeys L ic i b keys)
        (fun b => (h.withColors false).appendMapKeys L ip i b keys)
  | [], _ => fun c p hcp => hcp
  | k :: keys, i => by
    intro c p hcp
    simp only [Handler.appendMapKeys, Buffer.WriteString]
    have hsep : Tinted (if i > 0 then c ++ ", " else c) (if i > 0 then p ++ ", " else p) := by
      split_ifs
      · exact hcp.text ", "
      · exact hcp
    exact tinted_bind (hidx k) (tinted_mapKeys L h ic ip hidx keys (i + 1)) _ _
      ((tinted_key L h k _ _ hsep).text "=")

mutual
theorem tinted_reflected (L : Runtime) (h : Handler) :
    ∀ v : RValue, TintedStep (fun b => (h.withColors true).appendReflectedValue L b v)
      (fun b => (h.withColors false).appendReflectedValue L b v)
  | .slice n elems => by
    have ih := tinted_elems L h elems 0
    intro c p hcp
    simp only [Handler.appendReflectedValue, Buffer.WriteString]
    split_ifs
    · exact hcp.text "nil"
    · exact tinted_bind ih (tinted_pure (fun c p hcp => hcp.text "]")) _ _ (hcp.text "[")
  | .array elems => by
    have ih := tinted_elems L h elems 0
    intro c p hcp
    simp only [Handler.appendReflectedValue, Buffer.WriteString]
    split_ifs
    · exact hcp.text "nil"
    · exact tinted_bind ih (tinted_pure (fun c p hcp => hcp.text "]")) _ _ (hcp.text "[")
  | .map kt n entries => by
    have ih := tinted_mapKeys L h
      (fun b k => (h.withColors true).appendMapIndex L kt b k entries)
      (fun b k => (h.withColors false).appendMapIndex L kt b k entries)
      (fun k => tinted_mapIndex L h kt entries k)
      (sortStrings (entries.map (fun e => e.1.keyString kt))) 0
    intro c p hcp
    simp only [Handler.appendReflectedValue, Buffer.WriteString]
    split_ifs
    · exact hcp.text "nil"
    · exact tinted_bind ih (tinted_pure (fun c p hcp => hcp.text "\x7d")) _ _ (hcp.text "\x7b")
  | .struct fields => by
    have ih := tinted_fields L h fields 0
    intro c p hcp
    simp only [Handler.appendReflectedValue, Buffer.WriteString]
    split_ifs
    · exact hcp.text "nil"
    · exact tinted_bind ih (tinted_pure (fun c p hcp => hcp.text "\x7d")) _ _ (hcp.text "\x7b")
  | .ptr elem => by
    have ih := tinted_reflected L h elem
    intro c p hcp
    simp only [appendReflectedValue_ptr]
    exact ih c p hcp
  | .iface elem => by
    have ih := tinted_reflected L h elem
    intro c p hcp
    simp only [appendReflectedValue_iface]
    exact ih c p hcp
  | .invalid | .bool _ | .int _ | .uint _ | .float _ | .complex _ _ | .string _
  | .nilPtr | .nilIface | .chanFunc _ => by
    intro c p hcp
    simp only [Handler.appendReflectedValue.eq_def, Buffer.WriteString]
    split_ifs
    all_goals first
      | exact hcp.text "nil"
      | exact hcp.text (L.fmtSprint _)
theorem tinted_elems (L : Runtime) (h : Handler) :
    ∀ (elems : List RValue) (i : Nat),
      TintedStep (fun b => (h.withColors true).appendElems L i b elems)
        (fun b => (h.withColors false).appendElems L i b elems)
  | [], _ => fun c p hcp => hcp
  | e :: elems, i => by
    have ih := tinted_bind (tinted_reflected L h e) (tinted_elems L h elems (i + 1))
    intro c p hcp
    simp only [Handler.appendElems, Buffer.WriteString]
    have hsep : Tinted (if i > 0 then c ++ ", " else c) (if i > 0 then p ++ ", " else p) := by
      split_ifs
      · exact hcp.text ", "
      · exact hcp
    exact ih _ _ hsep
theorem tinted_mapIndex (L : Runtime) (h : Handler) (kt : KeyType) :
    ∀ (entries : List (RValue × RValue)) (k : String),
      TintedStep (fun b => (h.withColors true).appendMapIndex L kt b k entries)
        (fun b => (h.withColors false).appendMapIndex L kt b k entries)
  | [], _ => by
    intro c p hcp
    simp only [Handler.appendMapIndex, Buffer.WriteString]
    split_ifs
    · exact hcp.text "nil"
    · exact rfl
  | (key, v) :: entries, k => by
    have ih1 := tinted_reflected L h v
    have ih2 := tinted_mapIndex L h kt entries k
    intro c p hcp
    simp only [Handler.appendMapIndex]
    split_ifs
    · exact rfl
    · exact ih1 c p hcp
    · exact ih2 c p hcp
theorem tinted_fields (L : Runtime) (h : Handler) :
    ∀ (fields : List (String × Bool × RValue)) (count : Nat),
      TintedStep (fun b => (h.withColors true).appendFields L count b fields)
        (fun b => (h.withColors false).appendFields L count b fields)
  | [], _ => fun c p hcp => hcp
  | (name, exported, v) :: fields, count => by
    have ih1 := tinted_bind (tinted_reflected L h v) (tinted_fields L h fields (count + 1))
    have ih2 := tinted_fields L h fields count
    intro c p hcp
    cases exported with
    | false => simpa only [Handler.appendFields] using ih2 c p hcp
    | true =>
      simp only [Handler.appendFields, Buffer.WriteString]
      have hsep : Tinted (if count > 0 then c ++ ", " else c)
          (if count > 0 then p ++ ", " else p) := by
        split_ifs
        · exact hcp.text ", "
        · exact hcp
      exact ih1 _ _ ((tinted_key L h name _ _ hsep).text "=")
end

theorem tinted_rangeJoined {α : Type} (bc bp : Buffer → α → Except Fault Buffer)
    (hbody : ∀ a, TintedStep (fun b => bc b a) (fun b => bp b a)) :
    ∀ (as : List α) (i : Nat),
      TintedStep (fun b => rangeJoined bc i b as) (fun b => rangeJoined bp i b as)
  | [], _ => fun c p hcp => hcp
  | a :: as, i => by
    have ih := tinted_bind (hbody a) (tinted_rangeJoined bc bp hbody as (i + 1))
    intro c p hcp
    simp only [rangeJoined, Buffer.WriteString]
    have hsep : Tinted (if i > 0 then c ++ ", " else c) (if i > 0 then p ++ ", " else p) := by
      split_ifs
      · exact hcp.text ", "
      · exact hcp
    exact ih _ _ hsep

theorem tinted_map_id {f g : Buffer → Except Fault Buffer} (h : TintedStep f g) :
    TintedStep (fun b => (fun x => x) <$> f b) (fun b => (fun x => x) <$> g b) := by
  have hf : (fun b => (fun x => x) <$> f b) = f := by funext b; cases f b <;> rfl
  have hg : (fun b => (fun x => x) <$> g b) = g := by funext b; cases g b <;> rfl
  rw [hf, hg]; exact h

theorem tinted_valueWith (L : Runtime) (h : Handler)
    (rc rp : Buffer → Attr → Except Fault Buffer)
    (hrec : ∀ a, TintedStep (fun b => rc b a) (fun b => rp b a)) (v : Value) :
    TintedStep (fun b => (h.withColors true).appendValueWith L rc b v)
      (fun b => (h.withColors false).appendValueWith L rp b v) := by
  cases v with
  | group attrs =>
    have ih := tinted_map_id (tinted_bind (tinted_rangeJoined rc rp hrec attrs 0)
      (tinted_pure (fun c p hcp => hcp.text "\x7d")))
    intro c p hcp
    have := ih _ _ (hcp.text "\x7b")
    simpa [Handler.appendValueWith, Value.asError, Value.isKindAny, Buffer.WriteString,
      Handler.withColors] using this
  | any pl =>
    cases hp : pl.err with
    | none =>
      have ih := tinted_map_id (tinted_reflected L h pl.rv)
      intro c p hcp
      have := ih c p hcp
      simpa [Handler.appendValueWith, Value.asError, Value.isKindAny, hp,
        Handler.withColors] using this
    | some msg =>
      intro c p hcp
      have := Tinted.span Color.Red (Quote L msg) (Or.inr (Or.inl rfl)) hcp
      simpa [Handler.appendValueWith, Value.asError, Value.isKindAny, hp, AppendQuote,
        Buffer.WriteColor, Buffer.ResetColor, Handler.withColors, TintedResult, pure,
        Except.pure, String.append_assoc] using this
  | logValuer pl =>
    cases hp : pl.err with
    | none =>
      intro c p hcp
      simpa [Handler.appendValueWith, Value.asError, Value.isKindAny, hp, Handler.withColors,
        TintedResult, pure, Except.pure, Functor.map, Except.map] using hcp
    | some msg =>
      intro c p hcp
      have := hcp.text (Quote L msg)
      simpa [Handler.appendValueWith, Value.asError, Value.isKindAny, hp, AppendQuote,
        Handler.withColors, TintedResult, pure, Except.pure] using this
  | string s =>
    intro c p hcp
    have := hcp.text (Quote L s)
    simpa [Handler.appendValueWith, Value.asError, Value.isKindAny, AppendQuote,
      Handler.withColors, TintedResult, pure, Except.pure, Functor.map, Except.map] using this
  | int64 i =>
    intro c p hcp
    have := hcp.text (toString i)
    simpa [Handler.appendValueWith, Value.asError, Value.isKindAny, AppendInt,
      Handler.withColors, TintedResult, pure, Except.pure, Functor.map, Except.map] using this
  | uint64 u =>
    intro c p hcp
    have := hcp.text (toString u)
    simpa [Handler.appendValueWith, Value.asError, Value.isKindAny, AppendUint,
      Handler.withColors, TintedResult, pure, Except.pure, Functor.map, Except.map] using this
  | float64 bits =>
    intro c p hcp
    have := hcp.text (L.formatFloat bits)
    simpa [Handler.appendValueWith, Value.asError, Value.isKindAny,
      Handler.withColors, TintedResult, pure, Except.pure, Functor.map, Except.map] using this
  | bool v =>
    intro c p hcp
    have := hcp.text (if v then "true" else "false")
    simpa [Handler.appendValueWith, Value.asError, Value.isKindAny, AppendBool,
      Handler.withColors, TintedResult, pure, Except.pure, Functor.map, Except.map] using this
  | duration d =>
    intro c p hcp
    have := hcp.text (L.durationString d)
    simpa [Handler.appendValueWith, Value.asError, Value.isKindAny, Buffer.WriteString,
      Handler.withColors, TintedResult, pure, Except.pure, Functor.map, Except.map] using this
  | time t =>
    intro c p hcp
    have := hcp.text (L.timeFormat t "2006-01-02T15:04:05.999Z07:00")
    simpa [Handler.appendValueWith, Value.asError, Value.isKindAny,
      Handler.withColors, TintedResult, pure, Except.pure, Functor.map, Except.map] using this

theorem tinted_attr (L : Runtime) (h : Handler) :
    ∀ (fuel : Nat) (a : Attr),
      TintedStep (fun b => (h.withColors true).appendAttr L fuel b a)
        (fun b => (h.withColors false).appendAttr L fuel b a)
  | 0, _ => fun _ _ _ => rfl
  | fuel + 1, a => by
    have ih := tinted_valueWith L h ((h.withColors true).appendAttr L fuel)
      ((h.withColors false).appendAttr L fuel) (tinted_attr L h fuel) (h.replaced a).Value
    intro c p hcp
    have := ih _ _ ((tinted_key L h (h.replaced a).Key c p hcp).text "=")
    simpa only [Handler.appendAttr, Buffer.WriteString, Handler.replaced,
      Handler.withColors] using this

theorem utf8ByteSize_go_append : ∀ xs ys : List Char,
    String.utf8ByteSize.go (xs ++ ys) = String.utf8ByteSize.go xs + String.utf8ByteSize.go ys
  | [], ys => by simp [String.utf8ByteSize.go]
  | x :: xs, ys => by
    rw [List.cons_append, String.utf8ByteSize.go, utf8ByteSize_go_append xs ys,
      String.utf8ByteSize.go]
    omega

theorem utf8ByteSize_append (a b : String) :
    (a ++ b).utf8ByteSize = a.utf8ByteSize + b.utf8ByteSize := by
  show String.utf8ByteSize.go (a.data ++ b.data) = _
  rw [utf8ByteSize_go_append]
  rfl

theorem writeTime_eq (L : Runtime) (h : Handler) (r : Record) (b : Buffer) :
    h.writeTime L r b
      = if h.colors then
          b ++ Color.BrightBlack ++ L.timeFormat r.Time "2006-01-02 15:04:05.000" ++ Color.Reset
            ++ " "
        else b ++ L.timeFormat r.Time "2006-01-02 15:04:05.000" ++ " " := by
  unfold Handler.writeTime
  cases h.colors <;> simp [Buffer.WriteColor, Buffer.ResetColor, Buffer.WriteString]

theorem writeLevel_eq (h : Handler) (r : Record) (b : Buffer) :
    h.writeLevel r b
      = if h.colors then b ++ levelToColor r.Level ++ levelText r ++ Color.Reset ++ " "
        else b ++ levelText r ++ " " := by
  have hpad : ((5 : Int) - ((levelString r.Level).utf8ByteSize : Int)).toNat
      = 5 - (levelString r.Level).utf8ByteSize := by omega
  unfold Handler.writeLevel levelText
  cases h.colors <;>
    simp [Buffer.WriteColor, Buffer.ResetColor, Buffer.WriteString, writeSpaces_eq, hpad,
      String.append_assoc]

theorem utf8ByteSize_sub (b t : String) :
    (b ++ t).utf8ByteSize - b.utf8ByteSize = t.utf8ByteSize := by
  rw [utf8ByteSize_append]; omega

theorem writeSource_eq (L : Runtime) (h : Handler) (r : Record) (b : Buffer) :
    h.writeSource L r b
      = if (h.opts.AddSource && r.PC != 0) = true then
          (if ((L.callersFrame r.PC).File != "") = true then
            (if h.colors then b ++ Color.BrightBlack ++ sourceText L r ++ Color.Reset ++ " "
              else b ++ sourceText L r ++ " ")
          else b)
        else b := by
  have h1 : ∀ x y : Nat, x + y - x = y := by intro x y; omega
  have h2 : ∀ x y z : Nat, x + (y + z) - (x + y) = z := by intro x y z; omega
  unfold Handler.writeSource sourceText
  simp only [Buffer.WriteColor, Buffer.ResetColor, Buffer.WriteString, writeSpaces_eq, AppendInt]
  cases h.colors
  · simp only [Bool.false_eq_true, if_false, String.append_assoc, utf8ByteSize_append, h1]
  · simp only [if_true, String.append_assoc, utf8ByteSize_append, h2]

theorem levelToColor_code (l : Int) : IsColorCode (levelToColor l) := by
  unfold levelToColor IsColorCode
  split_ifs <;> simp

theorem tinted_header (L : Runtime) (h : Handler) (r : Record) (c p : String)
    (hcp : Tinted c p) :
    Tinted ((h.withColors true).writeSource L r ((h.withColors true).writeLevel r
        ((h.withColors true).writeTime L r c)))
      ((h.withColors false).writeSource L r ((h.withColors false).writeLevel r
        ((h.withColors false).writeTime L r p))) := by
  have ht : Tinted ((h.withColors true).writeTime L r c) ((h.withColors false).writeTime L r p) := by
    rw [writeTime_eq, writeTime_eq]
    exact (Tinted.span _ _ (Or.inl rfl) hcp).text " "
  have hl : Tinted ((h.withColors true).writeLevel r ((h.withColors true).writeTime L r c))
      ((h.withColors false).writeLevel r ((h.withColors false).writeTime L r p)) := by
    rw [writeLevel_eq, writeLevel_eq]
    exact (Tinted.span _ _ (levelToColor_code r.Level) ht).text " "
  rw [writeSource_eq, writeSource_eq]
  simp only [show (h.withColors true).colors = true from rfl,
    show (h.withColors false).colors = false from rfl,
    show (h.withColors true).opts = h.opts from rfl,
    show (h.withColors false).opts = h.opts from rfl, if_true, Bool.false_eq_true, if_false]
  by_cases h1 : (h.opts.AddSource && r.PC != 0) = true
  · by_cases h2 : ((L.callersFrame r.PC).File != "") = true
    · rw [if_pos h1, if_pos h1, if_pos h2, if_pos h2]
      exact (Tinted.span _ _ (Or.inl rfl) hl).text " "
    · rw [if_pos h1, if_pos h1, if_neg h2, if_neg h2]
      exact hl
  · rw [if_neg h1, if_neg h1]
    exact hl

theorem tinted_openings (L : Runtime) (h : Handler) : ∀ (gs : List String) (c p : String),
    Tinted c p →
    Tinted (gs.foldl (fun b g => ((h.withColors true).appendKey L b g) ++ "=\x7b") c)
      (gs.foldl (fun b g => ((h.withColors false).appendKey L b g) ++ "=\x7b") p)
  | [], _, _, hcp => hcp
  | g :: gs, c, p, hcp => by
    rw [List.foldl_cons, List.foldl_cons]
    exact tinted_openings L h gs _ _ ((tinted_key L h g c p hcp).text "=\x7b")

theorem tinted_closings {α : Type} : ∀ (gs : List α) (c p : String), Tinted c p →
    Tinted (gs.foldl (fun b _ => b ++ "\x7d") c)
      (gs.foldl (fun b _ => b ++ "\x7d") p)
  | [], _, _, hcp => hcp
  | g :: gs, c, p, hcp => by
    rw [List.foldl_cons, List.foldl_cons]
    exact tinted_closings gs _ _ (hcp.text "\x7d")

/-- `Handle` with colors on and with colors off agree up to coloring. -/
theorem tinted_Handle (L : Runtime) (h : Handler) (fuel : Nat) (r : Record) :
    TintedResult ((h.withColors true).Handle L fuel r) ((h.withColors false).Handle L fuel r) := by
  have hstart : Tinted
      (h.groups.foldl (fun b g => ((h.withColors true).appendKey L b g) ++ "=\x7b")
        (if (decide (h.attrs.length > 0) || decide (r.attrs.length > 0)) = true then
          (((h.withColors true).writeSource L r ((h.withColors true).writeLevel r
            ((h.withColors true).writeTime L r ""))) ++ r.Message) ++ " \x7b"
        else ((h.withColors true).writeSource L r ((h.withColors true).writeLevel r
            ((h.withColors true).writeTime L r ""))) ++ r.Message))
      (h.groups.foldl (fun b g => ((h.withColors false).appendKey L b g) ++ "=\x7b")
        (if (decide (h.attrs.length > 0) || decide (r.attrs.length > 0)) = true then
          (((h.withColors false).writeSource L r ((h.withColors false).writeLevel r
            ((h.withColors false).writeTime L r ""))) ++ r.Message) ++ " \x7b"
        else ((h.withColors false).writeSource L r ((h.withColors false).writeLevel r
            ((h.withColors false).writeTime L r ""))) ++ r.Message)) := by
    apply tinted_openings
    have hm := (tinted_header L h r "" "" Tinted.nil).text r.Message
    split_ifs
    · exact hm.text " \x7b"
    · exact hm
  have hsep : ∀ c p, Tinted c p →
      Tinted (if h.attrs.length > 0 ∧ r.attrs.length > 0 then c ++ ", " else c)
        (if h.attrs.length > 0 ∧ r.attrs.length > 0 then p ++ ", " else p) := by
    intro c p hcp
    split_ifs
    · exact hcp.text ", "
    · exact hcp
  have hfin : ∀ c p, Tinted c p →
      Tinted ((if (decide (h.attrs.length > 0) || decide (r.attrs.length > 0)) = true then
          (h.groups.foldl (fun b _ => b ++ "\x7d") c) ++ "\x7d"
        else h.groups.foldl (fun b _ => b ++ "\x7d") c) ++ "\n")
        ((if (decide (h.attrs.length > 0) || decide (r.attrs.length > 0)) = true then
          (h.groups.foldl (fun b _ => b ++ "\x7d") p) ++ "\x7d"
        else h.groups.foldl (fun b _ => b ++ "\x7d") p) ++ "\n") := by
    intro c p hcp
    have hc := tinted_closings h.groups c p hcp
    apply Tinted.text
    split_ifs
    · exact hc.text "\x7d"
    · exact hc
  have hloop := fun (as : List Attr) => tinted_rangeJoined ((h.withColors true).appendAttr L fuel)
    ((h.withColors false).appendAttr L fuel) (tinted_attr L h fuel) as 0
  exact tinted_bind (hloop h.attrs)
    (tinted_bind (tinted_pre hsep (hloop r.attrs)) (tinted_pure hfin)) _ _ hstart

/-! ### Handlers in memory, concurrent calls -/

theorem getD_set_ne {α : Type} (l : List α) (i j : Nat) (a d : α) (h : i ≠ j) :
    (l.set i a).getD j d = l.getD j d := by
  simp [List.getD_eq_getElem?_getD, List.getElem?_set, h]

theorem getD_set_self {α : Type} (l : List α) (i : Nat) (a d : α) (h : i < l.length) :
    (l.set i a).getD i d = a := by
  simp [List.getD_eq_getElem?_getD, List.getElem?_set, h]

theorem set_getD_self {α : Type} (l : List α) (i : Nat) (d : α) :
    l.set i (l.getD i d) = l := by
  apply List.ext_getElem?
  intro j
  by_cases hij : i = j
  · subst hij
    by_cases hi : i < l.length
    · simp [List.getElem?_set, hi, List.getD_eq_getElem?_getD]
    · have hn : l[i]? = none := List.getElem?_eq_none (by omega)
      simp [List.getElem?_set, hi, hn]
  · simp [List.getElem?_set, hij]

theorem getD_snoc_self {α : Type} (l : List α) (a d : α) : (l ++ [a]).getD l.length d = a := by
  simp [List.getD_eq_getElem?_getD]

theorem getD_snoc_lt {α : Type} (l : List α) (a d : α) (i : Nat) (h : i < l.length) :
    (l ++ [a]).getD i d = l.getD i d := by
  simp [List.getD_eq_getElem?_getD, List.getElem?_append_left h]

theorem read_len_zero {α : Type} (arrays : List (List α)) (q : SliceHdr) (h : q.len = 0) :
    q.read arrays = [] := by
  unfold SliceHdr.read; rw [h]; rfl

/-- What a valid slice denotes, and its validity, survive a new array. -/
theorem valid_snoc {α : Type} (arrays : List (List α)) (A : List α) (q : SliceHdr)
    (hq : q.Valid arrays) : q.read (arrays ++ [A]) = q.read arrays ∧ q.Valid (arrays ++ [A]) := by
  rcases hq with ⟨h0, hc⟩ | ⟨harr, hlen, hcap⟩
  · exact ⟨by rw [read_len_zero _ _ h0, read_len_zero _ _ h0], Or.inl ⟨h0, hc⟩⟩
  · have hg := getD_snoc_lt arrays A [] q.arr harr
    refine ⟨by unfold SliceHdr.read; rw [hg], Or.inr ⟨?_, hlen, ?_⟩⟩
    · rw [List.length_append]; omega
    · rw [hg]; exact hcap

/-- What a valid slice denotes, and its validity, survive a write to another
array. -/
theorem valid_set {α : Type} (arrays : List (List α)) (A : List α) (i : Nat) (q : SliceHdr)
    (hq : q.Valid arrays) (hi : arrays.length ≤ i ∨ q.arr ≠ i) :
    q.read (arrays.set i A) = q.read arrays ∧ q.Valid (arrays.set i A) := by
  rcases hq with ⟨h0, hc⟩ | ⟨harr, hlen, hcap⟩
  · exact ⟨by rw [read_len_zero _ _ h0, read_len_zero _ _ h0], Or.inl ⟨h0, hc⟩⟩
  · have hne : i ≠ q.arr := by
      rcases hi with hi | hi
      · omega
      · exact fun h => hi h.symm
    have hg := getD_set_ne arrays i q.arr A [] hne
    refine ⟨by unfold SliceHdr.read; rw [hg], Or.inr ⟨?_, hlen, ?_⟩⟩
    · rw [List.length_set]; exact harr
    · rw [hg]; exact hcap

/-- What `slices.Clone` returns: either the empty slice without capacity and
untouched arrays, or a slice that fills the front of a new array. -/
theorem slicesClone_cases {α : Type} (zero : α) (grow : Nat → Nat) (arrays : List (List α))
    (s : SliceHdr) :
    ((slicesClone zero grow arrays s).1 = arrays
        ∧ (slicesClone zero grow arrays s).2 = ⟨s.arr, 0, 0⟩ ∧ s.read arrays = [])
    ∨ (∃ A, (slicesClone zero grow arrays s).1 = arrays ++ [A]
        ∧ (slicesClone zero grow arrays s).2
            = ⟨arrays.length, (s.read arrays).length, A.length⟩
        ∧ A.take (s.read arrays).length = s.read arrays
        ∧ (s.read arrays).length ≤ A.length) := by
  unfold slicesClone goAppend
  by_cases h : (s.read arrays).length = 0
  · left
    have hnil : s.read arrays = [] := List.length_eq_zero.mp h
    simp only [hnil, List.length_nil, Nat.add_zero, Nat.le_refl, if_true, List.take_zero,
      List.nil_append, List.drop_zero, List.append_nil]
    exact ⟨set_getD_self arrays s.arr [], trivial, trivial⟩
  · right
    have hlt : ¬ (0 + (s.read arrays).length ≤ 0) := by omega
    simp only [if_neg hlt]
    refine ⟨_, rfl, ?_, ?_, ?_⟩
    · simp [SliceHdr.read]
    · simp [SliceHdr.read]
    · simp [SliceHdr.read]

/-- The clone denotes what the original denotes, is valid, and leaves every
valid slice as it was. -/
theorem slicesClone_spec {α : Type} (zero : α) (grow : Nat → Nat) (arrays : List (List α))
    (s : SliceHdr) :
    (slicesClone zero grow arrays s).2.read (slicesClone zero grow arrays s).1 = s.read arrays
    ∧ (slicesClone zero grow arrays s).2.Valid (slicesClone zero grow arrays s).1
    ∧ ((slicesClone zero grow arrays s).2.cap = 0
        ∨ (slicesClone zero grow arrays s).2.arr = arrays.length)
    ∧ arrays.length ≤ (slicesClone zero grow arrays s).1.length
    ∧ ∀ q : SliceHdr, q.Valid arrays →
        q.read (slicesClone zero grow arrays s).1 = q.read arrays
        ∧ q.Valid (slicesClone zero grow arrays s).1 := by
  rcases slicesClone_cases zero grow arrays s with ⟨h1, h2, h3⟩ | ⟨A, h1, h2, h3, h4⟩
  · rw [h1, h2]
    refine ⟨?_, Or.inl ⟨rfl, rfl⟩, Or.inl rfl, Nat.le_refl _, fun q hq => ⟨rfl, hq⟩⟩
    rw [h3]; exact read_len_zero _ _ rfl
  · rw [h1, h2]
    refine ⟨?_, Or.inr ⟨?_, h4, ?_⟩, Or.inr rfl, ?_, fun q hq => valid_snoc arrays A q hq⟩
    · unfold SliceHdr.read
      rw [getD_snoc_self]
      exact h3
    · rw [List.length_append]; exact Nat.lt_succ_self _
    · show A.length ≤ ((arrays ++ [A]).getD arrays.length []).length
      rw [getD_snoc_self]
    · rw [List.length_append]; exact Nat.le_add_right _ _

theorem read_length {α : Type} (arrays : List (List α)) (s : SliceHdr) (hs : s.Valid arrays) :
    (s.read arrays).length = s.len := by
  rcases hs with ⟨h0, _⟩ | ⟨_, hlen, hcap⟩
  · rw [read_len_zero _ _ h0, h0]; rfl
  · unfold SliceHdr.read
    rw [List.length_take]; omega

theorem take_front {α : Type} (A xs D : List α) (n : Nat) (h : A.length = n) :
    List.take (n + xs.length) (A ++ xs ++ D) = A ++ xs := by
  apply List.take_left'
  rw [List.length_append, h]

/-- The result of `append` denotes the old elements followed by the new ones
and is valid; a valid slice over another array, or any valid slice when the
appended-to slice has no capacity, is left as it was. -/
theorem goAppend_spec {α : Type} (zero : α) (grow : Nat → Nat) (arrays : List (List α))
    (s : SliceHdr) (xs : List α) (hs : s.Valid arrays) :
    (goAppend zero grow arrays s xs).2.read (goAppend zero grow arrays s xs).1
        = s.read arrays ++ xs
    ∧ (goAppend zero grow arrays s xs).2.Valid (goAppend zero grow arrays s xs).1
    ∧ ∀ q : SliceHdr, q.Valid arrays → (s.cap = 0 ∨ q.arr ≠ s.arr) →
        q.read (goAppend zero grow arrays s xs).1 = q.read arrays
        ∧ q.Valid (goAppend zero grow arrays s xs).1 := by
  have hrl := read_length arrays s hs
  unfold goAppend
  by_cases hfit : s.len + xs.length ≤ s.cap
  · simp only [if_pos hfit]
    by_cases hcap : s.cap = 0
    · have hlen : s.len = 0 := by omega
      have hxs : xs = [] := List.length_eq_zero.mp (by omega)
      subst hxs
      have hsame : arrays.set s.arr (List.take s.len (arrays.getD s.arr []) ++ []
          ++ List.drop (s.len + ([] : List α).length) (arrays.getD s.arr [])) = arrays := by
        rw [hlen]
        simp only [List.take_zero, List.nil_append, List.length_nil, Nat.add_zero,
          List.drop_zero]
        exact set_getD_self arrays s.arr []
      rw [hsame]
      refine ⟨?_, Or.inl ⟨by simp [hlen], hcap⟩, fun q hq _ => ⟨rfl, hq⟩⟩
      rw [read_len_zero _ _ (by simp [hlen]), read_len_zero _ _ hlen]
      rfl
    · rcases hs with ⟨_, hc⟩ | ⟨harr, hlen, hcapA⟩
      · exact absurd hc hcap
      · have hA : s.len + xs.length ≤ (arrays.getD s.arr []).length := by omega
        refine ⟨?_, Or.inr ⟨?_, hfit, ?_⟩, ?_⟩
        · unfold SliceHdr.read
          show List.take (s.len + xs.length) ((arrays.set s.arr _).getD s.arr []) = _
          rw [getD_set_self _ _ _ _ harr]
          exact take_front _ _ _ _ hrl
        · show s.arr < (arrays.set s.arr _).length
          rw [List.length_set]; exact harr
        · show s.cap ≤ ((arrays.set s.arr _).getD s.arr []).length
          rw [getD_set_self _ _ _ _ harr]
          have h1 : (List.take s.len (arrays.getD s.arr [])).length = s.len := hrl
          rw [List.length_append, List.length_append, h1, List.length_drop]
          omega
        · intro q hq hfr
          rcases hfr with h0 | hne
          · exact absurd h0 hcap
          · exact valid_set arrays _ s.arr q hq (Or.inr hne)
  · simp only [if_neg hfit]
    refine ⟨?_, Or.inr ⟨?_, ?_, ?_⟩, fun q hq _ => valid_snoc arrays _ q hq⟩
    · unfold SliceHdr.read
      show List.take (s.len + xs.length) ((arrays ++ [_]).getD arrays.length []) = _
      rw [getD_snoc_self]
      exact take_front _ _ _ _ hrl
    · show arrays.length < (arrays ++ [_]).length
      rw [List.length_append]; exact Nat.lt_succ_self _
    · show s.len + xs.length ≤ s.len + xs.length + grow (s.len + xs.length)
      omega
    · show s.len + xs.length + grow (s.len + xs.length)
        ≤ ((arrays ++ [_]).getD arrays.length []).length
      rw [getD_snoc_self, List.length_append, List.length_append, hrl, List.length_replicate]

/-- Clone, then append: the result denotes the original elements followed by
the new ones and is valid, and every slice that was valid before denotes what
it denoted and is still valid. -/
theorem cloneAppend_spec {α : Type} (zero : α) (grow : Nat → Nat) (arrays : List (List α))
    (s : SliceHdr) (xs : List α) :
    (goAppend zero grow (slicesClone zero grow arrays s).1
        (slicesClone zero grow arrays s).2 xs).2.read
      (goAppend zero grow (slicesClone zero grow arrays s).1
        (slicesClone zero grow arrays s).2 xs).1 = s.read arrays ++ xs
    ∧ (goAppend zero grow (slicesClone zero grow arrays s).1
        (slicesClone zero grow arrays s).2 xs).2.Valid
      (goAppend zero grow (slicesClone zero grow arrays s).1
        (slicesClone zero grow arrays s).2 xs).1
    ∧ ∀ q : SliceHdr, q.Valid arrays →
        q.read (goAppend zero grow (slicesClone zero grow arrays s).1
          (slicesClone zero grow arrays s).2 xs).1 = q.read arrays
        ∧ q.Valid (goAppend zero grow (slicesClone zero grow arrays s).1
          (slicesClone zero grow arrays s).2 xs).1 := by
  obtain ⟨hread, hvalid, hfresh, _, hframe⟩ := slicesClone_spec zero grow arrays s
  obtain ⟨hread2, hvalid2, hframe2⟩ := goAppend_spec zero grow _ _ xs hvalid
  refine ⟨by rw [hread2, hread], hvalid2, fun q hq => ?_⟩
  rcases hq with ⟨h0, hc⟩ | ⟨harr, hlen, hcap⟩
  · exact ⟨by rw [read_len_zero _ _ h0, read_len_zero _ _ h0], Or.inl ⟨h0, hc⟩⟩
  · have hq : q.Valid arrays := Or.inr ⟨harr, hlen, hcap⟩
    have hfr : (slicesClone zero grow arrays s).2.cap = 0
        ∨ q.arr ≠ (slicesClone zero grow arrays s).2.arr := by
      rcases hfresh with h | h
      · exact Or.inl h
      · exact Or.inr (by rw [h]; omega)
    obtain ⟨h1, h2⟩ := hframe q hq
    obtain ⟨h3, h4⟩ := hframe2 q h2 hfr
    exact ⟨by rw [h3, h1], h4⟩

theorem Mem.WithAttrs_eq (grow : Nat → Nat) (m : Mem) (p : Nat) (attrs : List Attr)
    (c : HandlerCell) (hc : m.handlers.get? p = some c) :
    m.WithAttrs grow p attrs = some
      ({ strings := (slicesClone "" grow m.strings c.groups).1,
         attrArrays := (goAppend zeroAttr grow (slicesClone zeroAttr grow m.attrArrays c.attrs).1
            (slicesClone zeroAttr grow m.attrArrays c.attrs).2 attrs).1,
         handlers := m.handlers ++ [
          { opts := c.opts, colors := c.colors, w := c.w,
            groups := (slicesClone "" grow m.strings c.groups).2,
            attrs := (goAppend zeroAttr grow (slicesClone zeroAttr grow m.attrArrays c.attrs).1
              (slicesClone zeroAttr grow m.attrArrays c.attrs).2 attrs).2 }] },
       m.handlers.length) := by
  unfold Mem.WithAttrs Mem.clone
  rw [hc]
  simp

theorem Mem.WithGroup_eq (grow : Nat → Nat) (m : Mem) (p : Nat) (name : String)
    (c : HandlerCell) (hc : m.handlers.get? p = some c) :
    m.WithGroup grow p name = some
      ({ strings := (goAppend "" grow (slicesClone "" grow m.strings c.groups).1
            (slicesClone "" grow m.strings c.groups).2 [name]).1,
         attrArrays := (slicesClone zeroAttr grow m.attrArrays c.attrs).1,
         handlers := m.handlers ++ [
          { opts := c.opts, colors := c.colors, w := c.w,
            groups := (goAppend "" grow (slicesClone "" grow m.strings c.groups).1
              (slicesClone "" grow m.strings c.groups).2 [name]).2,
            attrs := (slicesClone zeroAttr grow m.attrArrays c.attrs).2 }] },
       m.handlers.length) := by
  unfold Mem.WithGroup Mem.clone
  rw [hc]
  simp

theorem Mem.view_eq (m : Mem) (p : Nat) : m.view p = (m.handlers.get? p).map (·.view m) := rfl

/-- A memory that gains one struct, and whose arrays change only in ways
that keep every valid slice, keeps every handler it had. -/
theorem Mem.extend_spec (m m1 : Mem) (c : HandlerCell)
    (hh : m1.handlers = m.handlers ++ [c])
    (hs : ∀ q : SliceHdr, q.Valid m.strings →
      q.read m1.strings = q.read m.strings ∧ q.Valid m1.strings)
    (ha : ∀ q : SliceHdr, q.Valid m.attrArrays →
      q.read m1.attrArrays = q.read m.attrArrays ∧ q.Valid m1.attrArrays)
    (hcg : c.groups.Valid m1.strings) (hca : c.attrs.Valid m1.attrArrays) (hwf : m.WF) :
    m1.WF ∧ (∀ q hq, m.view q = some hq → m1.view q = some hq)
      ∧ m1.view m.handlers.length = some (c.view m1) := by
  refine ⟨?_, ?_, ?_⟩
  · intro x hx
    rw [hh, List.mem_append, List.mem_singleton] at hx
    rcases hx with hx | hx
    · exact ⟨(hs _ (hwf x hx).1).2, (ha _ (hwf x hx).2).2⟩
    · subst hx; exact ⟨hcg, hca⟩
  · intro q hq hv
    rw [Mem.view_eq] at hv ⊢
    cases hget : m.handlers.get? q with
    | none => rw [hget] at hv; cases hv
    | some x =>
      rw [hget] at hv
      have hmem : x ∈ m.handlers := List.get?_mem hget
      have hlt : q < m.handlers.length := by
        rcases List.get?_eq_some.mp hget with ⟨h, _⟩; exact h
      have hget1 : m1.handlers.get? q = some x := by
        rw [List.get?_eq_getElem?] at hget ⊢
        rw [hh, List.getElem?_append_left hlt]; exact hget
      rw [hget1]
      simp only [Option.map_some', Option.some.injEq] at hv ⊢
      rw [← hv]
      unfold HandlerCell.view
      rw [(hs _ (hwf x hmem).1).1, (ha _ (hwf x hmem).2).1]
  · rw [Mem.view_eq, hh]
    simp

/-- `WithAttrs` in memory: it returns a new struct that denotes the pure
result, every handler of the memory denotes what it denoted, and the slices
stay valid. -/
theorem Mem.WithAttrs_spec (grow : Nat → Nat) (m : Mem) (p : Nat) (h : Handler)
    (as : List Attr) (hwf : m.WF) (hv : m.view p = some h) :
    ∃ m1, m.WithAttrs grow p as = some (m1, m.handlers.length)
      ∧ m1.handlers.length = m.handlers.length + 1
      ∧ m1.view m.handlers.length = some (h.WithAttrs as)
      ∧ (∀ q hq, m.view q = some hq → m1.view q = some hq)
      ∧ m1.WF := by
  rw [Mem.view_eq] at hv
  cases hget : m.handlers.get? p with
  | none => rw [hget] at hv; cases hv
  | some c =>
    rw [hget] at hv
    simp only [Option.map_some', Option.some.injEq] at hv
    refine ⟨_, Mem.WithAttrs_eq grow m p as c hget, by simp, ?_⟩
    obtain ⟨hg1, hg2, _, _, hg3⟩ := slicesClone_spec "" grow m.strings c.groups
    obtain ⟨ha1, ha2, ha3⟩ := cloneAppend_spec zeroAttr grow m.attrArrays c.attrs as
    obtain ⟨hwf1, hframe, hnew⟩ := Mem.extend_spec m
      ⟨(slicesClone "" grow m.strings c.groups).1,
        (goAppend zeroAttr grow (slicesClone zeroAttr grow m.attrArrays c.attrs).1
          (slicesClone zeroAttr grow m.attrArrays c.attrs).2 as).1,
        m.handlers ++ [⟨c.opts, c.colors, c.w, (slicesClone "" grow m.strings c.groups).2,
          (goAppend zeroAttr grow (slicesClone zeroAttr grow m.attrArrays c.attrs).1
            (slicesClone zeroAttr grow m.attrArrays c.attrs).2 as).2⟩]⟩
      ⟨c.opts, c.colors, c.w, (slicesClone "" grow m.strings c.groups).2,
        (goAppend zeroAttr grow (slicesClone zeroAttr grow m.attrArrays c.attrs).1
          (slicesClone zeroAttr grow m.attrArrays c.attrs).2 as).2⟩
      rfl hg3 ha3 hg2 ha2 hwf
    refine ⟨?_, hframe, hwf1⟩
    rw [hnew, ← hv]
    unfold HandlerCell.view
    simp only [hg1, ha1]
    rfl

/-- `WithGroup` in memory: it returns a new struct that denotes the pure
result, every handler of the memory denotes what it denoted, and the slices
stay valid. -/
theorem Mem.WithGroup_spec (grow : Nat → Nat) (m : Mem) (p : Nat) (h : Handler)
    (name : String) (hwf : m.WF) (hv : m.view p = some h) :
    ∃ m1, m.WithGroup grow p name = some (m1, m.handlers.length)
      ∧ m1.handlers.length = m.handlers.length + 1
      ∧ m1.view m.handlers.length = some (h.WithGroup name)
      ∧ (∀ q hq, m.view q = some hq → m1.view q = some hq)
      ∧ m1.WF := by
  rw [Mem.view_eq] at hv
  cases hget : m.handlers.get? p with
  | none => rw [hget] at hv; cases hv
  | some c =>
    rw [hget] at hv
    simp only [Option.map_some', Option.some.injEq] at hv
    refine ⟨_, Mem.WithGroup_eq grow m p name c hget, by simp, ?_⟩
    obtain ⟨ha1, ha2, _, _, ha3⟩ := slicesClone_spec zeroAttr grow m.attrArrays c.attrs
    obtain ⟨hg1, hg2, hg3⟩ := cloneAppend_spec "" grow m.strings c.groups [name]
    obtain ⟨hwf1, hframe, hnew⟩ := Mem.extend_spec m
      ⟨(goAppend "" grow (slicesClone "" grow m.strings c.groups).1
          (slicesClone "" grow m.strings c.groups).2 [name]).1,
        (slicesClone zeroAttr grow m.attrArrays c.attrs).1,
        m.handlers ++ [⟨c.opts, c.colors, c.w,
          (goAppend "" grow (slicesClone "" grow m.strings c.groups).1
            (slicesClone "" grow m.strings c.groups).2 [name]).2,
          (slicesClone zeroAttr grow m.attrArrays c.attrs).2⟩]⟩
      ⟨c.opts, c.colors, c.w,
        (goAppend "" grow (slicesClone "" grow m.strings c.groups).1
          (slicesClone "" grow m.strings c.groups).2 [name]).2,
        (slicesClone zeroAttr grow m.attrArrays c.attrs).2⟩
      rfl hg3 ha3 hg2 ha2 hwf
    refine ⟨?_, hframe, hwf1⟩
    rw [hnew, ← hv]
    unfold HandlerCell.view
    simp only [hg1, ha1]
    rfl

theorem spareMem_WF : spareMem.WF := by
  intro c hc
  simp only [spareMem, List.mem_singleton] at hc
  subst hc
  exact ⟨Or.inr ⟨by decide, by decide, by decide⟩, Or.inr ⟨by decide, by decide, by decide⟩⟩

theorem Race.step_exclusive (s : Race) (second : Bool) (hmu : s.a.mu = s.b.mu)
    (h : s.Exclusive) :
    (s.step second).a.mu = (s.step second).b.mu ∧ (s.step second).Exclusive := by
  obtain ⟨held, out, a, b⟩ := s
  obtain ⟨amu, aw, aline, aphase⟩ := a
  obtain ⟨bmu, bw, bline, bphase⟩ := b
  simp only at hmu
  subst hmu
  cases second <;> cases aphase <;> cases bphase <;>
    simp [Race.Exclusive, Call.writing] at h <;>
    (try subst h) <;>
    (try (rename_i r; cases r)) <;>
    simp [Race.step, Call.step, Race.Exclusive, Call.writing]

theorem Race.run_exclusive (sched : List Bool) (s : Race) (hmu : s.a.mu = s.b.mu)
    (h : s.Exclusive) : (s.run sched).Exclusive := by
  induction sched generalizing s with
  | nil => exact h
  | cons x xs ih =>
    have hs := Race.step_exclusive s x hmu h
    exact ih (s.step x) hs.1 hs.2

/-! ### Loops in closed form, marked texts -/

theorem appendMapKeys_eq (L : Runtime) (h : Handler)
    (index : Buffer → String → Except Fault Buffer) :
    ∀ (keys : List String) (i : Nat) (b : Buffer),
      h.appendMapKeys L index i b keys
        = rangeJoined (fun b k => index (b ++ h.keyText L k ++ "=") k) i b keys
  | [], _, _ => rfl
  | k :: keys, i, b => by
    simp only [Handler.appendMapKeys, rangeJoined, Buffer.WriteString, appendKey_eq]
    cases index ((if i > 0 then b ++ ", " else b) ++ h.keyText L k ++ "=") k with
    | error e => rfl
    | ok x => exact appendMapKeys_eq L h index keys (i + 1) x

/-- The `Map` case in closed form. -/
theorem appendReflectedValue_map (L : Runtime) (h : Handler) (b : Buffer) (kt : KeyType)
    (entries : List (RValue × RValue)) :
    h.appendReflectedValue L b (.map kt false entries)
      = Except.map (fun rs => b ++ "\x7b" ++ ", ".intercalate rs ++ "\x7d")
          (collect (h.entryText L kt entries)
            (sortStrings (entries.map (fun e => e.1.keyString kt)))) := by
  simp only [Handler.appendReflectedValue, RValue.IsValid, RValue.IsZero, Buffer.WriteString]
  simp only [Bool.not_true, Bool.or_false, Bool.false_eq_true, if_false]
  rw [appendMapKeys_eq]
  have hbody : ∀ k, Framed (fun b => h.appendMapIndex L kt (b ++ h.keyText L k ++ "=") k entries) := by
    intro k b
    have h1 := appendMapIndex_framed L h kt entries k (b ++ h.keyText L k ++ "=")
    have h2 := appendMapIndex_framed L h kt entries k ("" ++ h.keyText L k ++ "=")
    simp only at h1 h2 ⊢
    rw [h1, h2]
    cases h.appendMapIndex L kt "" k entries with
    | error e => rfl
    | ok x => simp [Except.map, String.append_assoc]
  rw [rangeJoined_zero _ hbody]
  have hc : collect (fun k => h.appendMapIndex L kt ("" ++ h.keyText L k ++ "=") k entries)
      (sortStrings (entries.map (fun e => e.1.keyString kt)))
      = collect (h.entryText L kt entries)
          (sortStrings (entries.map (fun e => e.1.keyString kt))) := by
    apply collect_congr
    intro k
    have h2 := appendMapIndex_framed L h kt entries k ("" ++ h.keyText L k ++ "=")
    simp only at h2
    rw [h2]
    unfold Handler.entryText
    cases h.appendMapIndex L kt "" k entries with
    | error e => rfl
    | ok x => simp [Except.map, String.append_assoc]
  rw [hc]
  cases collect (h.entryText L kt entries)
      (sortStrings (entries.map (fun e => e.1.keyString kt))) with
  | error e => rfl
  | ok rs => simp [Except.map, bind, Except.bind, pure, Except.pure, String.append_assoc]

theorem appendElems_eq (L : Runtime) (h : Handler) :
    ∀ (elems : List RValue) (i : Nat) (b : Buffer),
      h.appendElems L i b elems
        = rangeJoined (fun b e => h.appendReflectedValue L b e) i b elems
  | [], _, _ => by simp [Handler.appendElems, rangeJoined]
  | e :: elems, i, b => by
    simp only [Handler.appendElems, rangeJoined, Buffer.WriteString]
    cases h.appendReflectedValue L (if i > 0 then b ++ ", " else b) e with
    | error e => rfl
    | ok x => exact appendElems_eq L h elems (i + 1) x

/-- The loop of the `Slice, Array` case in closed form. -/
theorem appendElems_zero (L : Runtime) (h : Handler) (elems : List RValue) (b : Buffer) :
    h.appendElems L 0 b elems
      = Except.map (fun rs => b ++ ", ".intercalate rs)
          (collect (h.appendReflectedValue L "") elems) := by
  rw [appendElems_eq]
  exact rangeJoined_zero _ (fun e => appendReflectedValue_framed L h e) elems b

/-- The value text of a key whose first matching entry holds a zero value. -/
theorem appendMapIndex_found (L : Runtime) (h : Handler) (b : Buffer) (k : String) (v : RValue)
    (hv : v.IsValid = false ∨ v.IsZero = true) (post : List (RValue × RValue)) :
    ∀ (pre : List (RValue × RValue)), (∀ e ∈ pre, RValue.keyMatches .string e.1 k = false) →
      h.appendMapIndex L .string b k (pre ++ (.string k, v) :: post) = .ok (b ++ "nil")
  | [], _ => by
    rw [List.nil_append, Handler.appendMapIndex]
    have hz : (!v.IsValid || v.IsZero) = true := by rcases hv with hv | hv <;> simp [hv]
    simp [KeyType.stringAssignable, RValue.keyMatches, appendReflectedValue_nil L h b v hz,
      pure, Except.pure]
  | e :: pre, hpre => by
    obtain ⟨key, val⟩ := e
    rw [List.cons_append, Handler.appendMapIndex]
    have hk : RValue.keyMatches .string key k = false := hpre (key, val) (List.mem_cons_self _ _)
    simp only [KeyType.stringAssignable, hk, Bool.not_true, Bool.false_eq_true, if_false]
    exact appendMapIndex_found L h b k v hv post pre
      (fun e he => hpre e (List.mem_cons_of_mem _ he))

theorem escFree_append {a b : String} (ha : EscFree a) (hb : EscFree b) : EscFree (a ++ b) := by
  intro c hc
  rw [String.data_append, List.mem_append] at hc
  rcases hc with hc | hc
  · exact ha c hc
  · exact hb c hc

theorem escFree_mk {l : List Char} (h : ∀ c ∈ l, c ≠ escChar) : EscFree (String.mk l) := h

theorem escFree_join : ∀ (l : List String), (∀ s ∈ l, EscFree s) → EscFree (String.join l)
  | [], _ => by intro c hc; simp [String.join] at hc
  | s :: l, h => by
    rw [join_cons]
    exact escFree_append (h s (List.mem_cons_self _ _))
      (escFree_join l (fun t ht => h t (List.mem_cons_of_mem _ ht)))

theorem escFree_spaces (n : Nat) : EscFree (String.mk (List.replicate n ' ')) := by
  intro c hc
  have : c = ' ' := List.eq_of_mem_replicate hc
  rw [this]; decide

theorem digitChar_ne_esc (n : Nat) : Nat.digitChar (n % 10) ≠ escChar := by
  have h : n % 10 < 10 := Nat.mod_lt _ (by decide)
  generalize n % 10 = d at h
  interval_cases d <;> decide

theorem toDigitsCore_escFree : ∀ (fuel n : Nat) (acc : List Char),
    (∀ c ∈ acc, c ≠ escChar) → ∀ c ∈ Nat.toDigitsCore 10 fuel n acc, c ≠ escChar
  | 0, _, acc, hacc => by simpa [Nat.toDigitsCore] using hacc
  | fuel + 1, n, acc, hacc => by
    have hcons : ∀ c ∈ Nat.digitChar (n % 10) :: acc, c ≠ escChar := by
      intro c hc
      rcases List.mem_cons.mp hc with h | h
      · rw [h]; exact digitChar_ne_esc n
      · exact hacc c h
    simp only [Nat.toDigitsCore]
    split_ifs
    · exact hcons
    · exact toDigitsCore_escFree fuel (n / 10) _ hcons

theorem escFree_nat (n : Nat) : EscFree (toString n) :=
  toDigitsCore_escFree (n + 1) n [] (fun _ h => absurd h (List.not_mem_nil _))

theorem escFree_int (i : Int) : EscFree (toString i) := by
  cases i with
  | ofNat n => exact escFree_nat n
  | negSucc n =>
    show EscFree ("-" ++ toString (n + 1))
    exact escFree_append (by decide) (escFree_nat (n + 1))

theorem hexDigit_ne_esc (n : Nat) : hexDigit n ≠ escChar := by
  have h : n % 16 < 16 := Nat.mod_lt _ (by decide)
  unfold hexDigit
  generalize n % 16 = d at h
  interval_cases d <;> decide

theorem hexDigits_escFree : ∀ (k n : Nat), ∀ c ∈ hexDigits k n, c ≠ escChar
  | 0, _ => by intro c hc; simp [hexDigits] at hc
  | k + 1, n => by
    intro c hc
    rw [hexDigits, List.mem_append, List.mem_singleton] at hc
    rcases hc with hc | hc
    · exact hexDigits_escFree k (n / 16) c hc
    · rw [hc]; exact hexDigit_ne_esc n

theorem IsPrint_esc (L : Runtime) : IsPrint L escChar = false :=
  IsPrint_control L escChar (by decide)

theorem controlEscape_escFree (n : Nat) : EscFree (controlEscape n) := by
  unfold controlEscape
  split_ifs
  all_goals first
    | decide
    | exact escFree_append (by decide) (escFree_mk (hexDigits_escFree _ _))

theorem escapedRune_escFree (L : Runtime) (r : Char) : EscFree (escapedRune L r) := by
  by_cases hq : r = Char.ofNat 0x22 ∨ r = Char.ofNat 0x5C
  · unfold escapedRune
    rw [if_pos hq]
    intro c hc
    change c ∈ [Char.ofNat 0x5C, r] at hc
    rw [List.mem_cons, List.mem_singleton] at hc
    rcases hc with hc | hc
    · rw [hc]; decide
    · rw [hc]
      rcases hq with h | h <;> rw [h] <;> decide
  · by_cases hp : IsPrint L r = true
    · unfold escapedRune
      rw [if_neg hq, if_pos hp]
      intro c hc
      change c ∈ [r] at hc
      rw [List.mem_singleton] at hc
      rw [hc]
      intro hr
      rw [hr, IsPrint_esc] at hp
      exact absurd hp (by decide)
    · rw [escapedRune_control L r hq (by simpa using hp)]
      exact controlEscape_escFree _

theorem Quote_escFree (L : Runtime) (s : String) : EscFree (Quote L s) := by
  unfold Quote
  refine escFree_append (escFree_append (by decide) (escFree_join _ ?_)) (by decide)
  intro t ht
  rcases List.mem_map.mp ht with ⟨r, _, hr⟩
  rw [← hr]
  exact escapedRune_escFree L r

theorem plainKey_escFree (L : Runtime) (key : String) : EscFree (plainKey L key) := by
  unfold plainKey
  by_cases hq : needsQuoting L key = true
  · rw [if_pos hq]; exact Quote_escFree L key
  · rw [if_neg hq]
    intro c hc hesc
    apply hq
    rw [needsQuoting_iff]
    exact ⟨c, hc, Or.inl (by rw [hesc]; exact IsPrint_esc L)⟩

theorem levelString_escFree (l : Int) : EscFree (levelString l) := by
  unfold levelString
  simp only
  split_ifs
  all_goals first
    | decide
    | exact escFree_append (escFree_append (by decide) (by decide)) (escFree_int _)

theorem levelText_escFree (r : Record) : EscFree (levelText r) :=
  escFree_append (escFree_spaces _) (levelString_escFree r.Level)

theorem marked_lit0 {L : Runtime} {r : Record} {c : Bool} {t : String} (ht : EscFree t) :
    Marked L r c t := by
  have := (Marked.nil (L := L) (r := r) c).lit t ht
  rwa [String.empty_append] at this

theorem marked_foreign0 {L : Runtime} {r : Record} {c : Bool} {t : String}
    (ht : Foreign L r t) : Marked L r c t := by
  have := (Marked.nil (L := L) (r := r) c).foreign t ht
  rwa [String.empty_append] at this

/-- Without foreign escape characters, a text marked without colors holds no
escape character. -/
theorem marked_escFree {L : Runtime} {r : Record} (hL : ∀ t, Foreign L r t → EscFree t) :
    ∀ {c : Bool} {s : String}, Marked L r c s → c = false → EscFree s := by
  intro c s hm
  induction hm with
  | nil c => intro _ x hx; simp at hx
  | lit t _ ht ih => intro hc; exact escFree_append (ih hc) ht
  | foreign t _ ht ih => intro hc; exact escFree_append (ih hc) (hL t ht)
  | span code t _ _ _ _ _ => intro hc; cases hc

theorem marked_bind {L : Runtime} {r : Record} {c : Bool}
    {f g : Buffer → Except Fault Buffer} (h1 : MarkedStep L r c f) (h2 : MarkedStep L r c g) :
    MarkedStep L r c (fun b => f b >>= g) := by
  intro b hb
  have := h1 b hb
  show MarkedResult L r c (f b >>= g)
  cases hf : f b with
  | error e => trivial
  | ok x =>
    rw [hf] at this
    exact h2 x this

theorem marked_pure {L : Runtime} {r : Record} {c : Bool} {f : Buffer → Buffer}
    (h : ∀ b, Marked L r c b → Marked L r c (f b)) : MarkedStep L r c (fun b => pure (f b)) :=
  fun b hb => h b hb

theorem marked_pre {L : Runtime} {r : Record} {c : Bool} {f : Buffer → Except Fault Buffer}
    {k : Buffer → Buffer} (hk : ∀ b, Marked L r c b → Marked L r c (k b))
    (h : MarkedStep L r c f) : MarkedStep L r c (fun b => f (k b)) :=
  fun b hb => h _ (hk b hb)

theorem marked_key (L : Runtime) (r : Record) (h : Handler) (c : Bool) (hc : h.colors = c)
    (key : String) (b : Buffer) (hb : Marked L r c b) : Marked L r c (h.appendKey L b key) := by
  rw [appendKey_eq, keyText_eq, hc]
  cases c
  · simp only [Bool.false_eq_true, if_false]
    exact hb.lit _ (plainKey_escFree L key)
  · simp only [if_true]
    have := Marked.span Color.BrightBlack (plainKey L key) hb (Or.inl rfl)
      (marked_lit0 (plainKey_escFree L key))
    simpa [String.append_assoc] using this

theorem marked_sep {L : Runtime} {r : Record} {c : Bool} (p : Prop) [Decidable p] (b : Buffer)
    (hb : Marked L r c b) : Marked L r c (if p then b ++ ", " else b) := by
  split_ifs
  · exact hb.lit ", " (by decide)
  · exact hb

theorem marked_mapKeys (L : Runtime) (r : Record) (h : Handler) (c : Bool) (hc : h.colors = c)
    (index : Buffer → String → Except Fault Buffer)
    (hidx : ∀ k, MarkedStep L r c (fun b => index b k)) :
    ∀ (keys : List String) (i : Nat), MarkedStep L r c (fun b => h.appendMapKeys L index i b keys)
  | [], _ => fun b hb => hb
  | k :: keys, i => by
    intro b hb
    simp only [Handler.appendMapKeys, Buffer.WriteString]
    exact marked_bind (hidx k) (marked_mapKeys L r h c hc index hidx keys (i + 1)) _
      ((marked_key L r h c hc k _ (marked_sep _ b hb)).lit "=" (by decide))

mutual
theorem marked_reflected (L : Runtime) (r : Record) (h : Handler) (c : Bool)
    (hc : h.colors = c) :
    ∀ v : RValue, MarkedStep L r c (fun b => h.appendReflectedValue L b v)
  | .slice n elems => by
    have ih := marked_elems L r h c hc elems 0
    intro b hb
    simp only [Handler.appendReflectedValue, Buffer.WriteString]
    split_ifs
    · exact hb.lit "nil" (by decide)
    · exact marked_bind ih (marked_pure (fun b hb => hb.lit "]" (by decide))) _
        (hb.lit "[" (by decide))
  | .array elems => by
    have ih := marked_elems L r h c hc elems 0
    intro b hb
    simp only [Handler.appendReflectedValue, Buffer.WriteString]
    split_ifs
    · exact hb.lit "nil" (by decide)
    · exact marked_bind ih (marked_pure (fun b hb => hb.lit "]" (by decide))) _
        (hb.lit "[" (by decide))
  | .map kt n entries => by
    have ih := marked_mapKeys L r h c hc
      (fun b k => h.appendMapIndex L kt b k entries)
      (fun k => marked_mapIndex L r h c hc kt entries k)
      (sortStrings (entries.map (fun e => e.1.keyString kt))) 0
    intro b hb
    simp only [Handler.appendReflectedValue, Buffer.WriteString]
    split_ifs
    · exact hb.lit "nil" (by decide)
    · exact marked_bind ih (marked_pure (fun b hb => hb.lit "\x7d" (by decide))) _
        (hb.lit "\x7b" (by decide))
  | .struct fields => by
    have ih := marked_fields L r h c hc fields 0
    intro b hb
    simp only [Handler.appendReflectedValue, Buffer.WriteString]
    split_ifs
    · exact hb.lit "nil" (by decide)
    · exact marked_bind ih (marked_pure (fun b hb => hb.lit "\x7d" (by decide))) _
        (hb.lit "\x7b" (by decide))
  | .ptr elem => by
    have ih := marked_reflected L r h c hc elem
    intro b hb
    simp only [appendReflectedValue_ptr]
    exact ih b hb
  | .iface elem => by
    have ih := marked_reflected L r h c hc elem
    intro b hb
    simp only [appendReflectedValue_iface]
    exact ih b hb
  | .invalid | .bool _ | .int _ | .uint _ | .float _ | .complex _ _ | .string _
  | .nilPtr | .nilIface | .chanFunc _ => by
    intro b hb
    simp only [Handler.appendReflectedValue.eq_def, Buffer.WriteString]
    split_ifs
    all_goals first
      | exact hb.lit "nil" (by decide)
      | exact hb.foreign _ (Foreign.sprint _)
theorem marked_elems (L : Runtime) (r : Record) (h : Handler) (c : Bool) (hc : h.colors = c) :
    ∀ (elems : List RValue) (i : Nat), MarkedStep L r c (fun b => h.appendElems L i b elems)
  | [], _ => fun b hb => hb
  | e :: elems, i => by
    have ih := marked_bind (marked_reflected L r h c hc e) (marked_elems L r h c hc elems (i + 1))
    intro b hb
    simp only [Handler.appendElems, Buffer.WriteString]
    exact ih _ (marked_sep _ b hb)
theorem marked_mapIndex (L : Runtime) (r : Record) (h : Handler) (c : Bool)
    (hc : h.colors = c) (kt : KeyType) :
    ∀ (entries : List (RValue × RValue)) (k : String),
      MarkedStep L r c (fun b => h.appendMapIndex L kt b k entries)
  | [], _ => by
    intro b hb
    simp only [Handler.appendMapIndex, Buffer.WriteString]
    split_ifs
    · exact hb.lit "nil" (by decide)
    · trivial
  | (key, v) :: entries, k => by
    have ih1 := marked_reflected L r h c hc v
    have ih2 := marked_mapIndex L r h c hc kt entries k
    intro b hb
    simp only [Handler.appendMapIndex]
    split_ifs
    · trivial
    · exact ih1 b hb
    · exact ih2 b hb
theorem marked_fields (L : Runtime) (r : Record) (h : Handler) (c : Bool) (hc : h.colors = c) :
    ∀ (fields : List (String × Bool × RValue)) (count : Nat),
      MarkedStep L r c (fun b => h.appendFields L count b fields)
  | [], _ => fun b hb => hb
  | (name, exported, v) :: fields, count => by
    have ih1 := marked_bind (marked_reflected L r h c hc v)
      (marked_fields L r h c hc fields (count + 1))
    have ih2 := marked_fields L r h c hc fields count
    intro b hb
    cases exported with
    | false => simpa only [Handler.appendFields] using ih2 b hb
    | true =>
      simp only [Handler.appendFields, Buffer.WriteString]
      exact ih1 _ ((marked_key L r h c hc name _ (marked_sep _ b hb)).lit "=" (by decide))
end

theorem marked_rangeJoined {L : Runtime} {r : Record} {c : Bool} {α : Type}
    (body : Buffer → α → Except Fault Buffer)
    (hbody : ∀ a, MarkedStep L r c (fun b => body b a)) :
    ∀ (as : List α) (i : Nat), MarkedStep L r c (fun b => rangeJoined body i b as)
  | [], _ => fun b hb => hb
  | a :: as, i => by
    have ih := marked_bind (hbody a) (marked_rangeJoined body hbody as (i + 1))
    intro b hb
    simp only [rangeJoined, Buffer.WriteString]
    exact ih _ (marked_sep _ b hb)

theorem marked_map_id {L : Runtime} {r : Record} {c : Bool} {f : Buffer → Except Fault Buffer}
    (h : MarkedStep L r c f) : MarkedStep L r c (fun b => (fun x => x) <$> f b) := by
  have hf : (fun b => (fun x => x) <$> f b) = f := by funext b; cases f b <;> rfl
  rw [hf]; exact h

theorem marked_valueWith (L : Runtime) (r : Record) (h : Handler) (c : Bool)
    (hc : h.colors = c) (rec : Buffer → Attr → Except Fault Buffer)
    (hrec : ∀ a, MarkedStep L r c (fun b => rec b a)) (v : Value) :
    MarkedStep L r c (fun b => h.appendValueWith L rec b v) := by
  cases v with
  | group attrs =>
    have ih := marked_map_id (marked_bind (marked_rangeJoined rec hrec attrs 0)
      (marked_pure (fun b hb => hb.lit "\x7d" (by decide))))
    intro b hb
    have := ih _ (hb.lit "\x7b" (by decide))
    simpa [Handler.appendValueWith, Value.asError, Value.isKindAny, Buffer.WriteString]
      using this
  | any pl =>
    cases hp : pl.err with
    | none =>
      have ih := marked_map_id (marked_reflected L r h c hc pl.rv)
      intro b hb
      have := ih b hb
      simpa [Handler.appendValueWith, Value.asError, Value.isKindAny, hp] using this
    | some msg =>
      intro b hb
      cases c with
      | false =>
        have := hb.lit (Quote L msg) (Quote_escFree L msg)
        simpa [Handler.appendValueWith, Value.asError, Value.isKindAny, hp, AppendQuote,
          hc, MarkedResult, pure, Except.pure] using this
      | true =>
        have := Marked.span Color.Red (Quote L msg) hb (Or.inr (Or.inl rfl))
          (marked_lit0 (Quote_escFree L msg))
        simpa [Handler.appendValueWith, Value.asError, Value.isKindAny, hp, AppendQuote,
          Buffer.WriteColor, Buffer.ResetColor, hc, MarkedResult, pure,
          Except.pure, String.append_assoc] using this
  | logValuer pl =>
    cases hp : pl.err with
    | none =>
      intro b hb
      simpa [Handler.appendValueWith, Value.asError, Value.isKindAny, hp,
        MarkedResult, pure, Except.pure, Functor.map, Except.map] using hb
    | some msg =>
      intro b hb
      have := hb.lit (Quote L msg) (Quote_escFree L msg)
      simpa [Handler.appendValueWith, Value.asError, Value.isKindAny, hp, AppendQuote,
        MarkedResult, pure, Except.pure] using this
  | string s =>
    intro b hb
    have := hb.lit (Quote L s) (Quote_escFree L s)
    simpa [Handler.appendValueWith, Value.asError, Value.isKindAny, AppendQuote,
      MarkedResult, pure, Except.pure, Functor.map, Except.map] using this
  | int64 i =>
    intro b hb
    have := hb.lit (toString i) (escFree_int i)
    simpa [Handler.appendValueWith, Value.asError, Value.isKindAny, AppendInt,
      MarkedResult, pure, Except.pure, Functor.map, Except.map] using this
  | uint64 u =>
    intro b hb
    have := hb.lit (toString u) (escFree_nat u)
    simpa [Handler.appendValueWith, Value.asError, Value.isKindAny, AppendUint,
      MarkedResult, pure, Except.pure, Functor.map, Except.map] using this
  | float64 bits =>
    intro b hb
    have := hb.foreign (L.formatFloat bits) (Foreign.float bits)
    simpa [Handler.appendValueWith, Value.asError, Value.isKindAny,
      MarkedResult, pure, Except.pure, Functor.map, Except.map] using this
  | bool v =>
    intro b hb
    have := hb.lit (if v then "true" else "false") (by cases v <;> decide)
    simpa [Handler.appendValueWith, Value.asError, Value.isKindAny, AppendBool,
      MarkedResult, pure, Except.pure, Functor.map, Except.map] using this
  | duration d =>
    intro b hb
    have := hb.foreign (L.durationString d) (Foreign.duration d)
    simpa [Handler.appendValueWith, Value.asError, Value.isKindAny, Buffer.WriteString,
      MarkedResult, pure, Except.pure, Functor.map, Except.map] using this
  | time t =>
    intro b hb
    have := hb.foreign (L.timeFormat t "2006-01-02T15:04:05.999Z07:00") (Foreign.time t _)
    simpa [Handler.appendValueWith, Value.asError, Value.isKindAny,
      MarkedResult, pure, Except.pure, Functor.map, Except.map] using this

theorem marked_attr (L : Runtime) (r : Record) (h : Handler) (c : Bool) (hc : h.colors = c) :
    ∀ (fuel : Nat) (a : Attr), MarkedStep L r c (fun b => h.appendAttr L fuel b a)
  | 0, _ => fun _ _ => trivial
  | fuel + 1, a => by
    have ih := marked_valueWith L r h c hc (h.appendAttr L fuel)
      (marked_attr L r h c hc fuel) (h.replaced a).Value
    intro b hb
    have := ih _ ((marked_key L r h c hc (h.replaced a).Key b hb).lit "=" (by decide))
    simpa only [Handler.appendAttr, Buffer.WriteString, Handler.replaced] using this

theorem marked_append {L : Runtime} {r : Record} {c : Bool} {a : String}
    (ha : Marked L r c a) :
    ∀ {d : Bool} {t : String}, Marked L r d t → d = false → Marked L r c (a ++ t) := by
  intro d t hm
  induction hm with
  | nil d => intro _; rw [String.append_empty]; exact ha
  | lit t _ ht ih => intro hd; rw [← String.append_assoc]; exact (ih hd).lit t ht
  | foreign t _ ht ih => intro hd; rw [← String.append_assoc]; exact (ih hd).foreign t ht
  | span code t _ _ _ _ _ => intro hd; cases hd

theorem sourceText_marked (L : Runtime) (r : Record) : Marked L r false (sourceText L r) := by
  unfold sourceText
  exact (((marked_foreign0 (Foreign.path r.PC)).lit ":" (by decide)).lit _
    (escFree_int _)).lit _ (escFree_spaces _)

theorem marked_header (L : Runtime) (r : Record) (h : Handler) (c : Bool) (hc : h.colors = c)
    (b : Buffer) (hb : Marked L r c b) :
    Marked L r c (h.writeSource L r (h.writeLevel r (h.writeTime L r b))) := by
  have ht : Marked L r c (h.writeTime L r b) := by
    rw [writeTime_eq, hc]
    cases c
    · simp only [Bool.false_eq_true, if_false]
      exact (hb.foreign _ (Foreign.time _ _)).lit " " (by decide)
    · simp only [if_true]
      exact (Marked.span _ _ hb (Or.inl rfl) (marked_foreign0 (Foreign.time _ _))).lit " "
        (by decide)
  have hl : Marked L r c (h.writeLevel r (h.writeTime L r b)) := by
    rw [writeLevel_eq, hc]
    cases c
    · simp only [Bool.false_eq_true, if_false]
      exact (ht.lit _ (levelText_escFree r)).lit " " (by decide)
    · simp only [if_true]
      exact (Marked.span _ _ ht (levelToColor_code r.Level)
        (marked_lit0 (levelText_escFree r))).lit " " (by decide)
  rw [writeSource_eq, hc]
  by_cases h1 : (h.opts.AddSource && r.PC != 0) = true
  · by_cases h2 : ((L.callersFrame r.PC).File != "") = true
    · rw [if_pos h1, if_pos h2]
      cases c
      · simp only [Bool.false_eq_true, if_false]
        exact (marked_append hl (sourceText_marked L r) rfl).lit " " (by decide)
      · simp only [if_true]
        exact (Marked.span _ _ hl (Or.inl rfl) (sourceText_marked L r)).lit " " (by decide)
    · rw [if_pos h1, if_neg h2]
      exact hl
  · rw [if_neg h1]
    exact hl

theorem marked_openings (L : Runtime) (r : Record) (h : Handler) (c : Bool)
    (hc : h.colors = c) : ∀ (gs : List String) (b : Buffer), Marked L r c b →
    Marked L r c (gs.foldl (fun b g => (h.appendKey L b g) ++ "=\x7b") b)
  | [], _, hb => hb
  | g :: gs, b, hb => by
    rw [List.foldl_cons]
    exact marked_openings L r h c hc gs _ ((marked_key L r h c hc g b hb).lit "=\x7b" (by decide))

theorem marked_closings {L : Runtime} {r : Record} {c : Bool} {α : Type} :
    ∀ (gs : List α) (b : Buffer), Marked L r c b →
    Marked L r c (gs.foldl (fun b _ => b ++ "\x7d") b)
  | [], _, hb => hb
  | g :: gs, b, hb => by
    rw [List.foldl_cons]
    exact marked_closings gs _ (hb.lit "\x7d" (by decide))

/-- The line `Handle` builds is marked: without colors it is made of texts
without the escape character and of foreign texts; with colors, of these and
of closed spans. -/
theorem marked_Handle (L : Runtime) (h : Handler) (fuel : Nat) (r : Record) :
    MarkedResult L r h.colors (h.Handle L fuel r) := by
  have hstart : Marked L r h.colors
      (h.groups.foldl (fun b g => (h.appendKey L b g) ++ "=\x7b")
        (if (decide (h.attrs.length > 0) || decide (r.attrs.length > 0)) = true then
          ((h.writeSource L r (h.writeLevel r (h.writeTime L r ""))) ++ r.Message) ++ " \x7b"
        else (h.writeSource L r (h.writeLevel r (h.writeTime L r ""))) ++ r.Message)) := by
    apply marked_openings L r h h.colors rfl
    have hm := (marked_header L r h h.colors rfl "" (Marked.nil _)).foreign r.Message
      Foreign.message
    split_ifs
    · exact hm.lit " \x7b" (by decide)
    · exact hm
  have hsep : ∀ b, Marked L r h.colors b →
      Marked L r h.colors (if h.attrs.length > 0 ∧ r.attrs.length > 0 then b ++ ", " else b) :=
    fun b hb => marked_sep _ b hb
  have hfin : ∀ b, Marked L r h.colors b →
      Marked L r h.colors
        ((if (decide (h.attrs.length > 0) || decide (r.attrs.length > 0)) = true then
          (h.groups.foldl (fun b _ => b ++ "\x7d") b) ++ "\x7d"
        else h.groups.foldl (fun b _ => b ++ "\x7d") b) ++ "\n") := by
    intro b hb
    have hcl := marked_closings (L := L) (r := r) h.groups b hb
    refine Marked.lit "\n" ?_ (by decide)
    split_ifs
    · exact hcl.lit "\x7d" (by decide)
    · exact hcl
  have hloop := fun (as : List Attr) => marked_rangeJoined (h.appendAttr L fuel)
    (marked_attr L r h h.colors rfl fuel) as 0
  exact marked_bind (hloop h.attrs)
    (marked_bind (marked_pre hsep (hloop r.attrs)) (marked_pure hfin)) _ hstart

theorem quietRuntime_escFree (r : Record) (hm : EscFree r.Message) :
    ∀ t, Foreign quietRuntime r t → EscFree t := by
  intro t ht
  cases ht with
  | message => exact hm
  | time t layout => show EscFree "2024-05-06 07:08:09.000"; decide
  | float bits => show EscFree "0"; decide
  | duration d => show EscFree "0s"; decide
  | sprint v => show EscFree "?"; decide
  | path pc =>
    have hp : getShortPath ⟨"/home/user/seezlog/handler_test.go", 68⟩
        = "seezlog/handler_test.go" := by decide
    show EscFree (getShortPath ⟨"/home/user/seezlog/handler_test.go", 68⟩)
    rw [hp]; decide

/-! ## The claims -/

/-- C1: with colors and source off, no open groups and no pre-bound
attributes, the line of a record that has attributes is the time stamp, a
space, the level label padded on the left to width 5, a space, the message,
and then the attribute texts joined by a comma and a space between an opening
and a closing brace, and a newline.  The fixture of `TestHandler` yields a
line ending in `  INFO test message {key1="value1", key2=123}` and a newline. -/
theorem C1_plain_line :
    (∀ (L : Runtime) (h : Handler) (fuel : Nat) (r : Record),
      h.colors = false → h.opts.AddSource = false → h.groups = [] → h.attrs = [] →
      r.attrs ≠ [] →
      h.Handle L fuel r = Except.map (fun rs =>
        L.timeFormat r.Time "2006-01-02 15:04:05.000" ++ " "
          ++ String.mk (List.replicate (5 - (levelString r.Level).utf8ByteSize) ' ')
          ++ levelString r.Level ++ " " ++ r.Message ++ " \x7b" ++ ", ".intercalate rs
          ++ "\x7d" ++ "\n")
        (collect (h.attrText L fuel) r.attrs))
    ∧ (∀ (L : Runtime) (w : Nat) (t : Time) (pc fuel : Nat),
      (NewHandler w false none).Handle L (fuel + 1) (testRecord t pc)
        = .ok (L.timeFormat t "2006-01-02 15:04:05.000"
            ++ "  INFO test message \x7bkey1=\"value1\", key2=123\x7d\n")) := by
  have general : ∀ (L : Runtime) (h : Handler) (fuel : Nat) (r : Record),
      h.colors = false → h.opts.AddSource = false → h.groups = [] → h.attrs = [] →
      r.attrs ≠ [] →
      h.Handle L fuel r = Except.map (fun rs =>
        L.timeFormat r.Time "2006-01-02 15:04:05.000" ++ " "
          ++ String.mk (List.replicate (5 - (levelString r.Level).utf8ByteSize) ' ')
          ++ levelString r.Level ++ " " ++ r.Message ++ " \x7b" ++ ", ".intercalate rs
          ++ "\x7d" ++ "\n")
        (collect (h.attrText L fuel) r.attrs) := by
    intro L h fuel r hcol hsrc hg hp hr
    have hlen : 0 < r.attrs.length := List.length_pos.mpr hr
    rw [Handle_eq, headerText_plain L h r hcol hsrc]
    simp [Handler.groupOpenings, Handler.groupClosings, hg, hp, hlen, String.join]
  refine ⟨general, ?_⟩
  intro L w t pc fuel
  rw [general L _ (fuel + 1) (testRecord t pc) rfl rfl rfl rfl (by simp [testRecord])]
  have htexts : collect ((NewHandler w false none).attrText L (fuel + 1)) (testRecord t pc).attrs
      = .ok ["key1=\"value1\"", "key2=123"] := rfl
  rw [htexts]
  simp only [Except.map, String.append_assoc]
  rfl

/-- Witness of C1 on the fixture of `TestHandler`. -/
theorem C1_plain_line_witness :
    (NewHandler 0 false none).colors = false
    ∧ (NewHandler 0 false none).opts.AddSource = false
    ∧ (NewHandler 0 false none).groups = []
    ∧ (NewHandler 0 false none).attrs = []
    ∧ (testRecord ⟨0⟩ 0).attrs ≠ []
    ∧ (NewHandler 0 false none).Handle sampleRuntime 1 (testRecord ⟨0⟩ 0)
        = .ok "2024-05-06 07:08:09.000  INFO test message \x7bkey1=\"value1\", key2=123\x7d\n" :=
  ⟨rfl, rfl, rfl, rfl, List.cons_ne_nil _ _,
    (C1_plain_line.1 sampleRuntime (NewHandler 0 false none) 1 (testRecord ⟨0⟩ 0)
      rfl rfl rfl rfl (List.cons_ne_nil _ _)).trans rfl⟩

/-- C2: whatever the handler and the record, the text `Handle` writes between
the group openings and the group closings is the texts of the pre-bound
attributes followed by those of the record attributes, each list in its own
order, joined by a comma and a space: one separator between two neighbours,
none in front, none behind, whichever of the two lists is empty.  The fixture
of `TestHandler_WithAttrs` yields a line ending in
`  INFO test message {attr1="val1", key1="value1"}` and a newline. -/
theorem C2_attrs_joined :
    (∀ (L : Runtime) (h : Handler) (fuel : Nat) (r : Record),
      h.Handle L fuel r = Except.map (fun rs =>
        (h.headerText L r ++ r.Message
            ++ (if 0 < h.attrs.length ∨ 0 < r.attrs.length then " \x7b" else "")
            ++ h.groupOpenings L)
          ++ ", ".intercalate rs
          ++ (h.groupClosings
            ++ (if 0 < h.attrs.length ∨ 0 < r.attrs.length then "\x7d" else "") ++ "\n"))
        (collect (h.attrText L fuel) (h.attrs ++ r.attrs)))
    ∧ (∀ (L : Runtime) (w : Nat) (t : Time) (pc fuel : Nat),
      ((NewHandler w false none).WithAttrs [.mk "attr1" (.string "val1")]).Handle L (fuel + 1)
          (testRecord1 t pc)
        = .ok (L.timeFormat t "2006-01-02 15:04:05.000"
            ++ "  INFO test message \x7battr1=\"val1\", key1=\"value1\"\x7d\n")) := by
  have general : ∀ (L : Runtime) (h : Handler) (fuel : Nat) (r : Record),
      h.Handle L fuel r = Except.map (fun rs =>
        (h.headerText L r ++ r.Message
            ++ (if 0 < h.attrs.length ∨ 0 < r.attrs.length then " \x7b" else "")
            ++ h.groupOpenings L)
          ++ ", ".intercalate rs
          ++ (h.groupClosings
            ++ (if 0 < h.attrs.length ∨ 0 < r.attrs.length then "\x7d" else "") ++ "\n"))
        (collect (h.attrText L fuel) (h.attrs ++ r.attrs)) := by
    intro L h fuel r
    rw [Handle_eq]
    simp only [String.append_assoc]
  refine ⟨general, ?_⟩
  intro L w t pc fuel
  rw [general, headerText_plain L _ _ rfl rfl]
  have htexts : collect (((NewHandler w false none).WithAttrs
        [.mk "attr1" (.string "val1")]).attrText L (fuel + 1))
      (((NewHandler w false none).WithAttrs [.mk "attr1" (.string "val1")]).attrs
        ++ (testRecord1 t pc).attrs)
      = .ok ["attr1=\"val1\"", "key1=\"value1\""] := rfl
  rw [htexts]
  simp only [Except.map, String.append_assoc]
  rfl

/-- C3: when the handler or the record has an attribute, the text after the
message is a space and an opening brace, then for each open group, in the
order the groups were opened, its key text, `=` and an opening brace, then the
joined attribute texts, then as many closing braces as there are open groups,
one more closing brace and a newline.  The fixture of `TestHandler_WithGroup`
yields a line ending in ` {group1={key1="value1"}}` and a newline. -/
theorem C3_groups_nest :
    (∀ (L : Runtime) (h : Handler) (fuel : Nat) (r : Record),
      h.attrs ≠ [] ∨ r.attrs ≠ [] →
      h.Handle L fuel r = Except.map (fun rs =>
        h.headerText L r ++ r.Message ++ " \x7b"
          ++ String.join (h.groups.map (fun g => h.keyText L g ++ "=\x7b"))
          ++ ", ".intercalate rs
          ++ String.mk (List.replicate h.groups.length (Char.ofNat 0x7d))
          ++ "\x7d" ++ "\n")
        (collect (h.attrText L fuel) (h.attrs ++ r.attrs)))
    ∧ (∀ (L : Runtime) (w : Nat) (t : Time) (pc fuel : Nat),
      ((NewHandler w false none).WithGroup "group1").Handle L (fuel + 1) (testRecord1 t pc)
        = .ok (L.timeFormat t "2006-01-02 15:04:05.000"
            ++ "  INFO test message \x7bgroup1=\x7bkey1=\"value1\"\x7d\x7d\n")) := by
  have closings : ∀ gs : List String,
      String.join (gs.map (fun _ => "\x7d")) = String.mk (List.replicate gs.length (Char.ofNat 0x7d)) := by
    intro gs
    induction gs with
    | nil => rfl
    | cons g gs ih =>
      rw [List.map_cons, join_cons, ih]
      rfl
  have general : ∀ (L : Runtime) (h : Handler) (fuel : Nat) (r : Record),
      h.attrs ≠ [] ∨ r.attrs ≠ [] →
      h.Handle L fuel r = Except.map (fun rs =>
        h.headerText L r ++ r.Message ++ " \x7b"
          ++ String.join (h.groups.map (fun g => h.keyText L g ++ "=\x7b"))
          ++ ", ".intercalate rs
          ++ String.mk (List.replicate h.groups.length (Char.ofNat 0x7d))
          ++ "\x7d" ++ "\n")
        (collect (h.attrText L fuel) (h.attrs ++ r.attrs)) := by
    intro L h fuel r hne
    have hlen : 0 < h.attrs.length ∨ 0 < r.attrs.length :=
      hne.imp List.length_pos.mpr List.length_pos.mpr
    rw [Handle_eq]
    simp only [Handler.groupOpenings, Handler.groupClosings, closings, if_pos hlen]
  refine ⟨general, ?_⟩
  intro L w t pc fuel
  rw [general L _ _ _ (Or.inr (List.cons_ne_nil _ _)), headerText_plain L _ _ rfl rfl]
  have htexts : collect (((NewHandler w false none).WithGroup "group1").attrText L (fuel + 1))
      (((NewHandler w false none).WithGroup "group1").attrs ++ (testRecord1 t pc).attrs)
      = .ok ["key1=\"value1\""] := rfl
  rw [htexts]
  simp only [Except.map, String.append_assoc]
  rfl

/-- Witness of C3 on the fixture of `TestHandler_WithGroup`. -/
theorem C3_groups_nest_witness :
    (((NewHandler 0 false none).WithGroup "group1").attrs ≠ [] ∨ (testRecord1 ⟨0⟩ 0).attrs ≠ [])
    ∧ ((NewHandler 0 false none).WithGroup "group1").Handle sampleRuntime 1 (testRecord1 ⟨0⟩ 0)
        = .ok "2024-05-06 07:08:09.000  INFO test message \x7bgroup1=\x7bkey1=\"value1\"\x7d\x7d\n" :=
  ⟨Or.inr (List.cons_ne_nil _ _),
    (C3_groups_nest.1 sampleRuntime ((NewHandler 0 false none).WithGroup "group1") 1
      (testRecord1 ⟨0⟩ 0) (Or.inr (List.cons_ne_nil _ _))).trans rfl⟩

/-- C4: binding attributes and then opening a group gives the same handler
state, hence the same bytes for every record, as opening the group and then
binding the attributes; in both cases the texts of all pre-bound and record
attributes stand between the opening of the new group and its closing brace.
The fixture of `TestHandler_WithGroupAndAttrs` yields a line ending in
` {group1={attr1="val1", key1="value1"}}` and a newline. -/
theorem C4_attrs_before_group :
    (∀ (L : Runtime) (h : Handler) (a : List Attr) (g : String) (fuel : Nat) (r : Record),
      ((h.WithAttrs a).WithGroup g).Handle L fuel r
        = ((h.WithGroup g).WithAttrs a).Handle L fuel r)
    ∧ (∀ (L : Runtime) (h : Handler) (a : List Attr) (g : String) (fuel : Nat) (r : Record),
      ((h.WithAttrs a).WithGroup g).Handle L fuel r = Except.map (fun rs =>
        ((h.WithAttrs a).WithGroup g).headerText L r ++ r.Message
          ++ (if 0 < (h.attrs ++ a).length ∨ 0 < r.attrs.length then " \x7b" else "")
          ++ h.groupOpenings L
          ++ (h.keyText L g ++ "=\x7b" ++ ", ".intercalate rs ++ "\x7d")
          ++ h.groupClosings
          ++ (if 0 < (h.attrs ++ a).length ∨ 0 < r.attrs.length then "\x7d" else "") ++ "\n")
        (collect (((h.WithAttrs a).WithGroup g).attrText L fuel) ((h.attrs ++ a) ++ r.attrs)))
    ∧ (∀ (L : Runtime) (w : Nat) (t : Time) (pc fuel : Nat),
      (((NewHandler w false none).WithAttrs [.mk "attr1" (.string "val1")]).WithGroup
          "group1").Handle L (fuel + 1) (testRecord1 t pc)
        = .ok (L.timeFormat t "2006-01-02 15:04:05.000"
            ++ "  INFO test message \x7bgroup1=\x7battr1=\"val1\", key1=\"value1\"\x7d\x7d\n")) := by
  refine ⟨fun L h a g fuel r => rfl, ?_, ?_⟩
  · intro L h a g fuel r
    rw [Handle_eq]
    have hopen : ((h.WithAttrs a).WithGroup g).groupOpenings L
        = h.groupOpenings L ++ (h.keyText L g ++ "=\x7b") := by
      show String.join ((h.groups ++ [g]).map _) = String.join (h.groups.map _) ++ _
      rw [List.map_append, join_append]
      simp [String.join]
      rfl
    have hclose : ((h.WithAttrs a).WithGroup g).groupClosings = "\x7d" ++ h.groupClosings := by
      show String.join ((h.groups ++ [g]).map _) = _ ++ String.join (h.groups.map _)
      induction h.groups with
      | nil => rfl
      | cons x xs ih =>
        rw [List.cons_append, List.map_cons, join_cons, ih, List.map_cons, join_cons]
    rw [hopen, hclose]
    show Except.map _ (collect _ ((h.attrs ++ a) ++ r.attrs)) = _
    congr 1
    funext rs
    show _ ++ (if 0 < (h.attrs ++ a).length ∨ 0 < r.attrs.length then " \x7b" else "") ++ _ ++ _
      ++ _ ++ (if 0 < (h.attrs ++ a).length ∨ 0 < r.attrs.length then "\x7d" else "") ++ _ = _
    simp only [String.append_assoc]
  · intro L w t pc fuel
    rw [Handle_eq, headerText_plain L _ _ rfl rfl]
    have htexts : collect ((((NewHandler w false none).WithAttrs
          [.mk "attr1" (.string "val1")]).WithGroup "group1").attrText L (fuel + 1))
        ((((NewHandler w false none).WithAttrs [.mk "attr1" (.string "val1")]).WithGroup
          "group1").attrs ++ (testRecord1 t pc).attrs)
        = .ok ["attr1=\"val1\"", "key1=\"value1\""] := rfl
    rw [htexts]
    simp only [Except.map, String.append_assoc]
    rfl

/-- C5, at the failing input: a handler with the open group `group1`, no
pre-bound attribute, and a record without attributes.  `Handle` writes the
group opening and closing right after the message. -/
theorem C5_open_group_without_attrs (L : Runtime) (w : Nat) (t : Time) (pc fuel : Nat) :
    ((NewHandler w false none).WithGroup "group1").Handle L fuel
        ⟨t, "test message", LevelInfo, pc, []⟩
      = .ok (L.timeFormat t "2006-01-02 15:04:05.000"
          ++ "  INFO test messagegroup1=\x7b\x7d\n") := by
  rw [Handle_eq, headerText_plain L _ _ rfl rfl]
  have htexts : collect (((NewHandler w false none).WithGroup "group1").attrText L fuel)
      (((NewHandler w false none).WithGroup "group1").attrs
        ++ (⟨t, "test message", LevelInfo, pc, []⟩ : Record).attrs)
      = .ok [] := rfl
  rw [htexts]
  simp only [Except.map, String.append_assoc]
  rfl

/-- C6: a `KindAny` value whose payload is an error with message `m` is
written as the quoted `m`, whatever the payload looks like to reflection; with
colors on the quoted message stands between the red code and the reset code,
with colors off no code is written.  The attribute is the key text, `=`, and
that value text.  `errors.New("this is an error")` under key `err` gives
`err="this is an error"`. -/
theorem C6_error_value :
    (∀ (L : Runtime) (h : Handler) (fuel : Nat) (b : Buffer) (p : Payload) (m : String),
      p.err = some m →
      h.appendValue L fuel b (.any p)
        = .ok (b ++ (if h.colors then Color.Red ++ Quote L m ++ Color.Reset else Quote L m)))
    ∧ (∀ (L : Runtime) (h : Handler) (fuel : Nat) (b : Buffer) (a : Attr) (k : String)
        (p : Payload) (m : String),
      h.replaced a = .mk k (.any p) → p.err = some m →
      h.appendAttr L (fuel + 1) b a
        = .ok (b ++ (if h.colors then
              Color.BrightBlack ++ plainKey L k ++ Color.Reset ++ "="
                ++ Color.Red ++ Quote L m ++ Color.Reset
            else plainKey L k ++ "=" ++ Quote L m)))
    ∧ (∀ (L : Runtime) (w : Nat) (fuel : Nat) (b : Buffer) (rv : RValue),
      (NewHandler w false none).appendAttr L (fuel + 1) b
          (.mk "err" (.any ⟨some "this is an error", rv⟩))
        = .ok (b ++ "err=\"this is an error\"")) := by
  have attr : ∀ (L : Runtime) (h : Handler) (fuel : Nat) (b : Buffer) (a : Attr) (k : String)
        (p : Payload) (m : String),
      h.replaced a = .mk k (.any p) → p.err = some m →
      h.appendAttr L (fuel + 1) b a
        = .ok (b ++ (if h.colors then
              Color.BrightBlack ++ plainKey L k ++ Color.Reset ++ "="
                ++ Color.Red ++ Quote L m ++ Color.Reset
            else plainKey L k ++ "=" ++ Quote L m)) := by
    intro L h fuel b a k p m ha hp
    rw [appendAttr_succ, ha]
    simp only [Attr.Key, Attr.Value]
    rw [appendValue_error L h fuel "" p m hp, keyText_eq]
    cases h.colors <;> simp [Except.map, String.append_assoc]
  refine ⟨appendValue_error, attr, ?_⟩
  intro L w fuel b rv
  rw [attr L (NewHandler w false none) fuel b
    (.mk "err" (.any ⟨some "this is an error", rv⟩)) "err"
    ⟨some "this is an error", rv⟩ "this is an error" rfl rfl]
  rfl

/-- Witness of C6 on the fixture of `TestHandler_Error`, with a pointer
payload. -/
theorem C6_error_value_witness :
    (NewHandler 0 true none).replaced (.mk "err" (.any ⟨some "this is an error", .ptr (.struct [])⟩))
        = .mk "err" (.any ⟨some "this is an error", .ptr (.struct [])⟩)
    ∧ (⟨some "this is an error", .ptr (.struct [])⟩ : Payload).err = some "this is an error"
    ∧ (NewHandler 0 true none).appendAttr sampleRuntime 1 ""
          (.mk "err" (.any ⟨some "this is an error", .ptr (.struct [])⟩))
        = .ok "\x1b[90merr\x1b[0m=\x1b[31m\"this is an error\"\x1b[0m" :=
  ⟨rfl, rfl,
    (C6_error_value.2.1 sampleRuntime (NewHandler 0 true none) 0 ""
      (.mk "err" (.any ⟨some "this is an error", .ptr (.struct [])⟩)) "err"
      ⟨some "this is an error", .ptr (.struct [])⟩ "this is an error" rfl rfl).trans rfl⟩

/-- C7: with a rewrite hook `f` configured, an attribute `a` is written as the
key text of the key `f` returns for the handler's open groups and `a`, then
`=`, then the text of the value `f` returns; an empty returned key is written
as it is, so that without colors the text starts with `=`.  This holds for
the pre-bound and record attributes that `Handle` writes and for the members
of a group value.  The fixture of `TestHandler_ReplaceAttr` yields
`{replaced_key="replaced_value", key2=123}`. -/
theorem C7_replace_attr :
    (∀ (L : Runtime) (h : Handler) (f : List String → Attr → Attr) (fuel : Nat) (b : Buffer)
        (a : Attr),
      h.opts.ReplaceAttr = some f →
      h.appendAttr L (fuel + 1) b a
        = Except.map (fun v => b ++ h.keyText L (f h.groups a).Key ++ "=" ++ v)
            (h.appendValue L fuel "" (f h.groups a).Value))
    ∧ (∀ (L : Runtime) (h : Handler) (f : List String → Attr → Attr) (fuel : Nat) (b : Buffer)
        (a : Attr),
      h.opts.ReplaceAttr = some f → h.colors = false → (f h.groups a).Key = "" →
      h.appendAttr L (fuel + 1) b a
        = Except.map (fun v => b ++ "=" ++ v) (h.appendValue L fuel "" (f h.groups a).Value))
    ∧ (∀ (L : Runtime) (h : Handler) (f : List String → Attr → Attr) (fuel : Nat) (r : Record),
      h.opts.ReplaceAttr = some f →
      h.Handle L (fuel + 1) r = Except.map (fun rs =>
        (h.headerText L r ++ r.Message
            ++ (if 0 < h.attrs.length ∨ 0 < r.attrs.length then " \x7b" else "")
            ++ h.groupOpenings L)
          ++ ", ".intercalate rs
          ++ (h.groupClosings
            ++ (if 0 < h.attrs.length ∨ 0 < r.attrs.length then "\x7d" else "") ++ "\n"))
        (collect (fun a => Except.map (fun v => h.keyText L (f h.groups a).Key ++ "=" ++ v)
            (h.appendValue L fuel "" (f h.groups a).Value)) (h.attrs ++ r.attrs)))
    ∧ (∀ (L : Runtime) (h : Handler) (f : List String → Attr → Attr) (fuel : Nat) (b : Buffer)
        (as : List Attr),
      h.opts.ReplaceAttr = some f →
      h.appendValue L (fuel + 1) b (.group as) = Except.map (fun rs =>
        b ++ "\x7b" ++ ", ".intercalate rs ++ "\x7d")
        (collect (fun a => Except.map (fun v => h.keyText L (f h.groups a).Key ++ "=" ++ v)
            (h.appendValue L fuel "" (f h.groups a).Value)) as))
    ∧ (∀ (L : Runtime) (w : Nat) (t : Time) (pc fuel : Nat),
      (NewHandler w false (some ⟨false, none, some testReplace⟩)).Handle L (fuel + 1)
          (testRecord t pc)
        = .ok (L.timeFormat t "2006-01-02 15:04:05.000"
            ++ "  INFO test message \x7breplaced_key=\"replaced_value\", key2=123\x7d\n")) := by
  have one : ∀ (L : Runtime) (h : Handler) (f : List String → Attr → Attr) (fuel : Nat)
      (b : Buffer) (a : Attr), h.opts.ReplaceAttr = some f →
      h.appendAttr L (fuel + 1) b a
        = Except.map (fun v => b ++ h.keyText L (f h.groups a).Key ++ "=" ++ v)
            (h.appendValue L fuel "" (f h.groups a).Value) := by
    intro L h f fuel b a hf
    rw [appendAttr_succ]
    simp only [Handler.replaced, hf]
  have texts : ∀ (L : Runtime) (h : Handler) (f : List String → Attr → Attr) (fuel : Nat)
      (as : List Attr), h.opts.ReplaceAttr = some f →
      collect (h.attrText L (fuel + 1)) as
        = collect (fun a => Except.map (fun v => h.keyText L (f h.groups a).Key ++ "=" ++ v)
            (h.appendValue L fuel "" (f h.groups a).Value)) as := by
    intro L h f fuel as hf
    apply collect_congr
    intro a
    rw [Handler.attrText, one L h f fuel "" a hf]
    simp
  refine ⟨one, ?_, ?_, ?_, ?_⟩
  · intro L h f fuel b a hf hcol hkey
    rw [one L h f fuel b a hf, hkey, keyText_eq, hcol]
    have : plainKey L "" = "" := rfl
    simp [this]
  · intro L h f fuel r hf
    rw [Handle_eq, texts L h f fuel _ hf]
    simp only [String.append_assoc]
  · intro L h f fuel b as hf
    rw [appendValue_group, texts L h f fuel _ hf]
  · intro L w t pc fuel
    rw [Handle_eq, headerText_plain L _ _ rfl rfl]
    have htexts : collect ((NewHandler w false (some ⟨false, none, some testReplace⟩)).attrText L
          (fuel + 1))
        ((NewHandler w false (some ⟨false, none, some testReplace⟩)).attrs
          ++ (testRecord t pc).attrs)
        = .ok ["replaced_key=\"replaced_value\"", "key2=123"] := rfl
    rw [htexts]
    simp only [Except.map, String.append_assoc]
    rfl

/-- Witness of C7: the hook of `TestHandler_ReplaceAttr` on `key1="value1"`,
and a hook that returns an empty key on `key2=123`. -/
theorem C7_replace_attr_witness :
    (NewHandler 0 false (some ⟨false, none, some testReplace⟩)).opts.ReplaceAttr = some testReplace
    ∧ (NewHandler 0 false (some ⟨false, none, some testReplace⟩)).appendAttr sampleRuntime 1 ""
          (.mk "key1" (.string "value1"))
        = .ok "replaced_key=\"replaced_value\""
    ∧ (NewHandler 0 false (some ⟨false, none, some blankKey⟩)).opts.ReplaceAttr = some blankKey
    ∧ (NewHandler 0 false (some ⟨false, none, some blankKey⟩)).colors = false
    ∧ (blankKey (NewHandler 0 false (some ⟨false, none, some blankKey⟩)).groups
        (.mk "key2" (.int64 123))).Key = ""
    ∧ (NewHandler 0 false (some ⟨false, none, some blankKey⟩)).appendAttr sampleRuntime 1 ""
          (.mk "key2" (.int64 123))
        = .ok "=123" :=
  ⟨rfl,
    (C7_replace_attr.1 sampleRuntime (NewHandler 0 false (some ⟨false, none, some testReplace⟩))
      testReplace 0 "" (.mk "key1" (.string "value1")) rfl).trans rfl,
    rfl, rfl, rfl,
    (C7_replace_attr.2.1 sampleRuntime (NewHandler 0 false (some ⟨false, none, some blankKey⟩))
      blankKey 0 "" (.mk "key2" (.int64 123)) rfl rfl rfl).trans rfl⟩

/-- C8: `getShortPath` keeps the last two segments of the file path.  A
path with at least two `/` is the result preceded by some text and a `/`, and
the result contains exactly one `/`; a path with fewer than two `/` is returned
as it is; in every case the result is an end piece of the path.  The path of
the test file reduces to `seezlog/handler_test.go`. -/
theorem C8_short_path :
    (∀ f : Frame, 2 ≤ f.File.data.count '/' →
      ∃ pre : String, f.File = pre ++ "/" ++ getShortPath f
        ∧ (getShortPath f).data.count '/' = 1)
    ∧ (∀ f : Frame, f.File.data.count '/' < 2 → getShortPath f = f.File)
    ∧ (∀ f : Frame, ∃ pre : String, f.File = pre ++ getShortPath f)
    ∧ getShortPath ⟨"/home/user/seezlog/handler_test.go", 68⟩ = "seezlog/handler_test.go" := by
  refine ⟨?_, ?_, ?_, by decide⟩
  · intro f h2
    rcases getShortPath_cases f with ⟨hlt, _⟩ | ⟨pre, mid, post, hs, hmid, hpost, hres⟩
    · omega
    · refine ⟨String.mk pre, ?_, ?_⟩
      · rw [hres]
        apply String.ext
        simp [hs]
      · rw [hres]
        simp [List.count_append, List.count_cons, List.count_eq_zero_of_not_mem hmid,
          List.count_eq_zero_of_not_mem hpost]
  · intro f hlt
    rcases getShortPath_cases f with ⟨_, hres⟩ | ⟨pre, mid, post, hs, hmid, hpost, _⟩
    · exact hres
    · rw [hs] at hlt
      simp [List.count_append, List.count_cons] at hlt
      omega
  · intro f
    rcases getShortPath_cases f with ⟨_, hres⟩ | ⟨pre, mid, post, hs, hmid, hpost, hres⟩
    · exact ⟨"", by rw [hres]; simp⟩
    · refine ⟨String.mk (pre ++ ['/']), ?_⟩
      rw [hres]
      apply String.ext
      simp [hs]

/-- Witness of C8: a path with four separators, and a path with one. -/
theorem C8_short_path_witness :
    (2 ≤ (⟨"/home/user/seezlog/handler_test.go", 68⟩ : Frame).File.data.count '/'
      ∧ ∃ pre : String, (⟨"/home/user/seezlog/handler_test.go", 68⟩ : Frame).File
          = pre ++ "/" ++ getShortPath ⟨"/home/user/seezlog/handler_test.go", 68⟩
        ∧ (getShortPath ⟨"/home/user/seezlog/handler_test.go", 68⟩).data.count '/' = 1)
    ∧ ((⟨"seezlog/main.go", 1⟩ : Frame).File.data.count '/' < 2
      ∧ getShortPath ⟨"seezlog/main.go", 1⟩ = "seezlog/main.go") :=
  ⟨⟨by decide, C8_short_path.1 ⟨"/home/user/seezlog/handler_test.go", 68⟩ (by decide)⟩,
    ⟨by decide, C8_short_path.2.1 ⟨"seezlog/main.go", 1⟩ (by decide)⟩⟩

/-- C9: with colors off, `appendKey` appends the quoted form of a key that
contains a rune that is not printable, a space, a double quote or an equals
sign, and appends every other key unchanged; the empty key appends nothing.
`ip address` is written `"ip address"`, `service` is written bare. -/
theorem C9_key_quoting :
    (∀ (L : Runtime) (h : Handler) (b : Buffer) (k : String), h.colors = false →
      (∃ c ∈ k.data, IsPrint L c = false ∨ c = ' ' ∨ c = Char.ofNat 0x22 ∨ c = '=') →
      h.appendKey L b k = b ++ Quote L k)
    ∧ (∀ (L : Runtime) (h : Handler) (b : Buffer) (k : String), h.colors = false →
      (∀ c ∈ k.data, IsPrint L c = true ∧ c ≠ ' ' ∧ c ≠ Char.ofNat 0x22 ∧ c ≠ '=') →
      h.appendKey L b k = b ++ k)
    ∧ (∀ (L : Runtime) (h : Handler) (b : Buffer), h.colors = false → h.appendKey L b "" = b)
    ∧ (∀ (L : Runtime) (h : Handler) (b : Buffer), h.colors = false →
      h.appendKey L b "ip address" = b ++ "\"ip address\"")
    ∧ (∀ (L : Runtime) (h : Handler) (b : Buffer), h.colors = false →
      h.appendKey L b "service" = b ++ "service") := by
  have plain : ∀ (L : Runtime) (h : Handler) (b : Buffer) (k : String), h.colors = false →
      h.appendKey L b k = b ++ plainKey L k := by
    intro L h b k hcol
    rw [appendKey_eq, keyText_eq, hcol]
    rfl
  refine ⟨?_, ?_, ?_, ?_, ?_⟩
  · intro L h b k hcol hex
    rw [plain L h b k hcol, plainKey, if_pos ((needsQuoting_iff L k).mpr hex)]
  · intro L h b k hcol hall
    have hnq : ¬ needsQuoting L k = true := by
      rw [needsQuoting_iff]
      rintro ⟨c, hc, hbad⟩
      obtain ⟨h1, h2, h3, h4⟩ := hall c hc
      rcases hbad with hbad | hbad | hbad | hbad
      · rw [h1] at hbad; exact Bool.noConfusion hbad
      · exact h2 hbad
      · exact h3 hbad
      · exact h4 hbad
    rw [plain L h b k hcol, plainKey, if_neg hnq]
  · intro L h b hcol
    rw [plain L h b "" hcol]
    show b ++ "" = b
    simp
  · intro L h b hcol
    rw [plain L h b _ hcol]
    rfl
  · intro L h b hcol
    rw [plain L h b _ hcol]
    rfl

/-- Witness of C9: a key with a space and a key without any special rune. -/
theorem C9_key_quoting_witness :
    ((NewHandler 0 false none).colors = false
      ∧ (∃ c ∈ "ip address".data,
          IsPrint sampleRuntime c = false ∨ c = ' ' ∨ c = Char.ofNat 0x22 ∨ c = '=')
      ∧ (NewHandler 0 false none).appendKey sampleRuntime "" "ip address" = "\"ip address\"")
    ∧ ((∀ c ∈ "service".data,
          IsPrint sampleRuntime c = true ∧ c ≠ ' ' ∧ c ≠ Char.ofNat 0x22 ∧ c ≠ '=')
      ∧ (NewHandler 0 false none).appendKey sampleRuntime "" "service" = "service") :=
  ⟨⟨rfl, ⟨' ', by decide, Or.inr (Or.inl rfl)⟩,
      (C9_key_quoting.1 sampleRuntime (NewHandler 0 false none) "" "ip address" rfl
        ⟨' ', by decide, Or.inr (Or.inl rfl)⟩).trans rfl⟩,
    ⟨by decide,
      (C9_key_quoting.2.1 sampleRuntime (NewHandler 0 false none) "" "service" rfl
        (by decide)).trans rfl⟩⟩

/-- C10, counterexample: the string value `value1` contains no rune that
calls for quoting, and yet it is written with quotes, not bare. -/
theorem C10_counterexample :
    needsQuoting sampleRuntime "value1" = false
    ∧ (NewHandler 0 false none).appendValue sampleRuntime 0 "" (.string "value1")
        = .ok "\"value1\""
    ∧ (NewHandler 0 false none).appendValue sampleRuntime 0 "" (.string "value1")
        ≠ .ok "value1" := by
  refine ⟨by decide, rfl, ?_⟩
  intro hbare
  have hq : (NewHandler 0 false none).appendValue sampleRuntime 0 "" (.string "value1")
      = .ok "\"value1\"" := rfl
  rw [hq] at hbare
  exact absurd (Except.ok.inj hbare) (by decide)

/-- C10, amended: a string value is always written in its quoted form,
whether or not it contains a rune that would call for quoting in a key. -/
theorem C10_string_value_quoted (L : Runtime) (h : Handler) (fuel : Nat) (b : Buffer)
    (s : String) :
    h.appendValue L fuel b (.string s) = .ok (b ++ Quote L s) := by
  simp [Handler.appendValue, Handler.appendValueWith, Value.asError, Value.isKindAny,
    AppendQuote, pure, Except.pure, Functor.map, Except.map]

/-- C11: a string value is always written as its quoted form, also when it
has no special rune and when it is empty.  The quoted form starts and ends
with a double quote, and unquoting it gives the string back.  The value
`value1` is written `"value1"`. -/
theorem C11_string_value_roundtrip :
    (∀ (L : Runtime) (h : Handler) (fuel : Nat) (b : Buffer) (s : String),
      h.appendValue L fuel b (.string s) = .ok (b ++ Quote L s))
    ∧ (∀ (L : Runtime) (s : String), ∃ body : String, Quote L s = "\"" ++ body ++ "\"")
    ∧ (∀ (L : Runtime) (s : String), Unquote (Quote L s) = some s)
    ∧ (∀ (L : Runtime) (h : Handler) (fuel : Nat) (b : Buffer),
      h.appendValue L fuel b (.string "value1") = .ok (b ++ "\"value1\""))
    ∧ (∀ (L : Runtime) (h : Handler) (fuel : Nat) (b : Buffer),
      h.appendValue L fuel b (.string "") = .ok (b ++ "\"\"")) := by
  have quoted : ∀ (L : Runtime) (h : Handler) (fuel : Nat) (b : Buffer) (s : String),
      h.appendValue L fuel b (.string s) = .ok (b ++ Quote L s) := by
    intro L h fuel b s
    simp [Handler.appendValue, Handler.appendValueWith, Value.asError, Value.isKindAny,
      AppendQuote, pure, Except.pure, Functor.map, Except.map]
  refine ⟨quoted, fun L s => ⟨_, rfl⟩, Unquote_Quote, ?_, ?_⟩
  · intro L h fuel b
    rw [quoted]; rfl
  · intro L h fuel b
    rw [quoted]; rfl

/-- C12, at the failing inputs, and on the fixture.  A map with `int` keys
makes `MapIndex` panic, and a map with interface keys is written with the
text `<interface {} Value>` for its key and `nil` for its value; the map
`{"b": 1, "a": 2}` with keys of type `string` is written with its keys in
ascending order, whichever order `MapKeys` yields. -/
theorem C12_map_keys_not_string (L : Runtime) (h : Handler) (b : Buffer) :
    h.appendReflectedValue L b (.map (.other "int") false [(.int 1, .string "x")])
      = .error .panic
    ∧ h.appendReflectedValue L b (.map .emptyInterface false [(.iface (.int 7), .int 1)])
      = .ok (b ++ "\x7b" ++ h.keyText L "<interface \x7b\x7d Value>" ++ "=nil\x7d")
    ∧ h.appendReflectedValue L b
        (.map .string false [(.string "b", .int 1), (.string "a", .int 2)])
      = .ok (b ++ "\x7b" ++ h.keyText L "a" ++ "=" ++ L.fmtSprint (.int 2) ++ ", "
          ++ h.keyText L "b" ++ "=" ++ L.fmtSprint (.int 1) ++ "\x7d")
    ∧ h.appendReflectedValue L b
        (.map .string false [(.string "a", .int 2), (.string "b", .int 1)])
      = .ok (b ++ "\x7b" ++ h.keyText L "a" ++ "=" ++ L.fmtSprint (.int 2) ++ ", "
          ++ h.keyText L "b" ++ "=" ++ L.fmtSprint (.int 1) ++ "\x7d") := by
  have hab : ("a" : String) ≤ "b" := by rw [String.le_iff_toList_le]; decide
  have hba : ¬ ("b" : String) ≤ "a" := by rw [String.le_iff_toList_le]; decide
  have hs1 : sortStrings ["b", "a"] = ["a", "b"] := by
    simp [sortStrings, List.insertionSort, List.orderedInsert, hba]
  have hs2 : sortStrings ["a", "b"] = ["a", "b"] := by
    simp [sortStrings, List.insertionSort, List.orderedInsert, hab]
  refine ⟨?_, ?_, ?_, ?_⟩
  · rfl
  · simp only [Handler.appendReflectedValue, Buffer.WriteString]
    simp [RValue.IsValid, RValue.IsZero, RValue.keyString, KeyType.typeName, sortStrings,
      Handler.appendMapKeys, Handler.appendMapIndex, KeyType.stringAssignable,
      RValue.keyMatches, appendKey_eq, bind, Except.bind, pure, Except.pure,
      Buffer.WriteString, String.append_assoc]
  · simp only [Handler.appendReflectedValue, Buffer.WriteString, List.map, RValue.keyString, hs1]
    simp [RValue.IsValid, RValue.IsZero,
      Handler.appendMapKeys, Handler.appendMapIndex, KeyType.stringAssignable,
      RValue.keyMatches, appendKey_eq, bind, Except.bind, pure, Except.pure,
      Buffer.WriteString, String.append_assoc, Handler.appendReflectedValue.eq_def]
  · simp only [Handler.appendReflectedValue, Buffer.WriteString, List.map, RValue.keyString, hs2]
    simp [RValue.IsValid, RValue.IsZero,
      Handler.appendMapKeys, Handler.appendMapIndex, KeyType.stringAssignable,
      RValue.keyMatches, appendKey_eq, bind, Except.bind, pure, Except.pure,
      Buffer.WriteString, String.append_assoc, Handler.appendReflectedValue.eq_def]

/-- C13, counterexample: a struct whose fields are all zero is written `nil`,
not as a brace-delimited list of its exported fields. -/
theorem C13_counterexample :
    (NewHandler 0 false none).appendReflectedValue sampleRuntime ""
        (.struct [("A", true, .string ""), ("B", true, .int 0), ("c", false, .bool false)])
      = .ok "nil"
    ∧ ∀ body : String,
      (NewHandler 0 false none).appendReflectedValue sampleRuntime ""
          (.struct [("A", true, .string ""), ("B", true, .int 0), ("c", false, .bool false)])
        ≠ .ok ("\x7b" ++ body ++ "\x7d") := by
  refine ⟨rfl, ?_⟩
  intro body hbody
  have hnil : (NewHandler 0 false none).appendReflectedValue sampleRuntime ""
      (.struct [("A", true, .string ""), ("B", true, .int 0), ("c", false, .bool false)])
      = .ok "nil" := rfl
  rw [hnil] at hbody
  have hdata := congrArg String.data (Except.ok.inj hbody)
  simp at hdata

/-- C13, amended: a struct that `IsZero` does not report as zero is written
as an opening brace, then for every exported field and for no other, in
declaration order, the key text of its name, `=` and the text of its value,
joined by a comma and a space, then a closing brace.  A struct with fields
`A`, `B` and the unexported `c` is written `{A=..., B=...}`.  A struct that
`IsZero` reports as zero is written `nil`: one whose fields other than `_`
are all zero, negative floating-point zero included. -/
theorem C13_struct_fields :
    (∀ (L : Runtime) (h : Handler) (b : Buffer) (fields : List (String × Bool × RValue)),
      (RValue.struct fields).IsZero = false →
      h.appendReflectedValue L b (.struct fields)
        = Except.map (fun rs => b ++ "\x7b" ++ ", ".intercalate rs ++ "\x7d")
            (collect (h.fieldText L) (fields.filter (fun f => f.2.1))))
    ∧ (∀ (L : Runtime) (h : Handler) (b : Buffer), h.colors = false →
      h.appendReflectedValue L b
          (.struct [("A", true, .string "x"), ("B", true, .int 1), ("c", false, .bool true)])
        = .ok (b ++ "\x7bA=" ++ L.fmtSprint (.string "x") ++ ", B=" ++ L.fmtSprint (.int 1)
            ++ "\x7d"))
    ∧ (∀ (L : Runtime) (h : Handler) (b : Buffer) (fields : List (String × Bool × RValue)),
      (RValue.struct fields).IsZero = true →
      h.appendReflectedValue L b (.struct fields) = .ok (b ++ "nil"))
    ∧ ((RValue.struct [("F", true, .float 0x8000000000000000)]).IsZero = true
      ∧ (RValue.struct [("_", false, .int 5), ("A", true, .int 0)]).IsZero = true
      ∧ (RValue.struct [("F", true, .float 0x3ff0000000000000)]).IsZero = false) := by
  have general : ∀ (L : Runtime) (h : Handler) (b : Buffer)
      (fields : List (String × Bool × RValue)),
      (RValue.struct fields).IsZero = false →
      h.appendReflectedValue L b (.struct fields)
        = Except.map (fun rs => b ++ "\x7b" ++ ", ".intercalate rs ++ "\x7d")
            (collect (h.fieldText L) (fields.filter (fun f => f.2.1))) := by
    intro L h b fields hz
    simp only [Handler.appendReflectedValue, RValue.IsValid, hz, Buffer.WriteString]
    simp only [Bool.not_true, Bool.or_false, Bool.false_eq_true, if_false]
    rw [appendFields_zero]
    cases collect (h.fieldText L) (fields.filter (fun f => f.2.1)) with
    | error e => rfl
    | ok rs => simp [Except.map, bind, Except.bind, pure, Except.pure]
  refine ⟨general, ?_, ?_, ⟨rfl, rfl, rfl⟩⟩
  swap
  · intro L h b fields hz
    exact appendReflectedValue_nil L h b _ (by simp [hz])
  intro L h b hcol
  rw [general L h b
    [("A", true, .string "x"), ("B", true, .int 1), ("c", false, .bool true)] rfl]
  have hA : h.keyText L "A" = "A" := by rw [keyText_eq, hcol]; rfl
  have hB : h.keyText L "B" = "B" := by rw [keyText_eq, hcol]; rfl
  have htexts : collect (h.fieldText L)
      ([("A", true, RValue.string "x"), ("B", true, .int 1), ("c", false, .bool true)].filter
        (fun f => f.2.1))
      = .ok ["A=" ++ L.fmtSprint (.string "x"), "B=" ++ L.fmtSprint (.int 1)] := by
    simp [collect, Handler.fieldText, hA, hB, Except.map, bind, Except.bind,
      pure, Except.pure, Handler.appendReflectedValue.eq_def, RValue.IsValid, RValue.IsZero]
  rw [htexts]
  simp only [Except.map, String.intercalate, String.intercalate.go, String.append_assoc]
  congr 2

/-- Witness of C13 on a struct with one zero field among its exported
fields, on the fixture with colors off, and on a struct whose only field is
negative zero. -/
theorem C13_struct_fields_witness :
    (RValue.struct [("A", true, .string "x"), ("c", false, .bool true), ("B", true, .int 0)]).IsZero
        = false
    ∧ (NewHandler 0 false none).appendReflectedValue sampleRuntime ""
          (.struct [("A", true, .string "x"), ("c", false, .bool true), ("B", true, .int 0)])
        = .ok "\x7bA=x, B=nil\x7d"
    ∧ (NewHandler 0 false none).colors = false
    ∧ (NewHandler 0 false none).appendReflectedValue sampleRuntime ""
          (.struct [("A", true, .string "x"), ("B", true, .int 1), ("c", false, .bool true)])
        = .ok "\x7bA=x, B=1\x7d"
    ∧ (RValue.struct [("F", true, .float 0x8000000000000000)]).IsZero = true
    ∧ (NewHandler 0 false none).appendReflectedValue sampleRuntime ""
          (.struct [("F", true, .float 0x8000000000000000)]) = .ok "nil" :=
  ⟨rfl,
    (C13_struct_fields.1 sampleRuntime (NewHandler 0 false none) ""
      [("A", true, .string "x"), ("c", false, .bool true), ("B", true, .int 0)] rfl).trans rfl,
    rfl,
    (C13_struct_fields.2.1 sampleRuntime (NewHandler 0 false none) "" rfl).trans rfl,
    rfl,
    (C13_struct_fields.2.2.1 sampleRuntime (NewHandler 0 false none) ""
      [("F", true, .float 0x8000000000000000)] rfl).trans rfl⟩

/-- C14, at the failing inputs: a payload that is a map with `int` keys makes
`appendReflectedValue`, `appendValue` and `Handle` end in the panic of
`MapIndex`; and for a value of kind `LogValuer` that is no error,
`appendValue` returns the buffer as it was, without any text. -/
theorem C14_map_index_panics (L : Runtime) (h : Handler) (fuel : Nat) (b : Buffer) (r : Record) :
    h.appendReflectedValue L b (.map (.other "int") false [(.int 1, .string "x")])
      = .error .panic
    ∧ h.appendValue L fuel b (.any ⟨none, .map (.other "int") false [(.int 1, .string "x")]⟩)
      = .error .panic
    ∧ (NewHandler 0 false none).Handle L (fuel + 1)
        { r with attrs := [.mk "m" (.any ⟨none, .map (.other "int") false [(.int 1, .string "x")]⟩)] }
      = .error .panic
    ∧ (∀ rv : RValue, h.appendValue L fuel b (.logValuer ⟨none, rv⟩) = .ok b) := by
  refine ⟨rfl, rfl, ?_, ?_⟩
  · rw [Handle_eq]
    rfl
  · intro rv
    simp [Handler.appendValue, Handler.appendValueWith, Value.asError, Value.isKindAny,
      pure, Except.pure, Functor.map, Except.map]

/-- C15: `WithAttrs` returns a handler whose attributes are the receiver's
followed by the new ones and whose groups, options, color flag and sink are
the receiver's.  In memory, where the sequences are slices over backing
arrays with spare capacity, the call allocates a new struct that denotes this
handler, and the receiver and every other handler denote afterwards what they
denoted before, also after a later `WithGroup` on the receiver; the slices
stay valid, so the property holds along every chain of derivations. -/
theorem C15_with_attrs_frame (grow : Nat → Nat) (m : Mem) (p : Nat) (h : Handler)
    (as : List Attr) (hwf : m.WF) (hv : m.view p = some h) :
    ((h.WithAttrs as).attrs = h.attrs ++ as ∧ (h.WithAttrs as).groups = h.groups
      ∧ (h.WithAttrs as).opts = h.opts ∧ (h.WithAttrs as).colors = h.colors
      ∧ (h.WithAttrs as).w = h.w)
    ∧ ∃ m1, m.WithAttrs grow p as = some (m1, m.handlers.length)
      ∧ m1.view m.handlers.length = some (h.WithAttrs as)
      ∧ m1.view p = some h
      ∧ (∀ q hq, m.view q = some hq → m1.view q = some hq)
      ∧ m1.WF
      ∧ ∀ g, ∃ m2, m1.WithGroup grow p g = some (m2, m.handlers.length + 1)
          ∧ m2.view m.handlers.length = some (h.WithAttrs as)
          ∧ m2.view (m.handlers.length + 1) = some (h.WithGroup g)
          ∧ m2.view p = some h := by
  refine ⟨⟨rfl, rfl, rfl, rfl, rfl⟩, ?_⟩
  obtain ⟨m1, h1, hlen, hnew, hframe, hwf1⟩ := Mem.WithAttrs_spec grow m p h as hwf hv
  refine ⟨m1, h1, hnew, hframe p h hv, hframe, hwf1, fun g => ?_⟩
  obtain ⟨m2, h2, _, hnew2, hframe2, _⟩ :=
    Mem.WithGroup_spec grow m1 p h g hwf1 (hframe p h hv)
  rw [hlen] at h2 hnew2
  exact ⟨m2, h2, hframe2 _ _ hnew, hnew2, hframe2 p h (hframe p h hv)⟩

/-- Witness of C15: a handler whose slices have spare capacity gains an
attribute; the new struct denotes the extended handler and the receiver is
as before. -/
theorem C15_with_attrs_frame_witness :
    spareMem.WF ∧ spareMem.view 0 = some spareHandler
    ∧ ∃ m1, spareMem.WithAttrs (fun n => n) 0 [.mk "b" (.int64 2)] = some (m1, 1)
      ∧ m1.view 1 = some (spareHandler.WithAttrs [.mk "b" (.int64 2)])
      ∧ m1.view 0 = some spareHandler :=
  ⟨spareMem_WF, rfl,
    let ⟨m1, h1, h2, h3, _⟩ :=
      (C15_with_attrs_frame (fun n => n) spareMem 0 spareHandler [.mk "b" (.int64 2)]
        spareMem_WF rfl).2
    ⟨m1, h1, h2, h3⟩⟩

/-- C16: `WithGroup` returns a handler whose open groups are the receiver's
followed by the new name and whose attributes, options, color flag and sink
are the receiver's.  In memory, where the sequences are slices over backing
arrays with spare capacity, the call allocates a new struct that denotes this
handler, and the receiver and every other handler denote afterwards what they
denoted before; the slices stay valid.  After a second `WithGroup` on the
same receiver with another name, the first sibling still denotes the
receiver's groups followed by its own name, the second the receiver's groups
followed by the second name, so neither holds the name of the other. -/
theorem C16_with_group_frame (grow : Nat → Nat) (m : Mem) (p : Nat) (h : Handler)
    (g g2 : String) (hwf : m.WF) (hv : m.view p = some h) :
    ((h.WithGroup g).groups = h.groups ++ [g] ∧ (h.WithGroup g).attrs = h.attrs
      ∧ (h.WithGroup g).opts = h.opts ∧ (h.WithGroup g).colors = h.colors
      ∧ (h.WithGroup g).w = h.w)
    ∧ (∃ m1, m.WithGroup grow p g = some (m1, m.handlers.length)
      ∧ m1.view m.handlers.length = some (h.WithGroup g)
      ∧ m1.view p = some h
      ∧ (∀ q hq, m.view q = some hq → m1.view q = some hq)
      ∧ m1.WF
      ∧ ∃ m2, m1.WithGroup grow p g2 = some (m2, m.handlers.length + 1)
          ∧ m2.view m.handlers.length = some (h.WithGroup g)
          ∧ m2.view (m.handlers.length + 1) = some (h.WithGroup g2)
          ∧ m2.view p = some h)
    ∧ (g2 ≠ g → g2 ∉ h.groups → g2 ∉ (h.WithGroup g).groups)
    ∧ (g ≠ g2 → g ∉ h.groups → g ∉ (h.WithGroup g2).groups) := by
  refine ⟨⟨rfl, rfl, rfl, rfl, rfl⟩, ?_, ?_, ?_⟩
  · obtain ⟨m1, h1, hlen, hnew, hframe, hwf1⟩ := Mem.WithGroup_spec grow m p h g hwf hv
    refine ⟨m1, h1, hnew, hframe p h hv, hframe, hwf1, ?_⟩
    obtain ⟨m2, h2, _, hnew2, hframe2, _⟩ :=
      Mem.WithGroup_spec grow m1 p h g2 hwf1 (hframe p h hv)
    rw [hlen] at h2 hnew2
    exact ⟨m2, h2, hframe2 _ _ hnew, hnew2, hframe2 p h (hframe p h hv)⟩
  · intro hne hnot hmem
    have hmem2 : g2 ∈ h.groups ++ [g] := hmem
    rw [List.mem_append, List.mem_singleton] at hmem2
    rcases hmem2 with h1 | h1
    · exact hnot h1
    · exact hne h1
  · intro hne hnot hmem
    have hmem2 : g ∈ h.groups ++ [g2] := hmem
    rw [List.mem_append, List.mem_singleton] at hmem2
    rcases hmem2 with h1 | h1
    · exact hnot h1
    · exact hne h1

/-- Witness of C16: two siblings derived from a handler whose slices have
spare capacity, with the names `db` and `web`. -/
theorem C16_with_group_frame_witness :
    spareMem.WF ∧ spareMem.view 0 = some spareHandler
    ∧ ∃ m1, spareMem.WithGroup (fun n => n) 0 "db" = some (m1, 1)
      ∧ m1.view 1 = some (spareHandler.WithGroup "db")
      ∧ m1.view 0 = some spareHandler
      ∧ ∃ m2, m1.WithGroup (fun n => n) 0 "web" = some (m2, 2)
        ∧ m2.view 1 = some (spareHandler.WithGroup "db")
        ∧ m2.view 2 = some (spareHandler.WithGroup "web") :=
  ⟨spareMem_WF, rfl,
    let ⟨m1, h1, h2, h3, _, _, m2, h4, h5, h6, _⟩ :=
      (C16_with_group_frame (fun n => n) spareMem 0 spareHandler "db" "web"
        spareMem_WF rfl).2.1
    ⟨m1, h1, h2, h3, m2, h4, h5, h6⟩⟩

/-- C17: `Enabled` answers whether the level is at least the configured
minimum, which is `Info` when the options carry no level, in particular for a
handler built with nil options; a handler derived by `WithAttrs` or
`WithGroup` answers as its parent does. -/
theorem C17_enabled_threshold :
    (∀ (h : Handler) (l level : Int), h.opts.Level = some l →
      (h.Enabled level = true ↔ level ≥ l))
    ∧ (∀ (h : Handler) (level : Int), h.opts.Level = none →
      (h.Enabled level = true ↔ level ≥ LevelInfo))
    ∧ (∀ (w : Nat) (colors : Bool) (level : Int),
      (NewHandler w colors none).Enabled level = true ↔ level ≥ LevelInfo)
    ∧ (∀ (h : Handler) (as : List Attr) (level : Int),
      (h.WithAttrs as).Enabled level = h.Enabled level)
    ∧ (∀ (h : Handler) (g : String) (level : Int),
      (h.WithGroup g).Enabled level = h.Enabled level) := by
  refine ⟨?_, ?_, ?_, fun _ _ _ => rfl, fun _ _ _ => rfl⟩
  · intro h l level hl
    simp [Handler.Enabled, hl]
  · intro h level hl
    simp [Handler.Enabled, hl]
  · intro w colors level
    simp [Handler.Enabled, NewHandler]

/-- Witness of C17: minimum `Warn` configured, and no level configured. -/
theorem C17_enabled_threshold_witness :
    ((NewHandler 0 false (some ⟨false, some LevelWarn, none⟩)).opts.Level = some LevelWarn
      ∧ ((NewHandler 0 false (some ⟨false, some LevelWarn, none⟩)).Enabled LevelError = true
          ↔ LevelError ≥ LevelWarn))
    ∧ ((NewHandler 0 false (some ⟨true, none, none⟩)).opts.Level = none
      ∧ ((NewHandler 0 false (some ⟨true, none, none⟩)).Enabled LevelDebug = true
          ↔ LevelDebug ≥ LevelInfo)) :=
  ⟨⟨rfl, C17_enabled_threshold.1 _ LevelWarn LevelError rfl⟩,
    ⟨rfl, C17_enabled_threshold.2.1 _ LevelDebug rfl⟩⟩

/-- C18 (the code departs from the claim): a handler derived by `WithAttrs`
is a new struct with a mutex of its own, while it writes to the sink of the
root.  With the root `NewHandler(w, false, nil)` and the handler derived from
it by `WithAttrs(k=1)`, a `Handle` call on each can hold its lock at the same
time, and under the schedule in which the derived call writes its whole line
after the first five bytes of the root call, the sink receives the line of
the derived handler in the middle of the line of the root. -/
theorem C18_derived_lock_not_shared :
    ∃ m1 a b,
      (rootMem 0 false none).WithAttrs (fun n => n) 0 [.mk "k" (.int64 1)] = some (m1, 1)
      ∧ m1.handleCall sampleRuntime 0 1 ⟨⟨0⟩, "a", LevelInfo, 0, []⟩ = some a
      ∧ m1.handleCall sampleRuntime 1 1 ⟨⟨0⟩, "b", LevelInfo, 0, []⟩ = some b
      ∧ a.w = b.w ∧ a.mu ≠ b.mu
      ∧ (Race.run ⟨[], [], a, b⟩ [false, true, false, true]).held = [b.mu, a.mu]
      ∧ (Race.run ⟨[], [], a, b⟩ [false, true, false, true]).a.writing = true
      ∧ (Race.run ⟨[], [], a, b⟩ [false, true, false, true]).b.writing = true
      ∧ (Race.run ⟨[], [], a, b⟩ ([false, true] ++ List.replicate 5 false
            ++ List.replicate 39 true ++ List.replicate 28 false)).sinkText 0
          = "2024-" ++ "2024-05-06 07:08:09.000  INFO b \x7bk=1\x7d\n"
              ++ "05-06 07:08:09.000  INFO a\n"
      ∧ (Race.run ⟨[], [], a, b⟩ ([false, true] ++ List.replicate 5 false
            ++ List.replicate 39 true ++ List.replicate 28 false)).a.phase = .done
      ∧ (Race.run ⟨[], [], a, b⟩ ([false, true] ++ List.replicate 5 false
            ++ List.replicate 39 true ++ List.replicate 28 false)).b.phase = .done :=
  ⟨_, _, _, rfl, rfl, rfl, rfl, by decide, rfl, rfl, rfl, by decide, rfl, rfl⟩

/-- C19: on the introspection path a value that is invalid or the zero value
of its type is written as `nil` and nothing else.  That covers nil pointers,
nil maps and nil slices, and also the integer 0, `false`, the empty string,
negative floating-point zero and a struct whose fields other than `_` are all
zero, wherever they stand: as pointer target, slice element, struct field or
map value.  The loops over elements, map keys and struct fields are given in
closed form, each item rendered by the same routine, so a zero item reads
`nil` inside the brackets or braces.  A non-nil pointer to 0 is written `nil`,
the slice `[0, 1]` is written `[nil, 1]`, and the map `{"b": 1, "a": 0}` is
written `{a=nil, b=1}`. -/
theorem C19_zero_is_nil :
    (∀ (L : Runtime) (h : Handler) (b : Buffer) (v : RValue),
      v.IsValid = false ∨ v.IsZero = true →
      h.appendReflectedValue L b v = .ok (b ++ "nil"))
    ∧ (RValue.nilPtr.IsZero = true ∧ (∀ kt, (RValue.map kt true []).IsZero = true)
      ∧ (RValue.slice true []).IsZero = true ∧ (RValue.int 0).IsZero = true
      ∧ (RValue.bool false).IsZero = true ∧ (RValue.string "").IsZero = true
      ∧ (RValue.struct [("A", true, .string ""), ("B", true, .int 0), ("c", false, .bool false)]).IsZero
          = true)
    ∧ (∀ (L : Runtime) (h : Handler) (b : Buffer) (v : RValue), v.IsZero = true →
      h.appendReflectedValue L b (.ptr v) = .ok (b ++ "nil"))
    ∧ (∀ (L : Runtime) (h : Handler) (b : Buffer) (i : Nat) (v : RValue) (rest : List RValue),
      v.IsZero = true →
      h.appendElems L i b (v :: rest)
        = h.appendElems L (i + 1) ((if i > 0 then b ++ ", " else b) ++ "nil") rest)
    ∧ (∀ (L : Runtime) (h : Handler) (b : Buffer) (count : Nat) (name : String) (v : RValue)
        (rest : List (String × Bool × RValue)), v.IsZero = true →
      h.appendFields L count b ((name, true, v) :: rest)
        = h.appendFields L (count + 1)
            ((if count > 0 then b ++ ", " else b) ++ h.keyText L name ++ "=" ++ "nil") rest)
    ∧ (∀ (L : Runtime) (h : Handler) (b : Buffer) (k : String) (v : RValue)
        (rest : List (RValue × RValue)), v.IsZero = true →
      h.appendMapIndex L .string b k ((.string k, v) :: rest) = .ok (b ++ "nil"))
    ∧ (∀ (L : Runtime) (h : Handler) (b : Buffer),
      h.appendReflectedValue L b (.ptr (.int 0)) = .ok (b ++ "nil"))
    ∧ (∀ (L : Runtime) (h : Handler) (b : Buffer),
      h.appendReflectedValue L b (.slice false [.int 0, .int 1])
        = .ok (b ++ "[nil, " ++ L.fmtSprint (.int 1) ++ "]"))
    ∧ ((RValue.float 0x8000000000000000).IsZero = true
      ∧ (RValue.complex 0x8000000000000000 0).IsZero = true
      ∧ (RValue.struct [("F", true, .float 0x8000000000000000)]).IsZero = true
      ∧ (RValue.array [.float 0x8000000000000000, .float 0]).IsZero = true
      ∧ (RValue.struct [("_", false, .int 5), ("A", true, .int 0)]).IsZero = true)
    ∧ (∀ (L : Runtime) (h : Handler) (b : Buffer) (elems : List RValue),
      h.appendReflectedValue L b (.slice false elems)
        = Except.map (fun rs => b ++ "[" ++ ", ".intercalate rs ++ "]")
            (collect (h.appendReflectedValue L "") elems))
    ∧ (∀ (L : Runtime) (h : Handler) (b : Buffer) (elems : List RValue),
      (RValue.array elems).IsZero = false →
      h.appendReflectedValue L b (.array elems)
        = Except.map (fun rs => b ++ "[" ++ ", ".intercalate rs ++ "]")
            (collect (h.appendReflectedValue L "") elems))
    ∧ (∀ (L : Runtime) (h : Handler) (b : Buffer) (kt : KeyType)
        (entries : List (RValue × RValue)),
      h.appendReflectedValue L b (.map kt false entries)
        = Except.map (fun rs => b ++ "\x7b" ++ ", ".intercalate rs ++ "\x7d")
            (collect (h.entryText L kt entries)
              (sortStrings (entries.map (fun e => e.1.keyString kt)))))
    ∧ (∀ (L : Runtime) (h : Handler) (k : String) (v : RValue)
        (pre post : List (RValue × RValue)),
      v.IsValid = false ∨ v.IsZero = true →
      (∀ e ∈ pre, RValue.keyMatches .string e.1 k = false) →
      h.entryText L .string (pre ++ (.string k, v) :: post) k
        = .ok (h.keyText L k ++ "=nil"))
    ∧ (∀ (L : Runtime) (h : Handler) (b : Buffer) (fields : List (String × Bool × RValue)),
      (RValue.struct fields).IsZero = false →
      h.appendReflectedValue L b (.struct fields)
        = Except.map (fun rs => b ++ "\x7b" ++ ", ".intercalate rs ++ "\x7d")
            (collect (h.fieldText L) (fields.filter (fun f => f.2.1))))
    ∧ (∀ (L : Runtime) (h : Handler) (name : String) (exported : Bool) (v : RValue),
      v.IsValid = false ∨ v.IsZero = true →
      h.fieldText L (name, exported, v) = .ok (h.keyText L name ++ "=nil"))
    ∧ (∀ (L : Runtime) (h : Handler) (b : Buffer),
      h.appendReflectedValue L b
          (.map .string false [(.string "b", .int 1), (.string "a", .int 0)])
        = .ok (b ++ "\x7b" ++ h.keyText L "a" ++ "=" ++ "nil" ++ ", "
            ++ h.keyText L "b" ++ "=" ++ L.fmtSprint (.int 1) ++ "\x7d")) := by
  have zero : ∀ (L : Runtime) (h : Handler) (b : Buffer) (v : RValue),
      v.IsValid = false ∨ v.IsZero = true →
      h.appendReflectedValue L b v = .ok (b ++ "nil") := by
    intro L h b v hv
    apply appendReflectedValue_nil
    rcases hv with hv | hv <;> simp [hv]
  refine ⟨zero, ⟨rfl, fun _ => rfl, rfl, rfl, rfl, rfl, rfl⟩, ?_, ?_, ?_, ?_, ?_, ?_,
    ⟨rfl, rfl, rfl, rfl, rfl⟩, ?_, ?_, appendReflectedValue_map, ?_, ?_, ?_, ?_⟩
  · intro L h b v hv
    rw [appendReflectedValue_ptr, zero L h b v (Or.inr hv)]
  · intro L h b i v rest hv
    rw [Handler.appendElems]
    simp only [Buffer.WriteString]
    rw [zero L h _ v (Or.inr hv)]
    rfl
  · intro L h b count name v rest hv
    rw [Handler.appendFields]
    simp only [Buffer.WriteString, appendKey_eq, if_true]
    rw [zero L h _ v (Or.inr hv)]
    rfl
  · intro L h b k v rest hv
    rw [Handler.appendMapIndex]
    simp [KeyType.stringAssignable, RValue.keyMatches, zero L h b v (Or.inr hv)]
  · intro L h b
    rw [appendReflectedValue_ptr, zero L h b (.int 0) (Or.inr rfl)]
  · intro L h b
    simp only [Handler.appendReflectedValue, Handler.appendElems, Buffer.WriteString]
    simp [RValue.IsValid, RValue.IsZero, bind, Except.bind, pure, Except.pure, String.append_assoc]
  · intro L h b elems
    simp only [Handler.appendReflectedValue, RValue.IsValid, RValue.IsZero, Buffer.WriteString]
    simp only [Bool.not_true, Bool.or_false, Bool.false_eq_true, if_false]
    rw [appendElems_zero]
    cases collect (h.appendReflectedValue L "") elems with
    | error e => rfl
    | ok rs => simp [Except.map, bind, Except.bind, pure, Except.pure, String.append_assoc]
  · intro L h b elems hz
    simp only [Handler.appendReflectedValue, RValue.IsValid, hz, Buffer.WriteString]
    simp only [Bool.not_true, Bool.or_false, Bool.false_eq_true, if_false]
    rw [appendElems_zero]
    cases collect (h.appendReflectedValue L "") elems with
    | error e => rfl
    | ok rs => simp [Except.map, bind, Except.bind, pure, Except.pure, String.append_assoc]
  · intro L h k v pre post hv hpre
    unfold Handler.entryText
    rw [appendMapIndex_found L h "" k v hv post pre hpre]
    show Except.ok (_ ++ "=" ++ ("" ++ "nil")) = Except.ok _
    rw [String.empty_append, String.append_assoc]
    rfl
  · intro L h b fields hz
    simp only [Handler.appendReflectedValue, RValue.IsValid, hz, Buffer.WriteString]
    simp only [Bool.not_true, Bool.or_false, Bool.false_eq_true, if_false]
    rw [appendFields_zero]
    cases collect (h.fieldText L) (fields.filter (fun f => f.2.1)) with
    | error e => rfl
    | ok rs => simp [Except.map, bind, Except.bind, pure, Except.pure]
  · intro L h name exported v hv
    unfold Handler.fieldText
    rw [zero L h "" v hv]
    show Except.ok (_ ++ "=" ++ ("" ++ "nil")) = Except.ok _
    rw [String.empty_append, String.append_assoc]
    rfl
  · intro L h b
    have hab : ("a" : String) ≤ "b" := by rw [String.le_iff_toList_le]; decide
    have hba : ¬ ("b" : String) ≤ "a" := by rw [String.le_iff_toList_le]; decide
    have hs1 : sortStrings ["b", "a"] = ["a", "b"] := by
      simp [sortStrings, List.insertionSort, List.orderedInsert, hba]
    rw [appendReflectedValue_map]
    simp only [List.map, RValue.keyString, hs1]
    simp [collect, Handler.entryText, Handler.appendMapIndex, KeyType.stringAssignable,
      RValue.keyMatches, Except.map, bind, Except.bind, pure, Except.pure,
      Handler.appendReflectedValue.eq_def, RValue.IsValid, RValue.IsZero,
      String.intercalate, String.intercalate.go, String.append_assoc, Buffer.WriteString]

/-- Witness of C19 on a nil map, on negative zero behind a pointer, on a zero
map value behind another entry, and on a zero field of a struct. -/
theorem C19_zero_is_nil_witness :
    ((RValue.map .string true []).IsValid = false ∨ (RValue.map .string true []).IsZero = true)
    ∧ (NewHandler 0 false none).appendReflectedValue sampleRuntime "m=" (.map .string true [])
        = .ok "m=nil"
    ∧ (RValue.float 0x8000000000000000).IsZero = true
    ∧ (NewHandler 0 false none).appendReflectedValue sampleRuntime ""
          (.ptr (.float 0x8000000000000000)) = .ok "nil"
    ∧ (NewHandler 0 false none).entryText sampleRuntime .string
          ([(.string "b", .int 1)] ++ (.string "a", .int 0) :: []) "a" = .ok "a=nil"
    ∧ (RValue.struct [("A", true, .string "x"), ("B", true, .int 0)]).IsZero = false
    ∧ (NewHandler 0 false none).appendReflectedValue sampleRuntime ""
          (.struct [("A", true, .string "x"), ("B", true, .int 0)])
        = .ok "\x7bA=x, B=nil\x7d"
    ∧ (NewHandler 0 false none).appendReflectedValue sampleRuntime ""
          (.struct [("F", true, .float 0x8000000000000000), ("_", false, .int 5)])
        = .ok "nil" :=
  ⟨Or.inr rfl,
    (C19_zero_is_nil.1 sampleRuntime (NewHandler 0 false none) "m=" (.map .string true [])
      (Or.inr rfl)).trans rfl,
    rfl,
    (C19_zero_is_nil.2.2.1 sampleRuntime (NewHandler 0 false none) ""
      (.float 0x8000000000000000) rfl).trans rfl,
    (C19_zero_is_nil.2.2.2.2.2.2.2.2.2.2.2.2.1 sampleRuntime (NewHandler 0 false none) "a"
      (.int 0) [(.string "b", .int 1)] [] (Or.inr rfl) (by decide)).trans rfl,
    rfl,
    (C19_zero_is_nil.2.2.2.2.2.2.2.2.2.2.2.2.2.1 sampleRuntime (NewHandler 0 false none) ""
      [("A", true, .string "x"), ("B", true, .int 0)] rfl).trans rfl,
    (C19_zero_is_nil.1 sampleRuntime (NewHandler 0 false none) ""
      (.struct [("F", true, .float 0x8000000000000000), ("_", false, .int 5)])
      (Or.inr rfl)).trans rfl⟩

/-- C20: the line written with colors on is the line written with colors off
with spans tinted: some pieces of the plain line are wrapped, one after the
other, between a color code in front and the reset code behind, and nothing
else differs; a rendering that fails, fails alike in both modes.  With colors
off the five places that consult the color flag (time stamp, level, source,
keys, error values) write their text and no code.  The fixture of `TestHandler`
with colors on has the time stamp and the keys in bright black and the level
in blue, each span closed by the reset code.  Every line `Handle` builds is
marked: with colors off it consists of texts without the escape character
(with which every code begins) and of foreign texts, the message and what the
runtime formats, so the handler itself puts no code into it; with colors on
it consists of these and of closed spans, a color code, a text free of codes
of the handler, and the reset code.  Hence with colors off, when the message
and the runtime texts hold no escape character, the line holds none. -/
theorem C20_color_adds_spans :
    (∀ (L : Runtime) (h : Handler) (fuel : Nat) (r : Record),
      TintedResult ((h.withColors true).Handle L fuel r) ((h.withColors false).Handle L fuel r))
    ∧ (∀ (L : Runtime) (h : Handler) (r : Record) (b : Buffer) (k : String) (fuel : Nat)
        (p : Payload) (m : String), h.colors = false →
      h.writeTime L r b = b ++ L.timeFormat r.Time "2006-01-02 15:04:05.000" ++ " "
      ∧ h.writeLevel r b = b ++ levelText r ++ " "
      ∧ h.writeSource L r b
          = (if (h.opts.AddSource && r.PC != 0) = true then
              (if ((L.callersFrame r.PC).File != "") = true then b ++ sourceText L r ++ " "
                else b)
            else b)
      ∧ h.appendKey L b k = b ++ plainKey L k
      ∧ (p.err = some m → h.appendValue L fuel b (.any p) = .ok (b ++ Quote L m)))
    ∧ (∀ (L : Runtime) (w : Nat) (t : Time) (pc fuel : Nat),
      (NewHandler w true none).Handle L (fuel + 1) (testRecord t pc)
        = .ok ("\x1b[90m" ++ L.timeFormat t "2006-01-02 15:04:05.000" ++ "\x1b[0m"
            ++ " \x1b[34m INFO\x1b[0m test message "
            ++ "\x7b\x1b[90mkey1\x1b[0m=\"value1\", \x1b[90mkey2\x1b[0m=123\x7d\n"))
    ∧ (∀ (L : Runtime) (h : Handler) (fuel : Nat) (r : Record),
      MarkedResult L r h.colors (h.Handle L fuel r))
    ∧ (∀ (L : Runtime) (h : Handler) (fuel : Nat) (r : Record) (line : String),
      h.colors = false → (∀ t, Foreign L r t → EscFree t) →
      h.Handle L fuel r = .ok line → EscFree line) := by
  refine ⟨tinted_Handle, ?_, ?_, marked_Handle, ?_⟩
  rotate_left 2
  · intro L h fuel r line hcol hL hline
    have hm := marked_Handle L h fuel r
    rw [hline, hcol] at hm
    exact marked_escFree hL hm rfl
  · intro L h r b k fuel p m hcol
    refine ⟨?_, ?_, ?_, ?_, ?_⟩
    · rw [writeTime_eq, hcol]; rfl
    · rw [writeLevel_eq, hcol]; rfl
    · rw [writeSource_eq, hcol]; rfl
    · rw [appendKey_eq, keyText_eq, hcol]; rfl
    · intro hp
      rw [appendValue_error L h fuel b p m hp, hcol]; rfl
  · intro L w t pc fuel
    rw [Handle_eq]
    have hhead : (NewHandler w true none).headerText L (testRecord t pc)
        = "\x1b[90m" ++ L.timeFormat t "2006-01-02 15:04:05.000" ++ "\x1b[0m"
          ++ " \x1b[34m INFO\x1b[0m " := by
      unfold Handler.headerText
      rw [writeSource_eq, writeLevel_eq, writeTime_eq]
      simp only [show ((NewHandler w true none).opts.AddSource && (testRecord t pc).PC != 0)
          = false from rfl, show (NewHandler w true none).colors = true from rfl,
        show levelToColor (testRecord t pc).Level = "\x1b[34m" from rfl,
        show levelText (testRecord t pc) = " INFO" from rfl,
        show (testRecord t pc).Time = t from rfl,
        Bool.false_eq_true, if_false, if_true, String.append_assoc, String.empty_append]
      rfl
    have htexts : collect ((NewHandler w true none).attrText L (fuel + 1))
        ((NewHandler w true none).attrs ++ (testRecord t pc).attrs)
        = .ok ["\x1b[90mkey1\x1b[0m=\"value1\"", "\x1b[90mkey2\x1b[0m=123"] := rfl
    rw [htexts, hhead]
    simp only [Except.map, String.append_assoc]
    rfl

/-- Witness of C20: the plain-mode facts on the fixture of `TestHandler`, its
two lines side by side, and a line with a boolean attribute written without
colors under a runtime whose texts hold no escape character. -/
theorem C20_color_adds_spans_witness :
    (NewHandler 0 false none).colors = false
    ∧ (NewHandler 0 false none).appendKey sampleRuntime "" "key1" = "key1"
    ∧ (NewHandler 0 true none).Handle sampleRuntime 1 (testRecord ⟨0⟩ 0)
        = .ok ("\x1b[90m2024-05-06 07:08:09.000\x1b[0m \x1b[34m INFO\x1b[0m test message "
            ++ "\x7b\x1b[90mkey1\x1b[0m=\"value1\", \x1b[90mkey2\x1b[0m=123\x7d\n")
    ∧ (NewHandler 0 false none).Handle sampleRuntime 1 (testRecord ⟨0⟩ 0)
        = .ok "2024-05-06 07:08:09.000  INFO test message \x7bkey1=\"value1\", key2=123\x7d\n"
    ∧ (NewHandler 0 false none).Handle quietRuntime 1 ⟨⟨0⟩, "m", LevelInfo, 0, [.mk "ok" (.bool true)]⟩
        = .ok "2024-05-06 07:08:09.000  INFO m \x7bok=true\x7d\n"
    ∧ EscFree "2024-05-06 07:08:09.000  INFO m \x7bok=true\x7d\n" :=
  ⟨rfl,
    ((C20_color_adds_spans.2.1 sampleRuntime (NewHandler 0 false none) (testRecord ⟨0⟩ 0) ""
      "key1" 0 ⟨none, .invalid⟩ "" rfl).2.2.2.1).trans rfl,
    rfl, rfl, rfl,
    C20_color_adds_spans.2.2.2.2 quietRuntime (NewHandler 0 false none) 1
      ⟨⟨0⟩, "m", LevelInfo, 0, [.mk "ok" (.bool true)]⟩ _ rfl
      (quietRuntime_escFree _ (by decide)) rfl⟩

end Seezlog
